import Mathlib

/-!
# Teeworlds GhostHunt: collision map, box integrator and reckoning reconciler

A shallow embedding of `src/game/collision.cpp`, of the helpers of
`src/base/math.h` it uses, of the reconciler block that closes
`CCharacter::TickDefered` and the block of `CCharacter::SnapCharacter` that
writes the core (`src/game/server/entities/character.cpp`), and of
`CLayers::InitTilemapSkip` (`src/game/layers.cpp`).  Loops whose bound is not
structural take a fuel argument and return `none` when it runs out.

Number model.  C++ `int` is `ℤ` (no operation of the embedded code comes near
the 32-bit range on a loadable map), `unsigned char` is `ℕ` reduced modulo 256
where it is stored.  The `float` code is embedded twice.

The exact embedding takes `float` as a rational `ℚ` and rounds nothing; only
the unguarded division of `BarycentricCoordinates` carries the non-finite
values of `FloatVal`.  It serves the statements that do not depend on
rounding: data flow, tests relative to the values the code computes, and
invariants of the grid.

The binary32 embedding (namespaces `F32` and `Binary32`) rounds every `float`
operation to nearest, ties to even, with a 24-bit significand, gradual
underflow and overflow to an infinity, as IEEE-754 binary32 arithmetic on an
SSE target does (no excess precision, no fused multiply-add); `sqrtf` is
correctly rounded.  A conversion `(int) f` of a NaN, an infinity or a value
outside the range of `int`, undefined in C++, yields `INT_MIN` as the x86
conversion does.  The sign of a zero is not kept: the embedded code compares
zeros with `<`, `>` and `>=` only, and its zero divisors arise as differences,
which are positive zeros.  The statements about computed numbers are made in
this embedding.
-/

namespace Teeworlds

/-! ## base/math.h and base/vmath.h -/

/-- `clamp` of base/math.h, at type `int`. -/
def clamp (val lo hi : ℤ) : ℤ :=
  if val < lo then lo else if val > hi then hi else val

/-- `sign` of base/math.h: `-1` below zero, `1` otherwise. -/
def sign (f : ℚ) : ℚ :=
  if f < 0 then -1 else 1

/-- The C conversion `(int) f`: truncation toward zero. -/
def truncToInt (f : ℚ) : ℤ :=
  if 0 ≤ f then ⌊f⌋ else ⌈f⌉

/-- `round_to_int` of base/math.h. -/
def round_to_int (f : ℚ) : ℤ :=
  if f > 0 then truncToInt (f + 1 / 2) else truncToInt (f - 1 / 2)

/-- `fx2f` of base/math.h: a 1/1024 fixed-point integer as a float. -/
def fx2f (v : ℤ) : ℚ :=
  (v : ℚ) / 1024

/-- The two-component float vector of base/vmath.h. -/
structure vec2 where
  x : ℚ
  y : ℚ
deriving DecidableEq

instance : Add vec2 := ⟨fun a b => ⟨a.x + b.x, a.y + b.y⟩⟩

instance : Sub vec2 := ⟨fun a b => ⟨a.x - b.x, a.y - b.y⟩⟩

instance : HMul vec2 ℚ vec2 := ⟨fun a s => ⟨a.x * s, a.y * s⟩⟩

/-- `dot` of base/vmath.h. -/
def dot (a b : vec2) : ℚ :=
  a.x * b.x + a.y * b.y

/-- `mix` of base/math.h. -/
def mix (a b : vec2) (amount : ℚ) : vec2 :=
  a + (b - a) * amount

/-- The integer part of the square root of a natural number: the greatest `m`
with `m * m ≤ n`. -/
def floorSqrt (n : ℕ) : ℕ :=
  Nat.findGreatest (fun m => m * m ≤ n) n

/-- The value `(int) length(v)`: `length` is `sqrt(dot(v, v))`, and the integer
part of a square root is the integer square root of the integer part of the
radicand (see `floorLength_spec`). -/
def floorLength (v : vec2) : ℕ :=
  floorSqrt ⌊dot v v⌋₊

/-- The comparison `length(v) > eps` for a non-negative `eps`, decided on the
squares (see `lengthExceeds_spec`). -/
def lengthExceeds (v : vec2) (eps : ℚ) : Bool :=
  decide (eps * eps < dot v v)

/-- Result of a binary32 division, whose divisor may be zero. -/
inductive FloatVal where
  | finite (q : ℚ)
  | posInf
  | negInf
  | nan
deriving DecidableEq

namespace FloatVal

/-- IEEE-754 division `a / b` of two finite values (the zero divisor that
occurs in the embedded code is a positive zero). -/
def div (a b : ℚ) : FloatVal :=
  if b = 0 then
    (if 0 < a then posInf else if a < 0 then negInf else nan)
  else finite (a / b)

/-- IEEE-754 addition. -/
def add : FloatVal → FloatVal → FloatVal
  | finite a, finite b => finite (a + b)
  | nan, _ => nan
  | _, nan => nan
  | posInf, negInf => nan
  | negInf, posInf => nan
  | posInf, _ => posInf
  | _, posInf => posInf
  | negInf, _ => negInf
  | _, negInf => negInf

/-- IEEE-754 negation. -/
def neg : FloatVal → FloatVal
  | finite a => finite (-a)
  | posInf => negInf
  | negInf => posInf
  | nan => nan

/-- IEEE-754 subtraction. -/
def sub (a b : FloatVal) : FloatVal :=
  add a (neg b)

/-- The comparison `a >= c` against a finite constant; false on NaN. -/
def ge (a : FloatVal) (c : ℚ) : Bool :=
  match a with
  | finite q => decide (c ≤ q)
  | posInf => true
  | negInf => false
  | nan => false

/-- The comparison `a < c` against a finite constant; false on NaN. -/
def lt (a : FloatVal) (c : ℚ) : Bool :=
  match a with
  | finite q => decide (q < c)
  | posInf => false
  | negInf => true
  | nan => false

end FloatVal

/-- The three-component float vector of base/vmath.h, as returned by
`BarycentricCoordinates`. -/
structure vec3 where
  x : FloatVal
  y : FloatVal
  z : FloatVal
deriving DecidableEq

/-! ## game/mapitems.h and game/collision.h (declarations) -/

/-- The enumerators `TILE_*` (game/mapitems.h) and `COLFLAG_*`
(game/collision.h) and the default argument of the `PhysicLayer` parameters
(game/collision.h).  Both headers lie outside the embedded sources, so the
values are parameters of the development. -/
structure MapConsts where
  TILE_SOLID : ℤ
  TILE_DEATH : ℤ
  TILE_NOHOOK : ℤ
  TILE_EXPORT : ℤ
  COLFLAG_SOLID : ℤ
  COLFLAG_DEATH : ℤ
  COLFLAG_NOHOOK : ℤ
  COLFLAG_EXPORT : ℤ
  PhysicLayerDefault : Bool

/-- What the code needs of the enumerators: the four `TILE_*` values are
distinct `case` labels within the remapped range, and every flag value fits
the remapped range of an `unsigned char` tile index. -/
structure MapConsts.Valid (k : MapConsts) : Prop where
  solid_ne_death : k.TILE_SOLID ≠ k.TILE_DEATH
  solid_ne_nohook : k.TILE_SOLID ≠ k.TILE_NOHOOK
  solid_ne_export : k.TILE_SOLID ≠ k.TILE_EXPORT
  death_ne_nohook : k.TILE_DEATH ≠ k.TILE_NOHOOK
  death_ne_export : k.TILE_DEATH ≠ k.TILE_EXPORT
  nohook_ne_export : k.TILE_NOHOOK ≠ k.TILE_EXPORT
  tile_solid_le : k.TILE_SOLID ≤ 128
  tile_death_le : k.TILE_DEATH ≤ 128
  tile_nohook_le : k.TILE_NOHOOK ≤ 128
  tile_export_le : k.TILE_EXPORT ≤ 128
  solid_range : 0 ≤ k.COLFLAG_SOLID ∧ k.COLFLAG_SOLID ≤ 128
  death_range : 0 ≤ k.COLFLAG_DEATH ∧ k.COLFLAG_DEATH ≤ 128
  export_range : 0 ≤ k.COLFLAG_EXPORT ∧ k.COLFLAG_EXPORT ≤ 128
  solid_nohook_range :
    0 ≤ Int.lor k.COLFLAG_SOLID k.COLFLAG_NOHOOK ∧
      Int.lor k.COLFLAG_SOLID k.COLFLAG_NOHOOK ≤ 128

/-- A sample assignment of the enumerators: the values of upstream
Teeworlds 0.7 (`TILE_AIR = 0`, `TILE_SOLID`, `TILE_DEATH`, `TILE_NOHOOK`;
flags 1, 2, 4), continued with the next free values for the export tile and
flag; `PhysicLayer` defaults to on. -/
def stockConsts : MapConsts where
  TILE_SOLID := 1
  TILE_DEATH := 2
  TILE_NOHOOK := 3
  TILE_EXPORT := 4
  COLFLAG_SOLID := 1
  COLFLAG_DEATH := 2
  COLFLAG_NOHOOK := 4
  COLFLAG_EXPORT := 8
  PhysicLayerDefault := true

/-- One cell of a tile layer, `CTile` of game/mapitems.h: four
`unsigned char` fields. -/
structure CTile where
  m_Index : ℕ
  m_Flags : ℕ
  m_Skip : ℕ
  m_Reserved : ℕ
deriving DecidableEq

/-- A fixed-point map coordinate, `CPoint` of game/mapitems.h. -/
structure CPoint where
  x : ℤ
  y : ℤ
deriving DecidableEq

/-- The fields of `CQuad` (game/mapitems.h) that the collision code reads:
the four corner points `m_aPoints[0..3]` and `m_ColorEnvOffset`. -/
structure CQuad where
  m_aPoints0 : CPoint
  m_aPoints1 : CPoint
  m_aPoints2 : CPoint
  m_aPoints3 : CPoint
  m_ColorEnvOffset : ℤ
deriving DecidableEq

/-- The data members of `CCollision`.  `m_pTiles` is the game layer, row
major; `m_pPhysicalQuads` is `none` for a null pointer and otherwise holds the
`m_NumQuads` quads of the physical layer. -/
structure CCollision where
  m_Width : ℤ
  m_Height : ℤ
  m_pTiles : List CTile
  m_pPhysicalQuads : Option (List CQuad)
deriving DecidableEq

/-- The map has at least one cell and its tile array has `m_Width * m_Height`
entries. -/
def CCollision.WellFormed (c : CCollision) : Prop :=
  1 ≤ c.m_Width ∧ 1 ≤ c.m_Height ∧ (c.m_pTiles.length : ℤ) = c.m_Width * c.m_Height

/-! ## game/collision.cpp -/

/-- Storing an `int` into an `unsigned char`. -/
def toUChar (v : ℤ) : ℕ :=
  (v % 256).toNat

/-- The body of the tile loop of `CCollision::Init` on one index. -/
def remapTileIndex (k : MapConsts) (Index : ℤ) : ℤ :=
  if Index > 128 then Index
  else if Index = k.TILE_DEATH then k.COLFLAG_DEATH
  else if Index = k.TILE_SOLID then k.COLFLAG_SOLID
  else if Index = k.TILE_NOHOOK then Int.lor k.COLFLAG_SOLID k.COLFLAG_NOHOOK
  else if Index = k.TILE_EXPORT then k.COLFLAG_EXPORT
  else 0

/-- The tile loop of `CCollision::Init` on one tile: `m_Index` is read as an
`int`, remapped, and stored back. -/
def remapTile (k : MapConsts) (t : CTile) : CTile :=
  { t with m_Index := toUChar (remapTileIndex k (t.m_Index : ℤ)) }

/-- The body of the quad loop of `CCollision::Init` on one auxiliary value. -/
def remapQuadIndex (k : MapConsts) (Index : ℤ) : ℤ :=
  if Index > 128 then Index
  else if Index = k.TILE_DEATH then k.COLFLAG_DEATH
  else if Index = k.TILE_EXPORT then k.COLFLAG_EXPORT
  else 0

/-- The quad loop of `CCollision::Init` on one quad. -/
def remapQuad (k : MapConsts) (q : CQuad) : CQuad :=
  { q with m_ColorEnvOffset := remapQuadIndex k q.m_ColorEnvOffset }

/-- `CCollision::Init`: the tile loop runs over the first
`m_Width * m_Height` tiles, the quad loop over every physical quad. -/
def Init (k : MapConsts) (c : CCollision) : CCollision :=
  let n := (c.m_Width * c.m_Height).toNat
  { c with
    m_pTiles := (c.m_pTiles.take n).map (remapTile k) ++ c.m_pTiles.drop n
    m_pPhysicalQuads := c.m_pPhysicalQuads.map (List.map (remapQuad k)) }

/-- `SameSide` of game/collision.cpp. -/
def SameSide (l0 l1 p0 p1 : vec2) : Bool :=
  let l0l1 := l1 - l0
  let l0p0 := p0 - l0
  let l0p1 := p1 - l0
  decide (sign (l0l1.x * l0p0.y - l0l1.y * l0p0.x) = sign (l0l1.x * l0p1.y - l0l1.y * l0p1.x))

/-- `BarycentricCoordinates` of game/collision.cpp. -/
def BarycentricCoordinates (t0 t1 t2 p : vec2) : vec3 :=
  let e0 := t1 - t0
  let e1 := t2 - t0
  let e2 := p - t0
  let d00 := dot e0 e0
  let d01 := dot e0 e1
  let d11 := dot e1 e1
  let d20 := dot e2 e0
  let d21 := dot e2 e1
  let denom := d00 * d11 - d01 * d01
  let bx := FloatVal.div (d11 * d20 - d01 * d21) denom
  let bary_y := FloatVal.div (d00 * d21 - d01 * d20) denom
  { x := bx, y := bary_y, z := FloatVal.sub (FloatVal.sub (FloatVal.finite 1) bx) bary_y }

/-- `InsideTriangle` of game/collision.cpp. -/
def InsideTriangle (t0 t1 t2 p : vec2) : Bool :=
  let bary := BarycentricCoordinates t0 t1 t2 p
  bary.x.ge 0 && bary.y.ge 0 && (FloatVal.add bary.x bary.y).lt 1

/-- `InsideQuad` of game/collision.cpp. -/
def InsideQuad (q0 q1 q2 q3 p : vec2) : Bool :=
  if SameSide q1 q2 p q0 then InsideTriangle q0 q1 q2 p
  else InsideTriangle q1 q2 q3 p

/-- The corner `m_aPoints[i]` of a quad converted with `fx2f`. -/
def quadPoint (p : CPoint) : vec2 :=
  ⟨fx2f p.x, fx2f p.y⟩

/-- The test of the quad loop of `GetTile`: `InsideQuad` on the four converted
corners and the integer point. -/
def quadContains (q : CQuad) (x y : ℤ) : Bool :=
  InsideQuad (quadPoint q.m_aPoints0) (quadPoint q.m_aPoints1) (quadPoint q.m_aPoints2)
    (quadPoint q.m_aPoints3) ⟨(x : ℚ), (y : ℚ)⟩

/-- The read `m_pTiles[i].m_Index` as an `int`.  Outside the array the C++
read is undefined; the model yields 0 there, and `GetTile_cell_in_grid` shows
that a well-formed map is never read outside. -/
def tileIndexAt (c : CCollision) (i : ℤ) : ℤ :=
  if 0 ≤ i then ((c.m_pTiles.getD i.toNat ⟨0, 0, 0, 0⟩).m_Index : ℤ) else 0

/-- The array index `Ny * m_Width + Nx` that `GetTile` computes. -/
def cellIndex (c : CCollision) (x y : ℤ) : ℤ :=
  let Nx := clamp (Int.tdiv x 32) 0 (c.m_Width - 1)
  let Ny := clamp (Int.tdiv y 32) 0 (c.m_Height - 1)
  Ny * c.m_Width + Nx

/-- `CCollision::GetTile`. -/
def GetTile (c : CCollision) (x y : ℤ) (PhysicLayer : Bool) : ℤ :=
  let Index := if tileIndexAt c (cellIndex c x y) > 128 then 0 else tileIndexAt c (cellIndex c x y)
  match PhysicLayer, c.m_pPhysicalQuads with
  | true, some quads =>
    quads.foldl (fun Index q => if quadContains q x y then Int.lor Index q.m_ColorEnvOffset else Index)
      Index
  | _, _ => Index

/-- `CCollision::IsTile`: the `int` result of `&` converted to `bool`. -/
def IsTile (c : CCollision) (x y : ℤ) (Flag : ℤ) (PhysicLayer : Bool) : Bool :=
  decide (Int.land (GetTile c x y PhysicLayer) Flag ≠ 0)

/-- Modelled from the spec: `CheckPoint` is defined inline in game/collision.h,
which lies outside the embedded sources.  `PointHasFlag(point, flag)` is the
"boolean convenience" over the tile flags: `IsTile` at the point, the float
coordinates converted with `round_to_int`. -/
def CheckPoint (c : CCollision) (x y : ℚ) (Flag : ℤ) (PhysicLayer : Bool) : Bool :=
  IsTile c (round_to_int x) (round_to_int y) Flag PhysicLayer

/-- Modelled from the spec: `GetCollisionAt` is defined inline in
game/collision.h, which lies outside the embedded sources.  It is the tile
flags (`GetTile`) at the point, the float coordinates converted with
`round_to_int`. -/
def GetCollisionAt (c : CCollision) (x y : ℚ) (PhysicLayer : Bool) : ℤ :=
  GetTile c (round_to_int x) (round_to_int y) PhysicLayer

/-- The conversion of a `bool` argument passed where an `int` is expected. -/
def boolToInt (b : Bool) : ℤ :=
  if b then 1 else 0

/-- `CCollision::TestBox`. -/
def TestBox (c : CCollision) (Pos Size : vec2) (Flag : ℤ) (PhysicLayer : Bool) : Bool :=
  let Size := Size * (1 / 2 : ℚ)
  if CheckPoint c (Pos.x - Size.x) (Pos.y - Size.y) Flag PhysicLayer then true
  else if CheckPoint c (Pos.x + Size.x) (Pos.y - Size.y) Flag PhysicLayer then true
  else if CheckPoint c (Pos.x - Size.x) (Pos.y + Size.y) Flag PhysicLayer then true
  else if CheckPoint c (Pos.x + Size.x) (Pos.y + Size.y) Flag PhysicLayer then true
  else false

/-- The loop-carried locals of `MoveBox`: `Pos`, `Vel`, and the value written
through `pDeath`. -/
structure MoveState where
  Pos : vec2
  Vel : vec2
  Death : Bool
deriving DecidableEq

/-- One iteration of the loop of `CCollision::MoveBox`.  `pDeath` tells
whether the caller passed a non-null death pointer.  The three-argument calls
`TestBox(.., Size, PhysicLayer)` bind the `bool` to the `int Flag` parameter of
`TestBox` and leave its `PhysicLayer` parameter at the default. -/
def MoveBoxStep (k : MapConsts) (c : CCollision) (Size : vec2) (Elasticity Fraction : ℚ)
    (pDeath PhysicLayer : Bool) (s : MoveState) : MoveState :=
  let Pos := s.Pos
  let Vel := s.Vel
  let NewPos := Pos + Vel * Fraction
  let Death :=
    if pDeath && TestBox c ⟨NewPos.x, NewPos.y⟩ (Size * (2 / 3 : ℚ)) k.COLFLAG_DEATH
        k.PhysicLayerDefault then true
    else s.Death
  if TestBox c ⟨NewPos.x, NewPos.y⟩ Size (boolToInt PhysicLayer) k.PhysicLayerDefault then
    let hitY := TestBox c ⟨Pos.x, NewPos.y⟩ Size (boolToInt PhysicLayer) k.PhysicLayerDefault
    let NewPosY := if hitY then Pos.y else NewPos.y
    let VelY := if hitY then Vel.y * -Elasticity else Vel.y
    let hitX := TestBox c ⟨NewPos.x, Pos.y⟩ Size (boolToInt PhysicLayer) k.PhysicLayerDefault
    let NewPosX := if hitX then Pos.x else NewPos.x
    let VelX := if hitX then Vel.x * -Elasticity else Vel.x
    let Hits : ℕ := (if hitY then 1 else 0) + (if hitX then 1 else 0)
    if Hits = 0 then
      { Pos := ⟨Pos.x, Pos.y⟩, Vel := ⟨VelX * -Elasticity, VelY * -Elasticity⟩, Death := Death }
    else
      { Pos := ⟨NewPosX, NewPosY⟩, Vel := ⟨VelX, VelY⟩, Death := Death }
  else
    { Pos := NewPos, Vel := Vel, Death := Death }

/-- `CCollision::MoveBox`: the returned state holds `*pInoutPos`, `*pInoutVel`
and `*pDeath`. -/
def MoveBox (k : MapConsts) (c : CCollision) (Pos Vel Size : vec2) (Elasticity : ℚ)
    (pDeath PhysicLayer : Bool) : MoveState :=
  let Max := floorLength Vel
  if lengthExceeds Vel (1 / 100000) then
    let Fraction : ℚ := 1 / ((Max : ℚ) + 1)
    (MoveBoxStep k c Size Elasticity Fraction pDeath PhysicLayer)^[Max + 1] ⟨Pos, Vel, false⟩
  else ⟨Pos, Vel, false⟩

/-- The return value of `IntersectLine` and the values it writes through
`pOutCollision` and `pOutBeforeCollision`. -/
structure LineHit where
  Flags : ℤ
  OutCollision : vec2
  OutBeforeCollision : vec2
deriving DecidableEq

/-- The sample points `mix(Pos0, Pos1, i * InverseEnd)` for `i = 0 .. End` of
`IntersectLine`, with `End = (int)(distance(Pos0, Pos1) + 1)`. -/
def lineSamples (Pos0 Pos1 : vec2) : List vec2 :=
  let End := floorLength (Pos0 - Pos1) + 1
  let InverseEnd : ℚ := 1 / (End : ℚ)
  (List.range (End + 1)).map fun (i : ℕ) => mix Pos0 Pos1 ((i : ℚ) * InverseEnd)

/-- The loop of `IntersectLine` over the remaining samples, `Last` being the
previous sample.  The call `CheckPoint(Pos.x, Pos.y, PhysicLayer)` binds the
`bool` to the `int Flag` parameter and leaves the layer at its default. -/
def IntersectLineScan (k : MapConsts) (c : CCollision) (Pos1 : vec2) (PhysicLayer : Bool) :
    List vec2 → vec2 → LineHit
  | [], _ => ⟨0, Pos1, Pos1⟩
  | Pos :: rest, Last =>
    if CheckPoint c Pos.x Pos.y (boolToInt PhysicLayer) k.PhysicLayerDefault then
      ⟨GetCollisionAt c Pos.x Pos.y PhysicLayer, Pos, Last⟩
    else IntersectLineScan k c Pos1 PhysicLayer rest Pos

/-- `CCollision::IntersectLine`. -/
def IntersectLine (k : MapConsts) (c : CCollision) (Pos0 Pos1 : vec2) (PhysicLayer : Bool) :
    LineHit :=
  IntersectLineScan k c Pos1 PhysicLayer (lineSamples Pos0 Pos1) Pos0

/-- The values `MovePoint` leaves in `*pInoutPos` and `*pInoutVel` and the
count it writes through `pBounces`. -/
structure PointMove where
  Pos : vec2
  Vel : vec2
  Bounces : ℤ
deriving DecidableEq

/-- `CCollision::MovePoint`.  The calls `CheckPoint(.., PhysicLayer)` bind the
`bool` to the `int Flag` parameter, as in `IntersectLine`; the tests read the
local copies `Pos` and `Vel`, the updates go to `*pInoutVel`. -/
def MovePoint (k : MapConsts) (c : CCollision) (Pos Vel : vec2) (Elasticity : ℚ)
    (PhysicLayer : Bool) : PointMove :=
  if CheckPoint c (Pos + Vel).x (Pos + Vel).y (boolToInt PhysicLayer) k.PhysicLayerDefault then
    let hitX := CheckPoint c (Pos.x + Vel.x) Pos.y (boolToInt PhysicLayer) k.PhysicLayerDefault
    let VelX := if hitX then Vel.x * -Elasticity else Vel.x
    let hitY := CheckPoint c Pos.x (Pos.y + Vel.y) (boolToInt PhysicLayer) k.PhysicLayerDefault
    let VelY := if hitY then Vel.y * -Elasticity else Vel.y
    let Affected : ℤ := (if hitX then 1 else 0) + (if hitY then 1 else 0)
    if Affected = 0 then
      { Pos := Pos, Vel := ⟨VelX * -Elasticity, VelY * -Elasticity⟩, Bounces := Affected }
    else
      { Pos := Pos, Vel := ⟨VelX, VelY⟩, Bounces := Affected }
  else
    { Pos := Pos + Vel, Vel := Vel, Bounces := 0 }

/-! ## game/server/entities/character.cpp: the reckoning reconciler -/

/-- The members of `CCharacter` that the reconciler reads and writes, over an
arbitrary type of character cores. -/
structure Reckoning (Core : Type) where
  m_ReckoningTick : ℤ
  m_SendCore : Core
  m_ReckoningCore : Core
  m_Core : Core

/-- The closing block of `CCharacter::TickDefered` ("update the m_SendCore if
needed").  `Write` is `CCharacterCore::Write` into a zeroed
`CNetObj_Character`; `mem_comp` of the two objects is equality of the two
serialisations. -/
def updateSendCore {Core Ser : Type} [DecidableEq Ser] (Write : Core → Ser)
    (TickSpeed Tick : ℤ) (s : Reckoning Core) : Reckoning Core :=
  let Predicted := Write s.m_ReckoningCore
  let Current := Write s.m_Core
  if s.m_ReckoningTick + TickSpeed * 3 < Tick ∨ Predicted ≠ Current then
    { s with m_ReckoningTick := Tick, m_SendCore := s.m_Core, m_ReckoningCore := s.m_Core }
  else s

/-- `CCharacter::TickDefered` on the reconciler's members.  `advanceDummy` is
the advance of `m_ReckoningCore` on the private world (`Init`, `Tick(false)`,
`Move`, `Quantize`), `advanceCore` everything the function does to `m_Core`
before the closing block; neither touches `m_ReckoningTick` or `m_SendCore`. -/
def TickDefered {Core Ser : Type} [DecidableEq Ser] (Write : Core → Ser)
    (advanceDummy advanceCore : Core → Core) (TickSpeed Tick : ℤ) (s : Reckoning Core) :
    Reckoning Core :=
  updateSendCore Write TickSpeed Tick
    { s with m_ReckoningCore := advanceDummy s.m_ReckoningCore, m_Core := advanceCore s.m_Core }

/-- The two parts of the snapshot item that the block "write down the m_Core"
of `CCharacter::SnapCharacter` stores: `m_Tick`, set by `SnapCharacter`
itself, and the core fields, filled by `CCharacterCore::Write`. -/
structure CharacterSnap (Ser : Type) where
  m_Tick : ℤ
  Core : Ser
deriving DecidableEq

/-- The block "write down the m_Core" of `CCharacter::SnapCharacter`;
`m_Paused` is `GameWorld()->m_Paused`. -/
def SnapCharacter {Core Ser : Type} (Write : Core → Ser) (m_Paused : Bool)
    (s : Reckoning Core) : CharacterSnap Ser :=
  if s.m_ReckoningTick = 0 ∨ m_Paused = true then
    { m_Tick := 0, Core := Write s.m_Core }
  else
    { m_Tick := s.m_ReckoningTick, Core := Write s.m_SendCore }

/-- The reconciler's members as `CCharacter::Spawn` leaves them:
`m_ReckoningTick = 0`, `m_SendCore` and `m_ReckoningCore` zeroed with
`mem_zero` (`zero`), `m_Core` reset and placed (`core`). -/
def Spawn {Core : Type} (zero core : Core) : Reckoning Core :=
  { m_ReckoningTick := 0, m_SendCore := zero, m_ReckoningCore := zero, m_Core := core }

/-! ## game/layers.cpp -/

/-- A layer of the map as `InitTilemapSkip` sees it: a tile layer
(`LAYERTYPE_TILES`) with its `m_Width`, `m_Height` and the tile array that
`Map()->GetData(pTilemap->m_Data)` returns, or a layer of another type. -/
inductive CMapItemLayer where
  | tilemap (m_Width m_Height : ℤ) (pTiles : List CTile)
  | other
deriving DecidableEq

/-- The read `pTiles[i].m_Index`.  Outside the array the C++ read is
undefined; the model yields 0 there. -/
def tileIndexOf (pTiles : List CTile) (i : ℤ) : ℕ :=
  (pTiles.getD i.toNat ⟨0, 0, 0, 0⟩).m_Index

/-- The store `pTiles[i].m_Skip = v`. -/
def setSkip (pTiles : List CTile) (i : ℤ) (v : ℤ) : List CTile :=
  pTiles.set i.toNat { pTiles.getD i.toNat ⟨0, 0, 0, 0⟩ with m_Skip := toUChar v }

/-- The innermost loop of `CLayers::InitTilemapSkip`, entered with the current
value of `SkippedX`; the result is `SkippedX` at the exit of the loop, `none`
when the fuel runs out first. -/
def skipScan (pTiles : List CTile) (Width : ℤ) (y x : ℕ) : ℕ → ℕ → Option ℕ
  | 0, _ => none
  | fuel + 1, SkippedX =>
    if ((x + SkippedX : ℕ) : ℤ) < Width ∧ SkippedX < 255 then
      if tileIndexOf pTiles ((y : ℤ) * Width + (x : ℤ) + (SkippedX : ℤ)) ≠ 0 then some SkippedX
      else skipScan pTiles Width y x fuel (SkippedX + 1)
    else some SkippedX

/-- The loop over `x` of `CLayers::InitTilemapSkip` for row `y`, entered with
the current value of `x`. -/
def skipRow (Width : ℤ) (y : ℕ) : ℕ → ℕ → List CTile → Option (List CTile)
  | 0, _, _ => none
  | fuel + 1, x, pTiles =>
    if (x : ℤ) < Width then
      match skipScan pTiles Width y x fuel 1 with
      | none => none
      | some SkippedX =>
        skipRow Width y fuel (x + SkippedX)
          (setSkip pTiles ((y : ℤ) * Width + (x : ℤ)) ((SkippedX : ℤ) - 1))
    else some pTiles

/-- The loop over `y` of `CLayers::InitTilemapSkip`, entered with the current
value of `y`. -/
def skipRows (Width Height : ℤ) : ℕ → ℕ → List CTile → Option (List CTile)
  | 0, _, _ => none
  | fuel + 1, y, pTiles =>
    if (y : ℤ) < Height then
      match skipRow Width y fuel 1 pTiles with
      | none => none
      | some pTiles1 => skipRows Width Height fuel (y + 1) pTiles1
    else some pTiles

/-- The body of the two layer loops of `CLayers::InitTilemapSkip` on one
layer. -/
def layerSkip (fuel : ℕ) : CMapItemLayer → Option CMapItemLayer
  | CMapItemLayer.tilemap Width Height pTiles =>
    (skipRows Width Height fuel 0 pTiles).map (CMapItemLayer.tilemap Width Height)
  | CMapItemLayer.other => some CMapItemLayer.other

/-- `CLayers::InitTilemapSkip` on the layers in the order in which the loops
over the groups and their layers visit them. -/
def InitTilemapSkip (fuel : ℕ) : List CMapItemLayer → Option (List CMapItemLayer)
  | [] => some []
  | L :: rest =>
    match layerSkip fuel L, InitTilemapSkip fuel rest with
    | some L1, some rest1 => some (L1 :: rest1)
    | _, _ => none

/-! ## binary32 arithmetic -/

namespace F32

/-- The integer part of the binary logarithm of `n` (0 for `n ≤ 1`), by
halving; the fuel bounds the number of halvings. -/
def log2Aux : ℕ → ℕ → ℕ
  | 0, _ => 0
  | fuel + 1, n => if 2 ≤ n then log2Aux fuel (n / 2) + 1 else 0

/-- The integer part of the binary logarithm of a natural number. -/
def natLog2 (n : ℕ) : ℕ :=
  log2Aux n n

/-- The power `2 ^ e` for an integer exponent. -/
def pow2 (e : ℤ) : ℚ :=
  if 0 ≤ e then ((2 ^ e.toNat : ℕ) : ℚ) else 1 / ((2 ^ (-e).toNat : ℕ) : ℚ)

/-- The integer part of the binary logarithm of a positive rational. -/
def ilog2 (a : ℚ) : ℤ :=
  let e : ℤ := (natLog2 a.num.natAbs : ℤ) - (natLog2 a.den : ℤ)
  if pow2 e ≤ a then e else e - 1

/-- Rounding of a non-negative rational to the nearest integer, ties to the
even one. -/
def roundHalfEven (m : ℚ) : ℤ :=
  let f := ⌊m⌋
  let r := m - (f : ℚ)
  if r < 1 / 2 then f
  else if 1 / 2 < r then f + 1
  else if f % 2 = 0 then f else f + 1

/-- The binary32 value of a real result: rounding to nearest, ties to even,
with a 24-bit significand, gradual underflow below `2 ^ -126` and overflow to
an infinity from `2 ^ 128` on. -/
def round (q : ℚ) : FloatVal :=
  if q = 0 then FloatVal.finite 0
  else
    let a := |q|
    let e := max (ilog2 a) (-126)
    let ulp := pow2 (e - 23)
    let r := (roundHalfEven (a / ulp) : ℚ) * ulp
    if pow2 128 ≤ r then (if 0 < q then FloatVal.posInf else FloatVal.negInf)
    else FloatVal.finite (if 0 < q then r else -r)

/-- The sign of a value that is not zero or NaN is what decides the sign of
an infinite product or quotient. -/
def isNeg : FloatVal → Bool
  | FloatVal.finite q => decide (q < 0)
  | FloatVal.posInf => false
  | FloatVal.negInf => true
  | FloatVal.nan => false

/-- The infinity of the given sign. -/
def inf (neg : Bool) : FloatVal :=
  if neg then FloatVal.negInf else FloatVal.posInf

/-- Binary32 addition. -/
def add : FloatVal → FloatVal → FloatVal
  | FloatVal.finite a, FloatVal.finite b => round (a + b)
  | FloatVal.nan, _ => FloatVal.nan
  | _, FloatVal.nan => FloatVal.nan
  | FloatVal.posInf, FloatVal.negInf => FloatVal.nan
  | FloatVal.negInf, FloatVal.posInf => FloatVal.nan
  | FloatVal.posInf, _ => FloatVal.posInf
  | _, FloatVal.posInf => FloatVal.posInf
  | FloatVal.negInf, _ => FloatVal.negInf
  | _, FloatVal.negInf => FloatVal.negInf

/-- Binary32 negation. -/
def neg : FloatVal → FloatVal
  | FloatVal.finite a => FloatVal.finite (-a)
  | FloatVal.posInf => FloatVal.negInf
  | FloatVal.negInf => FloatVal.posInf
  | FloatVal.nan => FloatVal.nan

/-- Binary32 subtraction. -/
def sub (a b : FloatVal) : FloatVal :=
  add a (neg b)

/-- Binary32 multiplication. -/
def mul : FloatVal → FloatVal → FloatVal
  | FloatVal.finite a, FloatVal.finite b => round (a * b)
  | FloatVal.nan, _ => FloatVal.nan
  | _, FloatVal.nan => FloatVal.nan
  | FloatVal.finite a, b => if a = 0 then FloatVal.nan else inf (xor (decide (a < 0)) (isNeg b))
  | a, FloatVal.finite b => if b = 0 then FloatVal.nan else inf (xor (isNeg a) (decide (b < 0)))
  | a, b => inf (xor (isNeg a) (isNeg b))

/-- Binary32 division.  A zero divisor is taken as a positive zero. -/
def div : FloatVal → FloatVal → FloatVal
  | FloatVal.finite a, FloatVal.finite b =>
    if b = 0 then (if 0 < a then FloatVal.posInf else if a < 0 then FloatVal.negInf else FloatVal.nan)
    else round (a / b)
  | FloatVal.nan, _ => FloatVal.nan
  | _, FloatVal.nan => FloatVal.nan
  | FloatVal.finite _, _ => FloatVal.finite 0
  | a, FloatVal.finite b => inf (xor (isNeg a) (decide (b < 0)))
  | _, _ => FloatVal.nan

/-- The integer square root by binary search over the bits, from bit `b - 1`
down. -/
def isqrtAux (n : ℕ) : ℕ → ℕ → ℕ
  | 0, r => r
  | b + 1, r =>
    if (r + 2 ^ b) * (r + 2 ^ b) ≤ n then isqrtAux n b (r + 2 ^ b) else isqrtAux n b r

/-- The integer part of the square root of a natural number. -/
def isqrt (n : ℕ) : ℕ :=
  isqrtAux n (natLog2 n / 2 + 1) 0

/-- The correctly rounded square root `sqrtf`.  The radicand is scaled by a
power of 4 so that the integer part `s` of its root has more than 30 bits; a
root that is not exactly `s` lies strictly between `s` and `s + 1` and rounds
like their midpoint. -/
def sqrt : FloatVal → FloatVal
  | FloatVal.finite a =>
    if a < 0 then FloatVal.nan
    else if a = 0 then FloatVal.finite 0
    else
      let t : ℤ := max 0 ((61 - ilog2 a) / 2)
      let s := isqrt ⌊a * pow2 (2 * t)⌋₊
      if a * pow2 (2 * t) = ((s * s : ℕ) : ℚ) then round ((s : ℚ) / pow2 t)
      else round (((2 * s + 1 : ℕ) : ℚ) / pow2 (t + 1))
  | FloatVal.posInf => FloatVal.posInf
  | FloatVal.negInf => FloatVal.nan
  | FloatVal.nan => FloatVal.nan

/-- The comparison `a < b`; false when an operand is NaN. -/
def lt : FloatVal → FloatVal → Bool
  | FloatVal.finite a, FloatVal.finite b => decide (a < b)
  | FloatVal.nan, _ => false
  | _, FloatVal.nan => false
  | FloatVal.negInf, FloatVal.negInf => false
  | FloatVal.negInf, _ => true
  | _, FloatVal.negInf => false
  | FloatVal.posInf, _ => false
  | _, FloatVal.posInf => true

/-- The comparison `a >= b`; false when an operand is NaN. -/
def ge : FloatVal → FloatVal → Bool
  | FloatVal.nan, _ => false
  | _, FloatVal.nan => false
  | a, b => !lt a b

/-- The conversion of an `int` to `float`. -/
def ofInt (z : ℤ) : FloatVal :=
  round (z : ℚ)

/-- The conversion `(int) f`: truncation toward zero.  For a NaN, an infinity
or a value outside the range of `int` the C++ conversion is undefined; the
model takes the value the x86 conversion instruction yields, `INT_MIN`. -/
def toInt : FloatVal → ℤ
  | FloatVal.finite a =>
    if -2147483648 ≤ truncToInt a ∧ truncToInt a ≤ 2147483647 then truncToInt a
    else -2147483648
  | _ => -2147483648

end F32

/-! ## The float code in binary32

The functions of game/collision.cpp that compute with `float`, with every
operation rounded as binary32 does.  Integer data (`CCollision`, `MapConsts`,
`clamp`, the tile part of `GetTile`) is shared with the exact embedding. -/

namespace Binary32

/-- Modelled from the spec: the two-component float vector of base/vmath.h,
which lies outside the embedded sources; sum, difference and the product with
a scalar are taken componentwise. -/
structure vec2 where
  x : FloatVal
  y : FloatVal
deriving DecidableEq

instance : Add vec2 := ⟨fun a b => ⟨F32.add a.x b.x, F32.add a.y b.y⟩⟩

instance : Sub vec2 := ⟨fun a b => ⟨F32.sub a.x b.x, F32.sub a.y b.y⟩⟩

instance : HMul vec2 FloatVal vec2 := ⟨fun a s => ⟨F32.mul a.x s, F32.mul a.y s⟩⟩

/-- A vector of two rationals, taken as float components. -/
def ofExact (v : Teeworlds.vec2) : vec2 :=
  ⟨FloatVal.finite v.x, FloatVal.finite v.y⟩

/-- `sign` of base/math.h. -/
def sign (f : FloatVal) : FloatVal :=
  if F32.lt f (FloatVal.finite 0) then FloatVal.finite (-1) else FloatVal.finite 1

/-- `round_to_int` of base/math.h. -/
def round_to_int (f : FloatVal) : ℤ :=
  if F32.lt (FloatVal.finite 0) f then F32.toInt (F32.add f (FloatVal.finite (1 / 2)))
  else F32.toInt (F32.sub f (FloatVal.finite (1 / 2)))

/-- `fx2f` of base/math.h: `v / (float) fxpscale`. -/
def fx2f (v : ℤ) : FloatVal :=
  F32.div (F32.ofInt v) (FloatVal.finite 1024)

/-- Modelled from the spec: `dot` of base/vmath.h,
`a.x * b.x + a.y * b.y`. -/
def dot (a b : vec2) : FloatVal :=
  F32.add (F32.mul a.x b.x) (F32.mul a.y b.y)

/-- Modelled from the spec: `length` of base/vmath.h, the magnitude
`sqrtf(a.x * a.x + a.y * a.y)` of the vector. -/
def length (a : vec2) : FloatVal :=
  F32.sqrt (F32.add (F32.mul a.x a.x) (F32.mul a.y a.y))

/-- Modelled from the spec: `distance` of base/vmath.h, `length(a - b)`. -/
def distance (a b : vec2) : FloatVal :=
  length (a - b)

/-- `mix` of base/math.h. -/
def mix (a b : vec2) (amount : FloatVal) : vec2 :=
  a + (b - a) * amount

/-- `SameSide` of game/collision.cpp. -/
def SameSide (l0 l1 p0 p1 : vec2) : Bool :=
  let l0l1 := l1 - l0
  let l0p0 := p0 - l0
  let l0p1 := p1 - l0
  decide (sign (F32.sub (F32.mul l0l1.x l0p0.y) (F32.mul l0l1.y l0p0.x))
    = sign (F32.sub (F32.mul l0l1.x l0p1.y) (F32.mul l0l1.y l0p1.x)))

/-- The local `denom` of `BarycentricCoordinates`. -/
def denom (t0 t1 t2 : vec2) : FloatVal :=
  F32.sub (F32.mul (dot (t1 - t0) (t1 - t0)) (dot (t2 - t0) (t2 - t0)))
    (F32.mul (dot (t1 - t0) (t2 - t0)) (dot (t1 - t0) (t2 - t0)))

/-- `BarycentricCoordinates` of game/collision.cpp. -/
def BarycentricCoordinates (t0 t1 t2 p : vec2) : vec3 :=
  let e0 := t1 - t0
  let e1 := t2 - t0
  let e2 := p - t0
  let d00 := dot e0 e0
  let d01 := dot e0 e1
  let d11 := dot e1 e1
  let d20 := dot e2 e0
  let d21 := dot e2 e1
  let bx := F32.div (F32.sub (F32.mul d11 d20) (F32.mul d01 d21)) (denom t0 t1 t2)
  let bary_y := F32.div (F32.sub (F32.mul d00 d21) (F32.mul d01 d20)) (denom t0 t1 t2)
  { x := bx, y := bary_y, z := F32.sub (F32.sub (FloatVal.finite 1) bx) bary_y }

/-- `InsideTriangle` of game/collision.cpp. -/
def InsideTriangle (t0 t1 t2 p : vec2) : Bool :=
  let bary := BarycentricCoordinates t0 t1 t2 p
  F32.ge bary.x (FloatVal.finite 0) && F32.ge bary.y (FloatVal.finite 0) &&
    F32.lt (F32.add bary.x bary.y) (FloatVal.finite 1)

/-- `InsideQuad` of game/collision.cpp. -/
def InsideQuad (q0 q1 q2 q3 p : vec2) : Bool :=
  if SameSide q1 q2 p q0 then InsideTriangle q0 q1 q2 p
  else InsideTriangle q1 q2 q3 p

/-- The corner `m_aPoints[i]` of a quad converted with `fx2f`. -/
def quadPoint (p : CPoint) : vec2 :=
  ⟨fx2f p.x, fx2f p.y⟩

/-- The test of the quad loop of `GetTile`: `InsideQuad` on the four converted
corners and `vec2(x, y)`. -/
def quadContains (q : CQuad) (x y : ℤ) : Bool :=
  InsideQuad (quadPoint q.m_aPoints0) (quadPoint q.m_aPoints1) (quadPoint q.m_aPoints2)
    (quadPoint q.m_aPoints3) ⟨F32.ofInt x, F32.ofInt y⟩

/-- `CCollision::GetTile`. -/
def GetTile (c : CCollision) (x y : ℤ) (PhysicLayer : Bool) : ℤ :=
  let Index := if tileIndexAt c (cellIndex c x y) > 128 then 0 else tileIndexAt c (cellIndex c x y)
  match PhysicLayer, c.m_pPhysicalQuads with
  | true, some quads =>
    quads.foldl (fun Index q => if quadContains q x y then Int.lor Index q.m_ColorEnvOffset else Index)
      Index
  | _, _ => Index

/-- `CCollision::IsTile`. -/
def IsTile (c : CCollision) (x y : ℤ) (Flag : ℤ) (PhysicLayer : Bool) : Bool :=
  decide (Int.land (GetTile c x y PhysicLayer) Flag ≠ 0)

/-- Modelled from the spec: `CheckPoint` is defined inline in game/collision.h,
which lies outside the embedded sources; it is `IsTile` at the point, the
float coordinates converted with `round_to_int`. -/
def CheckPoint (c : CCollision) (x y : FloatVal) (Flag : ℤ) (PhysicLayer : Bool) : Bool :=
  IsTile c (round_to_int x) (round_to_int y) Flag PhysicLayer

/-- Modelled from the spec: `GetCollisionAt` is defined inline in
game/collision.h, which lies outside the embedded sources; it is `GetTile` at
the point, the float coordinates converted with `round_to_int`. -/
def GetCollisionAt (c : CCollision) (x y : FloatVal) (PhysicLayer : Bool) : ℤ :=
  GetTile c (round_to_int x) (round_to_int y) PhysicLayer

/-- `CCollision::TestBox`. -/
def TestBox (c : CCollision) (Pos Size : vec2) (Flag : ℤ) (PhysicLayer : Bool) : Bool :=
  let Size := Size * FloatVal.finite (1 / 2)
  if CheckPoint c (F32.sub Pos.x Size.x) (F32.sub Pos.y Size.y) Flag PhysicLayer then true
  else if CheckPoint c (F32.add Pos.x Size.x) (F32.sub Pos.y Size.y) Flag PhysicLayer then true
  else if CheckPoint c (F32.sub Pos.x Size.x) (F32.add Pos.y Size.y) Flag PhysicLayer then true
  else if CheckPoint c (F32.add Pos.x Size.x) (F32.add Pos.y Size.y) Flag PhysicLayer then true
  else false

/-- The loop-carried locals of `MoveBox`: `Pos`, `Vel`, and the value written
through `pDeath`. -/
structure MoveState where
  Pos : vec2
  Vel : vec2
  Death : Bool
deriving DecidableEq

/-- The constant `2.0f / 3.0f`, folded in binary32. -/
def twoThirds : FloatVal :=
  F32.div (FloatVal.finite 2) (FloatVal.finite 3)

/-- The constant `0.00001f`. -/
def epsilon : FloatVal :=
  F32.round (1 / 100000)

/-- One iteration of the loop of `CCollision::MoveBox`, as `MoveBoxStep` of the
exact embedding. -/
def MoveBoxStep (k : MapConsts) (c : CCollision) (Size : vec2) (Elasticity Fraction : FloatVal)
    (pDeath PhysicLayer : Bool) (s : MoveState) : MoveState :=
  let Pos := s.Pos
  let Vel := s.Vel
  let NewPos := Pos + Vel * Fraction
  let Death :=
    if pDeath && TestBox c ⟨NewPos.x, NewPos.y⟩ (Size * twoThirds) k.COLFLAG_DEATH
        k.PhysicLayerDefault then true
    else s.Death
  if TestBox c ⟨NewPos.x, NewPos.y⟩ Size (boolToInt PhysicLayer) k.PhysicLayerDefault then
    let hitY := TestBox c ⟨Pos.x, NewPos.y⟩ Size (boolToInt PhysicLayer) k.PhysicLayerDefault
    let NewPosY := if hitY then Pos.y else NewPos.y
    let VelY := if hitY then F32.mul Vel.y (F32.neg Elasticity) else Vel.y
    let hitX := TestBox c ⟨NewPos.x, Pos.y⟩ Size (boolToInt PhysicLayer) k.PhysicLayerDefault
    let NewPosX := if hitX then Pos.x else NewPos.x
    let VelX := if hitX then F32.mul Vel.x (F32.neg Elasticity) else Vel.x
    let Hits : ℕ := (if hitY then 1 else 0) + (if hitX then 1 else 0)
    if Hits = 0 then
      { Pos := ⟨Pos.x, Pos.y⟩,
        Vel := ⟨F32.mul VelX (F32.neg Elasticity), F32.mul VelY (F32.neg Elasticity)⟩,
        Death := Death }
    else
      { Pos := ⟨NewPosX, NewPosY⟩, Vel := ⟨VelX, VelY⟩, Death := Death }
  else
    { Pos := NewPos, Vel := Vel, Death := Death }

/-- The local `Max` of `MoveBox`: `(int) Distance`. -/
def maxOf (Vel : vec2) : ℤ :=
  F32.toInt (length Vel)

/-- The local `Fraction` of `MoveBox`: `1.0f / (Max + 1)`. -/
def fractionOf (Vel : vec2) : FloatVal :=
  F32.div (FloatVal.finite 1) (F32.ofInt (maxOf Vel + 1))

/-- The number of runs of the loop `for(int i = 0; i <= Max; i++)`. -/
def subStepCount (Vel : vec2) : ℕ :=
  (maxOf Vel + 1).toNat

/-- `CCollision::MoveBox`: the returned state holds `*pInoutPos`, `*pInoutVel`
and `*pDeath`. -/
def MoveBox (k : MapConsts) (c : CCollision) (Pos Vel Size : vec2) (Elasticity : FloatVal)
    (pDeath PhysicLayer : Bool) : MoveState :=
  if F32.lt epsilon (length Vel) then
    (MoveBoxStep k c Size Elasticity (fractionOf Vel) pDeath PhysicLayer)^[subStepCount Vel]
      ⟨Pos, Vel, false⟩
  else ⟨Pos, Vel, false⟩

/-- The value written through `pOutCollision`, through `pOutBeforeCollision`
and returned by `IntersectLine`. -/
structure LineHit where
  Flags : ℤ
  OutCollision : vec2
  OutBeforeCollision : vec2
deriving DecidableEq

/-- The local `End` of `IntersectLine`: `distance(Pos0, Pos1) + 1` converted
to `int`. -/
def endOf (Pos0 Pos1 : vec2) : ℤ :=
  F32.toInt (F32.add (distance Pos0 Pos1) (FloatVal.finite 1))

/-- The sample points `mix(Pos0, Pos1, i * InverseEnd)` for `i = 0 .. End` of
`IntersectLine`. -/
def lineSamples (Pos0 Pos1 : vec2) : List vec2 :=
  let InverseEnd := F32.div (FloatVal.finite 1) (F32.ofInt (endOf Pos0 Pos1))
  (List.range (endOf Pos0 Pos1 + 1).toNat).map fun (i : ℕ) =>
    mix Pos0 Pos1 (F32.mul (F32.ofInt (i : ℤ)) InverseEnd)

/-- The loop of `IntersectLine` over the remaining samples, `Last` being the
previous sample. -/
def IntersectLineScan (k : MapConsts) (c : CCollision) (Pos1 : vec2) (PhysicLayer : Bool) :
    List vec2 → vec2 → LineHit
  | [], _ => ⟨0, Pos1, Pos1⟩
  | Pos :: rest, Last =>
    if CheckPoint c Pos.x Pos.y (boolToInt PhysicLayer) k.PhysicLayerDefault then
      ⟨GetCollisionAt c Pos.x Pos.y PhysicLayer, Pos, Last⟩
    else IntersectLineScan k c Pos1 PhysicLayer rest Pos

/-- `CCollision::IntersectLine`. -/
def IntersectLine (k : MapConsts) (c : CCollision) (Pos0 Pos1 : vec2) (PhysicLayer : Bool) :
    LineHit :=
  IntersectLineScan k c Pos1 PhysicLayer (lineSamples Pos0 Pos1) Pos0

end Binary32

/-! ## Specification-side notions and sample data -/

/-- The flags `GetTile` takes from a tile (the first statement of its body):
the tile's index, or no flag when the index is above 128. -/
def tileFlags (t : CTile) : ℤ :=
  if (t.m_Index : ℤ) > 128 then 0 else (t.m_Index : ℤ)

/-- The flag set that the tile loop of `Init` assigns to a raw index of at
most 128. -/
def tileFlagOf (k : MapConsts) (raw : ℤ) : ℤ :=
  if raw = k.TILE_SOLID then k.COLFLAG_SOLID
  else if raw = k.TILE_DEATH then k.COLFLAG_DEATH
  else if raw = k.TILE_NOHOOK then Int.lor k.COLFLAG_SOLID k.COLFLAG_NOHOOK
  else if raw = k.TILE_EXPORT then k.COLFLAG_EXPORT
  else 0

/-- Every tile index is a value of an `unsigned char`. -/
def CCollision.ByteTiles (c : CCollision) : Prop :=
  ∀ t ∈ c.m_pTiles, t.m_Index < 256

/-- The enumerator values that upstream Teeworlds fixes for the map format
(`TILE_AIR = 0`, then solid, death, no-hook) and for the collision flags; the
export tile is some other enumerator than `TILE_AIR`. -/
structure MapConsts.Upstream (k : MapConsts) : Prop where
  tile_solid : k.TILE_SOLID = 1
  tile_death : k.TILE_DEATH = 2
  tile_nohook : k.TILE_NOHOOK = 3
  flag_solid : k.COLFLAG_SOLID = 1
  flag_death : k.COLFLAG_DEATH = 2
  flag_nohook : k.COLFLAG_NOHOOK = 4
  tile_export_ne_air : k.TILE_EXPORT ≠ 0

/-- Twice the signed area of the triangle `(t0, t1, t2)`. -/
def cross (t0 t1 t2 : vec2) : ℚ :=
  (t1.x - t0.x) * (t2.y - t0.y) - (t1.y - t0.y) * (t2.x - t0.x)

/-- A map of a single tile with the given raw index and no physical layer. -/
def oneTileMap (Index : ℕ) : CCollision :=
  { m_Width := 1, m_Height := 1, m_pTiles := [⟨Index, 0, 0, 0⟩], m_pPhysicalQuads := none }

/-- The quad with corners (0,0), (10,0), (10,10), (0,10) in fixed point,
carrying the given auxiliary value. -/
def squareQuad (Index : ℤ) : CQuad :=
  { m_aPoints0 := ⟨0, 0⟩, m_aPoints1 := ⟨10240, 0⟩, m_aPoints2 := ⟨10240, 10240⟩,
    m_aPoints3 := ⟨0, 10240⟩, m_ColorEnvOffset := Index }

/-- A 2x2 map of empty tiles with `squareQuad Index` as its only physical
quad. -/
def quadMap (Index : ℤ) : CCollision :=
  { m_Width := 2, m_Height := 2, m_pTiles := List.replicate 4 ⟨0, 0, 0, 0⟩,
    m_pPhysicalQuads := some [squareQuad Index] }

/-- A row of three tiles with a death tile in the middle (raw indices). -/
def deathRow : CCollision :=
  { m_Width := 3, m_Height := 1,
    m_pTiles := [⟨0, 0, 0, 0⟩, ⟨2, 0, 0, 0⟩, ⟨0, 0, 0, 0⟩],
    m_pPhysicalQuads := none }

/-- The 10x10 grid of the scenario: every cell has flag 0 except cell (5,5),
which is solid. -/
def grid10 : CCollision :=
  { m_Width := 10, m_Height := 10,
    m_pTiles := (List.range 100).map fun i => ⟨if i = 5 * 10 + 5 then 1 else 0, 0, 0, 0⟩,
    m_pPhysicalQuads := none }

/-- The box test that `MoveBox` applies with its collision mode: `TestBox`
with the `bool` in the place of the flag mask. -/
def boxTest (k : MapConsts) (c : CCollision) (Size : vec2) (PhysicLayer : Bool) (P : vec2) : Bool :=
  TestBox c P Size (boolToInt PhysicLayer) k.PhysicLayerDefault

/-- The pixel column of the box edge that leads in direction `σ` (`1` for the
right edge, `-1` for the left edge), counted in direction `σ`. -/
def leadEdge (σ : ℤ) (Size : vec2) (x : ℚ) : ℤ :=
  σ * round_to_int (x + (σ : ℚ) * (Size.x * (1 / 2)))

/-- The flags `GetTile` reads from the tile of cell `(col, row)`. -/
def cellFlags (c : CCollision) (col row : ℤ) : ℤ :=
  if tileIndexAt c (row * c.m_Width + col) > 128 then 0
  else tileIndexAt c (row * c.m_Width + col)

/-- Column `col` is solid over the full height of the map. -/
def SolidColumn (k : MapConsts) (c : CCollision) (col : ℤ) : Prop :=
  ∀ row : ℤ, 0 ≤ row → row < c.m_Height → Int.land (cellFlags c col row) k.COLFLAG_SOLID ≠ 0

/-- No cell of the columns `lo ≤ col < hi` is solid. -/
def FreeColumns (k : MapConsts) (c : CCollision) (lo hi : ℤ) : Prop :=
  ∀ col row : ℤ, lo ≤ col → col < hi → 0 ≤ row → row < c.m_Height →
    Int.land (cellFlags c col row) k.COLFLAG_SOLID = 0

/-- No physical quad carries the solid flag. -/
def NoSolidQuad (k : MapConsts) (c : CCollision) : Prop :=
  ∀ quads, c.m_pPhysicalQuads = some quads →
    ∀ q ∈ quads, Int.land q.m_ColorEnvOffset k.COLFLAG_SOLID = 0

/-- A 5x2 map whose middle column is solid. -/
def wallMap : CCollision :=
  { m_Width := 5, m_Height := 2,
    m_pTiles := [⟨0, 0, 0, 0⟩, ⟨0, 0, 0, 0⟩, ⟨1, 0, 0, 0⟩, ⟨0, 0, 0, 0⟩, ⟨0, 0, 0, 0⟩,
                 ⟨0, 0, 0, 0⟩, ⟨0, 0, 0, 0⟩, ⟨1, 0, 0, 0⟩, ⟨0, 0, 0, 0⟩, ⟨0, 0, 0, 0⟩],
    m_pPhysicalQuads := none }

/-- The state of `MoveBox` before its sub-step number `i` (counted from 0):
the loop body run `i` times from the initial position and velocity. -/
def subStepState (k : MapConsts) (c : CCollision) (Pos Vel Size : vec2) (Elasticity : ℚ)
    (pDeath PhysicLayer : Bool) (i : ℕ) : MoveState :=
  (MoveBoxStep k c Size Elasticity (1 / ((floorLength Vel : ℚ) + 1)) pDeath PhysicLayer)^[i]
    ⟨Pos, Vel, false⟩

/-- The tentative position `NewPos = Pos + Vel * Fraction` of a sub-step. -/
def tentativePos (s : MoveState) (Fraction : ℚ) : vec2 :=
  s.Pos + s.Vel * Fraction

/-- The death test of a sub-step: the box of 2/3 of the size at the tentative
position against the death flag. -/
def deathTest (k : MapConsts) (c : CCollision) (Size : vec2) (P : vec2) : Bool :=
  TestBox c P (Size * (2 / 3 : ℚ)) k.COLFLAG_DEATH k.PhysicLayerDefault

/-- The quad with corners (0,0), (0,10), (10,0), (10,10) in fixed point: the
triangle `(q0, q1, q2)` is traversed in the other sense than in `squareQuad`. -/
def flippedQuad (Index : ℤ) : CQuad :=
  { m_aPoints0 := ⟨0, 0⟩, m_aPoints1 := ⟨0, 10240⟩, m_aPoints2 := ⟨10240, 0⟩,
    m_aPoints3 := ⟨10240, 10240⟩, m_ColorEnvOffset := Index }

/-- A 5x2 map like `wallMap` whose first column consists of death tiles. -/
def deathWallMap : CCollision :=
  { m_Width := 5, m_Height := 2,
    m_pTiles := [⟨2, 0, 0, 0⟩, ⟨0, 0, 0, 0⟩, ⟨1, 0, 0, 0⟩, ⟨0, 0, 0, 0⟩, ⟨0, 0, 0, 0⟩,
                 ⟨2, 0, 0, 0⟩, ⟨0, 0, 0, 0⟩, ⟨1, 0, 0, 0⟩, ⟨0, 0, 0, 0⟩, ⟨0, 0, 0, 0⟩],
    m_pPhysicalQuads := none }

/-- A 3x3 map whose only solid tile is the middle one. -/
def pillarMap : CCollision :=
  { m_Width := 3, m_Height := 3,
    m_pTiles := [⟨0, 0, 0, 0⟩, ⟨0, 0, 0, 0⟩, ⟨0, 0, 0, 0⟩,
                 ⟨0, 0, 0, 0⟩, ⟨1, 0, 0, 0⟩, ⟨0, 0, 0, 0⟩,
                 ⟨0, 0, 0, 0⟩, ⟨0, 0, 0, 0⟩, ⟨0, 0, 0, 0⟩],
    m_pPhysicalQuads := none }

/-- A 2x2 map whose only free tile is the top-left one: an inner corner. -/
def cornerMap : CCollision :=
  { m_Width := 2, m_Height := 2,
    m_pTiles := [⟨0, 0, 0, 0⟩, ⟨1, 0, 0, 0⟩, ⟨1, 0, 0, 0⟩, ⟨1, 0, 0, 0⟩],
    m_pPhysicalQuads := none }

/-- The mean of the four vertices of a quad. -/
def centroid (q0 q1 q2 q3 : vec2) : vec2 :=
  (q0 + q1 + q2 + q3) * (1 / 4 : ℚ)

/-- The local `denom` of `BarycentricCoordinates`: `d00 * d11 - d01 * d01`. -/
def baryDenom (t0 t1 t2 : vec2) : ℚ :=
  dot (t1 - t0) (t1 - t0) * dot (t2 - t0) (t2 - t0) - dot (t1 - t0) (t2 - t0) * dot (t1 - t0) (t2 - t0)

/-- Both triangles that `InsideQuad` tests have a zero denominator. -/
def CQuad.Degenerate (q : CQuad) : Prop :=
  baryDenom (quadPoint q.m_aPoints0) (quadPoint q.m_aPoints1) (quadPoint q.m_aPoints2) = 0 ∧
  baryDenom (quadPoint q.m_aPoints1) (quadPoint q.m_aPoints2) (quadPoint q.m_aPoints3) = 0

/-- A quad whose four corners lie on one line, carrying the given value. -/
def lineQuad (Index : ℤ) : CQuad :=
  { m_aPoints0 := ⟨0, 0⟩, m_aPoints1 := ⟨10240, 0⟩, m_aPoints2 := ⟨20480, 0⟩,
    m_aPoints3 := ⟨30720, 0⟩, m_ColorEnvOffset := Index }

/-- A 2x2 map of empty tiles with `lineQuad 2` as its only physical quad. -/
def lineQuadMap : CCollision :=
  { m_Width := 2, m_Height := 2, m_pTiles := List.replicate 4 ⟨0, 0, 0, 0⟩,
    m_pPhysicalQuads := some [lineQuad 2] }

/-- The state after `n` consecutive calls of `TickDefered` on `s`, the server
tick being `T0 + 1` at the first call and increasing by one per call. -/
def tickRun {Core Ser : Type} [DecidableEq Ser] (Write : Core → Ser)
    (advanceDummy advanceCore : Core → Core) (TickSpeed T0 : ℤ) (s : Reckoning Core) :
    ℕ → Reckoning Core
  | 0 => s
  | n + 1 =>
    TickDefered Write advanceDummy advanceCore TickSpeed (T0 + ((n + 1 : ℕ) : ℤ))
      (tickRun Write advanceDummy advanceCore TickSpeed T0 s n)

/-- The serialisations that call number `n` (counted from 0) of the run
compares are equal. -/
def agreeAt {Core Ser : Type} [DecidableEq Ser] (Write : Core → Ser)
    (advanceDummy advanceCore : Core → Core) (TickSpeed T0 : ℤ) (s : Reckoning Core)
    (n : ℕ) : Bool :=
  decide (Write (advanceDummy (tickRun Write advanceDummy advanceCore TickSpeed T0 s n).m_ReckoningCore)
    = Write (advanceCore (tickRun Write advanceDummy advanceCore TickSpeed T0 s n).m_Core))

/-- Call number `n` (counted from 0) of the run, at server tick `T0 + n + 1`,
replaces the baseline: the condition of the closing block of `TickDefered`
holds. -/
def replacedAt {Core Ser : Type} [DecidableEq Ser] (Write : Core → Ser)
    (advanceDummy advanceCore : Core → Core) (TickSpeed T0 : ℤ) (s : Reckoning Core)
    (n : ℕ) : Bool :=
  decide ((tickRun Write advanceDummy advanceCore TickSpeed T0 s n).m_ReckoningTick + TickSpeed * 3
      < T0 + ((n + 1 : ℕ) : ℤ) ∨
    Write (advanceDummy (tickRun Write advanceDummy advanceCore TickSpeed T0 s n).m_ReckoningCore)
      ≠ Write (advanceCore (tickRun Write advanceDummy advanceCore TickSpeed T0 s n).m_Core))

/-- The number of consecutive cells immediately following cell `x` of row `y`
that lie in the row and have index 0, capped at 254. -/
def emptyRun (pTiles : List CTile) (Width : ℤ) (y x : ℕ) : ℕ :=
  Nat.findGreatest
    (fun r => ∀ j, j < r → ((x + 1 + j : ℕ) : ℤ) < Width ∧
      tileIndexOf pTiles ((y : ℤ) * Width + ((x + 1 + j : ℕ) : ℤ)) = 0) 254

/-- The read `pTiles[i].m_Skip`. -/
def skipAt (pTiles : List CTile) (i : ℤ) : ℕ :=
  (pTiles.getD i.toNat ⟨0, 0, 0, 0⟩).m_Skip

/-- From cell `x` of row `y` on, the skip counts form the chain the scan
leaves: cell `x` holds the length of the run of empty cells after it, and the
chain continues at cell `x + skip + 1`, until the end of the row. -/
inductive SkipChain (pTiles : List CTile) (Width : ℤ) (y : ℕ) : ℕ → Prop where
  | done (x : ℕ) (h : Width ≤ (x : ℤ)) : SkipChain pTiles Width y x
  | step (x : ℕ) (h : (x : ℤ) < Width)
      (hskip : skipAt pTiles ((y : ℤ) * Width + (x : ℤ)) = emptyRun pTiles Width y x)
      (hnext : SkipChain pTiles Width y (x + emptyRun pTiles Width y x + 1)) :
      SkipChain pTiles Width y x

/-- What `InitTilemapSkip` leaves of a layer: dimensions and tile indices are
kept, and in a tile layer whose array holds `m_Width * m_Height` tiles every
row carries the skip chain from cell 1; other layers are untouched. -/
def LayerSkipped : CMapItemLayer → CMapItemLayer → Prop
  | CMapItemLayer.tilemap W H t, CMapItemLayer.tilemap W1 H1 t1 =>
    W1 = W ∧ H1 = H ∧ t1.length = t.length ∧
    (∀ i : ℤ, tileIndexOf t1 i = tileIndexOf t i) ∧
    (0 ≤ W → W * H ≤ (t.length : ℤ) → ∀ y : ℕ, (y : ℤ) < H → SkipChain t1 W y 1)
  | CMapItemLayer.other, CMapItemLayer.other => True
  | _, _ => False

/-- A tile layer of one row of six tiles, the first and the fourth of them
non-empty. -/
def skipLayer : CMapItemLayer :=
  CMapItemLayer.tilemap 6 1
    [⟨1, 0, 0, 0⟩, ⟨0, 0, 0, 0⟩, ⟨0, 0, 0, 0⟩, ⟨1, 0, 0, 0⟩, ⟨0, 0, 0, 0⟩, ⟨0, 0, 0, 0⟩]

/-! ## Specification-side notions for the binary32 code -/

/-- The rational `q` is a binary32 value: rounding leaves it as it is. -/
def F32.Rep (q : ℚ) : Prop :=
  F32.round q = FloatVal.finite q

instance (q : ℚ) : Decidable (F32.Rep q) :=
  inferInstanceAs (Decidable (F32.round q = FloatVal.finite q))

/-- The value is one a `float` variable can hold: a binary32 number, an
infinity or a NaN. -/
def F32.IsFloat : FloatVal → Prop
  | FloatVal.finite q => F32.Rep q
  | _ => True

/-- The box test that `MoveBox` applies with its collision mode, in binary32:
`TestBox` with the `bool` in the place of the flag mask. -/
def Binary32.boxTest (k : MapConsts) (c : CCollision) (Size : Binary32.vec2) (PhysicLayer : Bool)
    (P : Binary32.vec2) : Bool :=
  Binary32.TestBox c P Size (boolToInt PhysicLayer) k.PhysicLayerDefault

/-- The tentative position `NewPos = Pos + Vel * Fraction` of a sub-step, in
binary32. -/
def Binary32.tentativePos (s : Binary32.MoveState) (Fraction : FloatVal) : Binary32.vec2 :=
  s.Pos + s.Vel * Fraction

/-- The state of the binary32 `MoveBox` before its sub-step number `i`
(counted from 0): the loop body run `i` times from the initial position and
velocity. -/
def Binary32.subStepState (k : MapConsts) (c : CCollision) (Pos Vel Size : Binary32.vec2)
    (Elasticity : FloatVal) (pDeath PhysicLayer : Bool) (i : ℕ) : Binary32.MoveState :=
  (Binary32.MoveBoxStep k c Size Elasticity (Binary32.fractionOf Vel) pDeath PhysicLayer)^[i]
    ⟨Pos, Vel, false⟩

/-- The number of the next `n` sub-steps from state `s` on whose tentative box
the box test of `MoveBox` finds overlapping. -/
def Binary32.overlapCount (k : MapConsts) (c : CCollision) (Size : Binary32.vec2)
    (Elasticity Fraction : FloatVal) (pDeath PhysicLayer : Bool) :
    ℕ → Binary32.MoveState → ℕ
  | 0, _ => 0
  | n + 1, s =>
    (if Binary32.boxTest k c Size PhysicLayer (Binary32.tentativePos s Fraction) then 1 else 0) +
      Binary32.overlapCount k c Size Elasticity Fraction pDeath PhysicLayer n
        (Binary32.MoveBoxStep k c Size Elasticity Fraction pDeath PhysicLayer s)

/-- The number of sub-steps of one `MoveBox` call whose tentative box the box
test finds overlapping. -/
def Binary32.bounceCount (k : MapConsts) (c : CCollision) (Pos Vel Size : Binary32.vec2)
    (Elasticity : FloatVal) (pDeath PhysicLayer : Bool) : ℕ :=
  if F32.lt Binary32.epsilon (Binary32.length Vel) then
    Binary32.overlapCount k c Size Elasticity (Binary32.fractionOf Vel) pDeath PhysicLayer
      (Binary32.subStepCount Vel) ⟨Pos, Vel, false⟩
  else 0

/-- Both coordinates of the point are binary32 values. -/
def RepVec (a : vec2) : Prop :=
  F32.Rep a.x ∧ F32.Rep a.y

instance (a : vec2) : Decidable (RepVec a) := by
  unfold RepVec; infer_instance

/-- The difference `a - b` of two points is computed without rounding. -/
def ExactSub (a b : vec2) : Prop :=
  F32.Rep (a.x - b.x) ∧ F32.Rep (a.y - b.y)

instance (a b : vec2) : Decidable (ExactSub a b) := by
  unfold ExactSub; infer_instance

/-- The product `dot a b` is computed without rounding: both products and
their sum are binary32 values. -/
def ExactDot (a b : vec2) : Prop :=
  F32.Rep (a.x * b.x) ∧ F32.Rep (a.y * b.y) ∧ F32.Rep (dot a b)

instance (a b : vec2) : Decidable (ExactDot a b) := by
  unfold ExactDot; infer_instance

/-- The expression `a * b - c * d` is computed without rounding. -/
def ExactDet (a b c d : ℚ) : Prop :=
  F32.Rep (a * b) ∧ F32.Rep (c * d) ∧ F32.Rep (a * b - c * d)

instance (a b c d : ℚ) : Decidable (ExactDet a b c d) := by
  unfold ExactDet; infer_instance

/-- The first quotient of `BarycentricCoordinates` in exact arithmetic (0 when
the denominator is 0). -/
def baryU (t0 t1 t2 p : vec2) : ℚ :=
  (dot (t2 - t0) (t2 - t0) * dot (p - t0) (t1 - t0)
    - dot (t1 - t0) (t2 - t0) * dot (p - t0) (t2 - t0)) / baryDenom t0 t1 t2

/-- The second quotient of `BarycentricCoordinates` in exact arithmetic (0
when the denominator is 0). -/
def baryV (t0 t1 t2 p : vec2) : ℚ :=
  (dot (t1 - t0) (t1 - t0) * dot (p - t0) (t2 - t0)
    - dot (t1 - t0) (t2 - t0) * dot (p - t0) (t1 - t0)) / baryDenom t0 t1 t2

/-- The denominator of `BarycentricCoordinates(t0, t1, t2, .)` is computed
without rounding: the corners are binary32 points and every intermediate
result up to the denominator is a binary32 value. -/
def ExactDenom (t0 t1 t2 : vec2) : Prop :=
  RepVec t0 ∧ RepVec t1 ∧ RepVec t2 ∧ ExactSub t1 t0 ∧ ExactSub t2 t0 ∧
  ExactDot (t1 - t0) (t1 - t0) ∧ ExactDot (t1 - t0) (t2 - t0) ∧ ExactDot (t2 - t0) (t2 - t0) ∧
  ExactDet (dot (t1 - t0) (t1 - t0)) (dot (t2 - t0) (t2 - t0))
    (dot (t1 - t0) (t2 - t0)) (dot (t1 - t0) (t2 - t0))

instance (t0 t1 t2 : vec2) : Decidable (ExactDenom t0 t1 t2) := by
  unfold ExactDenom; infer_instance

/-- The call `InsideTriangle(t0, t1, t2, p)` computes without rounding: the
four points are binary32 points and every intermediate result of
`BarycentricCoordinates` and of the test is a binary32 value. -/
def ExactBary (t0 t1 t2 p : vec2) : Prop :=
  ExactDenom t0 t1 t2 ∧ RepVec p ∧ ExactSub p t0 ∧
  ExactDot (p - t0) (t1 - t0) ∧ ExactDot (p - t0) (t2 - t0) ∧
  ExactDet (dot (t2 - t0) (t2 - t0)) (dot (p - t0) (t1 - t0))
    (dot (t1 - t0) (t2 - t0)) (dot (p - t0) (t2 - t0)) ∧
  ExactDet (dot (t1 - t0) (t1 - t0)) (dot (p - t0) (t2 - t0))
    (dot (t1 - t0) (t2 - t0)) (dot (p - t0) (t1 - t0)) ∧
  F32.Rep (baryU t0 t1 t2 p) ∧ F32.Rep (baryV t0 t1 t2 p) ∧
  F32.Rep (baryU t0 t1 t2 p + baryV t0 t1 t2 p) ∧
  F32.Rep (1 - baryU t0 t1 t2 p) ∧ F32.Rep (1 - baryU t0 t1 t2 p - baryV t0 t1 t2 p)

instance (t0 t1 t2 p : vec2) : Decidable (ExactBary t0 t1 t2 p) := by
  unfold ExactBary; infer_instance

/-- The call `SameSide(l0, l1, p0, p1)` computes without rounding. -/
def ExactSide (l0 l1 p0 p1 : vec2) : Prop :=
  ExactSub l1 l0 ∧ ExactSub p0 l0 ∧ ExactSub p1 l0 ∧
  ExactDet (l1 - l0).x (p0 - l0).y (l1 - l0).y (p0 - l0).x ∧
  ExactDet (l1 - l0).x (p1 - l0).y (l1 - l0).y (p1 - l0).x

instance (l0 l1 p0 p1 : vec2) : Decidable (ExactSide l0 l1 p0 p1) := by
  unfold ExactSide; infer_instance

/-- The call `InsideQuad(q0, q1, q2, q3, p)` computes without rounding: the
side test and both triangle tests do. -/
def ExactQuad (q0 q1 q2 q3 p : vec2) : Prop :=
  ExactSide q1 q2 p q0 ∧ ExactBary q0 q1 q2 p ∧ ExactBary q1 q2 q3 p

instance (q0 q1 q2 q3 p : vec2) : Decidable (ExactQuad q0 q1 q2 q3 p) := by
  unfold ExactQuad; infer_instance

/-- Both triangles that the binary32 `InsideQuad` tests have a computed
denominator of zero. -/
def Binary32.Degenerate (q : CQuad) : Prop :=
  Binary32.denom (Binary32.quadPoint q.m_aPoints0) (Binary32.quadPoint q.m_aPoints1)
    (Binary32.quadPoint q.m_aPoints2) = FloatVal.finite 0 ∧
  Binary32.denom (Binary32.quadPoint q.m_aPoints1) (Binary32.quadPoint q.m_aPoints2)
    (Binary32.quadPoint q.m_aPoints3) = FloatVal.finite 0

/-- A quad whose corners (0,0), (1000,1011), (3000,3033), (4000,4044) lie on
one line, carrying the given value. -/
def collinearQuad (Index : ℤ) : CQuad :=
  { m_aPoints0 := ⟨0, 0⟩, m_aPoints1 := ⟨1024000, 1035264⟩, m_aPoints2 := ⟨3072000, 3105792⟩,
    m_aPoints3 := ⟨4096000, 4141056⟩, m_ColorEnvOffset := Index }

/-- A 2x2 map of empty tiles with `collinearQuad 2` as its only physical
quad. -/
def collinearQuadMap : CCollision :=
  { m_Width := 2, m_Height := 2, m_pTiles := List.replicate 4 ⟨0, 0, 0, 0⟩,
    m_pPhysicalQuads := some [collinearQuad 2] }

/-- A quad with the corners (371399,181635), (222857,342712), (160119,236872),
(313236,381339) in fixed point; the pixel (187,283) is the midpoint of its
diagonal q1-q2. -/
def skewQuad (Index : ℤ) : CQuad :=
  { m_aPoints0 := ⟨371399, 181635⟩, m_aPoints1 := ⟨222857, 342712⟩,
    m_aPoints2 := ⟨160119, 236872⟩, m_aPoints3 := ⟨313236, 381339⟩, m_ColorEnvOffset := Index }

/-- A parallelogram with the corners (807575,385980), (811801,347804),
(871655,500068), (875881,461892) in fixed point; the pixel (822,414) is its
centroid. -/
def skewParallelogram (Index : ℤ) : CQuad :=
  { m_aPoints0 := ⟨807575, 385980⟩, m_aPoints1 := ⟨811801, 347804⟩,
    m_aPoints2 := ⟨871655, 500068⟩, m_aPoints3 := ⟨875881, 461892⟩, m_ColorEnvOffset := Index }

/-! ## Basic facts -/

theorem stockConsts_valid : stockConsts.Valid := by
  constructor <;> decide

theorem stockConsts_upstream : stockConsts.Upstream := by
  constructor <;> decide

@[simp] theorem vec2_sub_x (a b : vec2) : (a - b).x = a.x - b.x := rfl

@[simp] theorem vec2_sub_y (a b : vec2) : (a - b).y = a.y - b.y := rfl

@[simp] theorem vec2_add_x (a b : vec2) : (a + b).x = a.x + b.x := rfl

@[simp] theorem vec2_add_y (a b : vec2) : (a + b).y = a.y + b.y := rfl

@[simp] theorem vec2_smul_x (a : vec2) (s : ℚ) : (a * s).x = a.x * s := rfl

@[simp] theorem vec2_smul_y (a : vec2) (s : ℚ) : (a * s).y = a.y * s := rfl

theorem vec2_eq_iff (a b : vec2) : a = b ↔ a.x = b.x ∧ a.y = b.y := by
  cases a; cases b; simp

theorem floor_div32 (x : ℤ) : ⌊(x : ℚ) / 32⌋ = x / 32 := by
  have h := Rat.floor_intCast_div_natCast x 32
  simpa using h

theorem clamp_nonpos {v hi : ℤ} (hv : v ≤ 0) (hhi : 0 ≤ hi) : clamp v 0 hi = 0 := by
  unfold clamp
  split_ifs <;> omega

theorem clamp_mem {v hi : ℤ} (hhi : 0 ≤ hi) : 0 ≤ clamp v 0 hi ∧ clamp v 0 hi ≤ hi := by
  unfold clamp
  split_ifs <;> omega

/-- The truncating division of C and the floor division agree once clamped to
the grid: both send a negative coordinate to cell 0. -/
theorem clamp_tdiv_eq_floor (x hi : ℤ) (hhi : 0 ≤ hi) :
    clamp (Int.tdiv x 32) 0 hi = clamp ⌊(x : ℚ) / 32⌋ 0 hi := by
  rw [floor_div32]
  rcases le_or_lt 0 x with hx | hx
  · rw [Int.tdiv_eq_ediv hx (by norm_num)]
  · have h1 : Int.tdiv x 32 ≤ 0 := by
      have : Int.tdiv x 32 = -(Int.tdiv (-x) 32) := by rw [Int.neg_tdiv, neg_neg]
      rw [this]
      have := Int.tdiv_nonneg (a := -x) (b := 32) (by omega) (by norm_num)
      omega
    have h2 : x / 32 ≤ 0 := by omega
    rw [clamp_nonpos h1 hhi, clamp_nonpos h2 hhi]

theorem floorSqrt_sq_le (n : ℕ) : floorSqrt n * floorSqrt n ≤ n := by
  unfold floorSqrt
  have h : (fun m => m * m ≤ n) 0 := by simp
  exact Nat.findGreatest_spec (P := fun m => m * m ≤ n) (Nat.zero_le n) h

theorem floorSqrt_lt_succ_sq (n : ℕ) : n < (floorSqrt n + 1) * (floorSqrt n + 1) := by
  by_contra hcon
  push_neg at hcon
  have hle : floorSqrt n + 1 ≤ n := by nlinarith
  have := Nat.le_findGreatest (P := fun m => m * m ≤ n) hle hcon
  unfold floorSqrt at *
  omega

theorem floorSqrt_eq_sqrt (n : ℕ) : floorSqrt n = Nat.sqrt n := by
  exact Nat.eq_sqrt.mpr ⟨floorSqrt_sq_le n, floorSqrt_lt_succ_sq n⟩

theorem dot_self_nonneg (v : vec2) : 0 ≤ dot v v := by
  unfold dot; nlinarith [mul_self_nonneg v.x, mul_self_nonneg v.y]

/-- `floorLength` is the integer part of the real length `sqrt(dot(v, v))`. -/
theorem floorLength_spec (v : vec2) :
    ((floorLength v : ℕ) : ℤ) = ⌊Real.sqrt ((dot v v : ℚ) : ℝ)⌋ := by
  symm
  rw [Int.floor_eq_iff]
  have h0 := dot_self_nonneg v
  have hfl : ((⌊dot v v⌋₊ : ℕ) : ℚ) ≤ dot v v := Nat.floor_le h0
  have hfl2 : dot v v < ((⌊dot v v⌋₊ : ℕ) : ℚ) + 1 := Nat.lt_floor_add_one _
  have h1 := floorSqrt_sq_le ⌊dot v v⌋₊
  have h2 := floorSqrt_lt_succ_sq ⌊dot v v⌋₊
  unfold floorLength
  set m := floorSqrt ⌊dot v v⌋₊
  have h1q : ((m : ℚ)) * m ≤ dot v v := by
    have : ((m * m : ℕ) : ℚ) ≤ ((⌊dot v v⌋₊ : ℕ) : ℚ) := by exact_mod_cast h1
    push_cast at this; linarith
  have h2q : dot v v < ((m : ℚ) + 1) * ((m : ℚ) + 1) := by
    have : ((⌊dot v v⌋₊ : ℕ) : ℚ) + 1 ≤ (((m + 1) * (m + 1) : ℕ) : ℚ) := by exact_mod_cast h2
    push_cast at this; linarith
  have h1r : ((m : ℝ)) * m ≤ ((dot v v : ℚ) : ℝ) := by exact_mod_cast h1q
  have h2r : ((dot v v : ℚ) : ℝ) < ((m : ℝ) + 1) * ((m : ℝ) + 1) := by exact_mod_cast h2q
  constructor
  · push_cast
    apply Real.le_sqrt_of_sq_le
    nlinarith
  · push_cast
    rw [Real.sqrt_lt' (by positivity)]
    nlinarith

/-- `lengthExceeds` is the comparison of the real length with `eps`. -/
theorem lengthExceeds_spec (v : vec2) (eps : ℚ) (heps : 0 ≤ eps) :
    lengthExceeds v eps = true ↔ (eps : ℝ) < Real.sqrt ((dot v v : ℚ) : ℝ) := by
  unfold lengthExceeds
  rw [decide_eq_true_eq, Real.lt_sqrt (by exact_mod_cast heps)]
  constructor
  · intro h
    have : ((eps * eps : ℚ) : ℝ) < ((dot v v : ℚ) : ℝ) := by exact_mod_cast h
    push_cast at this; nlinarith
  · intro h
    have : ((eps * eps : ℚ) : ℝ) < ((dot v v : ℚ) : ℝ) := by push_cast; nlinarith
    exact_mod_cast this


theorem round_to_int_pos {f : ℚ} (h : 0 < f) : round_to_int f = ⌊f + 1 / 2⌋ := by
  unfold round_to_int truncToInt
  rw [if_pos h, if_pos (by linarith)]

theorem round_to_int_nonpos {f : ℚ} (h : f ≤ 0) : round_to_int f = ⌈f - 1 / 2⌉ := by
  unfold round_to_int truncToInt
  rw [if_neg (by linarith), if_neg (by linarith)]

theorem round_to_int_mono {a b : ℚ} (h : a ≤ b) : round_to_int a ≤ round_to_int b := by
  rcases lt_or_le 0 a with ha | ha
  · rw [round_to_int_pos ha, round_to_int_pos (by linarith)]
    exact Int.floor_le_floor (by linarith)
  · rcases lt_or_le 0 b with hb | hb
    · rw [round_to_int_nonpos ha, round_to_int_pos hb]
      have h1 : ⌈a - 1 / 2⌉ ≤ 0 := by
        rw [Int.ceil_le]; push_cast; linarith
      have h2 : 0 ≤ ⌊b + 1 / 2⌋ := by
        rw [Int.le_floor]; push_cast; linarith
      omega
    · rw [round_to_int_nonpos ha, round_to_int_nonpos hb]
      exact Int.ceil_le_ceil (by linarith)

/-- A move of less than one unit moves the rounded coordinate by at most one. -/
theorem round_to_int_step {a b : ℚ} (h : b < a + 1) : round_to_int b ≤ round_to_int a + 1 := by
  rcases lt_or_le 0 a with ha | ha
  · rcases lt_or_le 0 b with hb | hb
    · rw [round_to_int_pos ha, round_to_int_pos hb]
      have : ⌊b + 1 / 2⌋ ≤ ⌊a + 1 / 2 + 1⌋ := Int.floor_le_floor (by linarith)
      rw [Int.floor_add_one] at this
      exact this
    · have := round_to_int_mono (le_trans hb ha.le)
      omega
  · rcases lt_or_le 0 b with hb | hb
    · rw [round_to_int_nonpos ha, round_to_int_pos hb]
      by_cases hb2 : b < 1 / 2
      · have h1 : ⌊b + 1 / 2⌋ ≤ 0 := by
          have : ⌊b + 1 / 2⌋ < 1 := by rw [Int.floor_lt]; push_cast; linarith
          omega
        have h2 : -1 ≤ ⌈a - 1 / 2⌉ := by
          have : -1 - 1 < ⌈a - 1 / 2⌉ := by rw [Int.lt_ceil]; push_cast; linarith
          omega
        omega
      · push_neg at hb2
        have h1 : ⌊b + 1 / 2⌋ ≤ 1 := by
          have : ⌊b + 1 / 2⌋ < 2 := by rw [Int.floor_lt]; push_cast; linarith
          omega
        have h2 : 0 ≤ ⌈a - 1 / 2⌉ := by
          have : -1 < ⌈a - 1 / 2⌉ := by rw [Int.lt_ceil]; push_cast; linarith
          omega
        omega
    · rw [round_to_int_nonpos ha, round_to_int_nonpos hb]
      have : ⌈b - 1 / 2⌉ ≤ ⌈a - 1 / 2 + 1⌉ := Int.ceil_le_ceil (by linarith)
      rw [Int.ceil_add_one] at this
      exact this

theorem round_to_int_intCast (n : ℤ) : round_to_int (n : ℚ) = n := by
  rcases lt_or_le 0 (n : ℚ) with h | h
  · rw [round_to_int_pos h, Int.floor_eq_iff]
    constructor <;> linarith
  · rw [round_to_int_nonpos h, Int.ceil_eq_iff]
    constructor <;> linarith

/-- A coordinate whose rounded value is below the integer `n` is below `n`. -/
theorem lt_of_round_to_int_lt {a : ℚ} {n : ℤ} (h : round_to_int a < n) : a < (n : ℚ) := by
  by_contra hcon
  push_neg at hcon
  have := round_to_int_mono hcon
  rw [round_to_int_intCast] at this
  omega

theorem gt_of_round_to_int_gt {a : ℚ} {n : ℤ} (h : n < round_to_int a) : (n : ℚ) < a := by
  by_contra hcon
  push_neg at hcon
  have := round_to_int_mono hcon
  rw [round_to_int_intCast] at this
  omega

theorem ldiff_one (m : ℕ) : Nat.ldiff 1 m = if m % 2 = 0 then 1 else 0 := by
  apply Nat.eq_of_testBit_eq
  intro i
  rw [Nat.testBit_ldiff]
  cases i with
  | zero =>
    simp only [Nat.testBit_zero]
    split_ifs with h <;> simp <;> omega
  | succ j =>
    have : Nat.testBit 1 (j + 1) = false := by
      rw [Nat.testBit_succ]; simp
    rw [this]
    split_ifs <;> simp [Nat.testBit_succ]

/-- Masking with 1 reads bit 0. -/
theorem land_one (v : ℤ) : Int.land v 1 = if Int.testBit v 0 then 1 else 0 := by
  cases v with
  | ofNat m =>
    show ((m &&& 1 : ℕ) : ℤ) = if Nat.testBit m 0 then 1 else 0
    rw [Nat.and_one_is_mod, Nat.testBit_zero]
    rcases Nat.mod_two_eq_zero_or_one m with h | h <;> simp [h]
  | negSucc m =>
    show ((Nat.ldiff 1 m : ℕ) : ℤ) = if (!Nat.testBit m 0) then 1 else 0
    rw [ldiff_one, Nat.testBit_zero]
    rcases Nat.mod_two_eq_zero_or_one m with h | h <;> simp [h]

/-! ## C1: `GetTile` -/

theorem foldl_quads_eq (x y : ℤ) (quads : List CQuad) (I : ℤ) :
    quads.foldl (fun Index q => if quadContains q x y then Int.lor Index q.m_ColorEnvOffset else Index) I
      = ((quads.filter fun q => quadContains q x y).map CQuad.m_ColorEnvOffset).foldl Int.lor I := by
  induction quads generalizing I with
  | nil => rfl
  | cons q qs ih =>
    by_cases h : quadContains q x y = true
    · simp [List.filter_cons, h, ih]
    · simp [List.filter_cons, h, ih]

theorem cellIndex_eq (c : CCollision) (hc : c.WellFormed) (x y : ℤ) :
    ∃ cx cy : ℕ,
      (cx : ℤ) = clamp ⌊(x : ℚ) / 32⌋ 0 (c.m_Width - 1) ∧
      (cy : ℤ) = clamp ⌊(y : ℚ) / 32⌋ 0 (c.m_Height - 1) ∧
      (cx : ℤ) < c.m_Width ∧ (cy : ℤ) < c.m_Height ∧
      cellIndex c x y = ((cy * c.m_Width.toNat + cx : ℕ) : ℤ) ∧
      cy * c.m_Width.toNat + cx < c.m_pTiles.length := by
  obtain ⟨hW, hH, hlen⟩ := hc
  have hx := @clamp_mem (⌊(x : ℚ) / 32⌋) (c.m_Width - 1) (by omega)
  have hy := @clamp_mem (⌊(y : ℚ) / 32⌋) (c.m_Height - 1) (by omega)
  refine ⟨(clamp ⌊(x : ℚ) / 32⌋ 0 (c.m_Width - 1)).toNat,
    (clamp ⌊(y : ℚ) / 32⌋ 0 (c.m_Height - 1)).toNat, ?_, ?_, ?_, ?_, ?_, ?_⟩
  · rw [Int.toNat_of_nonneg hx.1]
  · rw [Int.toNat_of_nonneg hy.1]
  · rw [Int.toNat_of_nonneg hx.1]; omega
  · rw [Int.toNat_of_nonneg hy.1]; omega
  · unfold cellIndex
    simp only []
    rw [clamp_tdiv_eq_floor x _ (by omega), clamp_tdiv_eq_floor y _ (by omega)]
    push_cast
    rw [Int.toNat_of_nonneg hx.1, Int.toNat_of_nonneg hy.1, Int.toNat_of_nonneg (by omega)]
  · have h1 : (((clamp ⌊(y : ℚ) / 32⌋ 0 (c.m_Height - 1)).toNat * c.m_Width.toNat +
        (clamp ⌊(x : ℚ) / 32⌋ 0 (c.m_Width - 1)).toNat : ℕ) : ℤ) < (c.m_pTiles.length : ℤ) := by
      push_cast
      rw [Int.toNat_of_nonneg hx.1, Int.toNat_of_nonneg hy.1, Int.toNat_of_nonneg (by omega), hlen]
      nlinarith [hx.1, hx.2, hy.1, hy.2]
    exact_mod_cast h1

/-- C1. On a map of at least one cell, `GetTile` reads the tile of the cell
`(clamp(floor(x/32), 0, W-1), clamp(floor(y/32), 0, H-1))`, which lies inside
the grid for every integer coordinate; with the physical layer off or absent
the result is that tile's flags, and with it on the result is those flags
OR-ed with the value of every quad that `InsideQuad` accepts at `(x, y)`. -/
theorem GetTile_spec (c : CCollision) (hc : c.WellFormed) (x y : ℤ) :
    ∃ (cx cy : ℕ) (t : CTile),
      (cx : ℤ) = clamp ⌊(x : ℚ) / 32⌋ 0 (c.m_Width - 1) ∧
      (cy : ℤ) = clamp ⌊(y : ℚ) / 32⌋ 0 (c.m_Height - 1) ∧
      (cx : ℤ) < c.m_Width ∧ (cy : ℤ) < c.m_Height ∧
      c.m_pTiles[cy * c.m_Width.toNat + cx]? = some t ∧
      GetTile c x y false = tileFlags t ∧
      (c.m_pPhysicalQuads = none → GetTile c x y true = tileFlags t) ∧
      ∀ quads, c.m_pPhysicalQuads = some quads →
        GetTile c x y true =
          ((quads.filter fun q => quadContains q x y).map CQuad.m_ColorEnvOffset).foldl
            Int.lor (tileFlags t) := by
  obtain ⟨cx, cy, hcx, hcy, hxlt, hylt, hidx, hlt⟩ := cellIndex_eq c hc x y
  have hget : c.m_pTiles[cy * c.m_Width.toNat + cx]? = some (c.m_pTiles[cy * c.m_Width.toNat + cx]) :=
    List.getElem?_eq_getElem hlt
  have htile : (if tileIndexAt c (cellIndex c x y) > 128 then 0 else tileIndexAt c (cellIndex c x y))
      = tileFlags (c.m_pTiles[cy * c.m_Width.toNat + cx]) := by
    have : tileIndexAt c (cellIndex c x y) = ((c.m_pTiles[cy * c.m_Width.toNat + cx]).m_Index : ℤ) := by
      unfold tileIndexAt
      rw [hidx, if_pos (Int.natCast_nonneg _), Int.toNat_natCast, List.getD_eq_getElem _ _ hlt]
    rw [this]; rfl
  refine ⟨cx, cy, _, hcx, hcy, hxlt, hylt, hget, ?_, ?_, ?_⟩
  · unfold GetTile; simp only []; exact htile
  · intro hq; unfold GetTile; simp only [hq]; exact htile
  · intro quads hq; unfold GetTile; simp only [hq]; rw [htile, foldl_quads_eq]

/-- Witness of C1 on the sample quad map: a point below the grid's origin on
the X axis and beyond its extent on the Y axis. -/
theorem GetTile_spec_witness :
    (quadMap 2).WellFormed ∧
    ∃ (cx cy : ℕ) (t : CTile),
      (cx : ℤ) = clamp ⌊((-7 : ℤ) : ℚ) / 32⌋ 0 ((quadMap 2).m_Width - 1) ∧
      (cy : ℤ) = clamp ⌊((500 : ℤ) : ℚ) / 32⌋ 0 ((quadMap 2).m_Height - 1) ∧
      (cx : ℤ) < (quadMap 2).m_Width ∧ (cy : ℤ) < (quadMap 2).m_Height ∧
      (quadMap 2).m_pTiles[cy * (quadMap 2).m_Width.toNat + cx]? = some t ∧
      GetTile (quadMap 2) (-7) 500 false = tileFlags t ∧
      ((quadMap 2).m_pPhysicalQuads = none → GetTile (quadMap 2) (-7) 500 true = tileFlags t) ∧
      ∀ quads, (quadMap 2).m_pPhysicalQuads = some quads →
        GetTile (quadMap 2) (-7) 500 true =
          ((quads.filter fun q => quadContains q (-7) 500).map CQuad.m_ColorEnvOffset).foldl
            Int.lor (tileFlags t) :=
  ⟨by unfold CCollision.WellFormed; decide,
   GetTile_spec (quadMap 2) (by unfold CCollision.WellFormed; decide) (-7) 500⟩

/-! ## C5: the reconciler step -/

/-- C5. At the end of `TickDefered`, with `P` and `C` the serialisations of the
advanced reckoning core and of the advanced authoritative core: if `P ≠ C` or
`baselineTick + 3 * TickSpeed < currentTick`, the baseline tick becomes the
current tick and the to-send core and the reckoning core both become the
authoritative core; otherwise the baseline tick and the to-send core are
exactly what they were. -/
theorem TickDefered_reconciles {Core Ser : Type} [DecidableEq Ser] (Write : Core → Ser)
    (advanceDummy advanceCore : Core → Core) (TickSpeed Tick : ℤ) (s : Reckoning Core) :
    ((Write (advanceDummy s.m_ReckoningCore) ≠ Write (advanceCore s.m_Core) ∨
        s.m_ReckoningTick + 3 * TickSpeed < Tick) →
      (TickDefered Write advanceDummy advanceCore TickSpeed Tick s).m_ReckoningTick = Tick ∧
      (TickDefered Write advanceDummy advanceCore TickSpeed Tick s).m_SendCore
        = advanceCore s.m_Core ∧
      (TickDefered Write advanceDummy advanceCore TickSpeed Tick s).m_ReckoningCore
        = advanceCore s.m_Core ∧
      (TickDefered Write advanceDummy advanceCore TickSpeed Tick s).m_Core
        = advanceCore s.m_Core) ∧
    (¬(Write (advanceDummy s.m_ReckoningCore) ≠ Write (advanceCore s.m_Core) ∨
        s.m_ReckoningTick + 3 * TickSpeed < Tick) →
      (TickDefered Write advanceDummy advanceCore TickSpeed Tick s).m_ReckoningTick
        = s.m_ReckoningTick ∧
      (TickDefered Write advanceDummy advanceCore TickSpeed Tick s).m_SendCore
        = s.m_SendCore) := by
  have hcomm : s.m_ReckoningTick + TickSpeed * 3 = s.m_ReckoningTick + 3 * TickSpeed := by ring
  constructor
  · intro h
    have h' : s.m_ReckoningTick + TickSpeed * 3 < Tick ∨
        Write (advanceDummy s.m_ReckoningCore) ≠ Write (advanceCore s.m_Core) := by
      rw [hcomm]; exact h.symm
    unfold TickDefered updateSendCore
    rw [if_pos h']
    exact ⟨rfl, rfl, rfl, rfl⟩
  · intro h
    have h' : ¬(s.m_ReckoningTick + TickSpeed * 3 < Tick ∨
        Write (advanceDummy s.m_ReckoningCore) ≠ Write (advanceCore s.m_Core)) := by
      rw [hcomm]; exact fun hh => h hh.symm
    unfold TickDefered updateSendCore
    rw [if_neg h']
    exact ⟨rfl, rfl⟩

/-! ## Barycentric coordinates in exact arithmetic -/

theorem bary_denom_eq (t0 t1 t2 : vec2) :
    dot (t1 - t0) (t1 - t0) * dot (t2 - t0) (t2 - t0) - dot (t1 - t0) (t2 - t0) * dot (t1 - t0) (t2 - t0)
      = cross t0 t1 t2 * cross t0 t1 t2 := by
  simp only [dot, cross, vec2_sub_x, vec2_sub_y]; ring

theorem FloatVal.div_of_ne (a : ℚ) {b : ℚ} (hb : b ≠ 0) :
    FloatVal.div a b = FloatVal.finite (a / b) := by
  simp [FloatVal.div, hb]

/-- In exact arithmetic: for a triangle of non-zero area the point `p` has
coordinates `u, v` with `p = t0 + u (t1 - t0) + v (t2 - t0)`, unique among
the reals; the exact `BarycentricCoordinates` returns `(u, v, 1 - u - v)` and
the exact `InsideTriangle` holds exactly when `u ≥ 0`, `v ≥ 0` and
`u + v < 1`. -/
theorem barycentric_exact (t0 t1 t2 p : vec2) (harea : cross t0 t1 t2 ≠ 0) :
    ∃ u v : ℚ,
      (p = t0 + (t1 - t0) * u + (t2 - t0) * v) ∧
      (∀ u' v' : ℝ,
        (p.x : ℝ) = t0.x + (t1.x - t0.x) * u' + (t2.x - t0.x) * v' →
        (p.y : ℝ) = t0.y + (t1.y - t0.y) * u' + (t2.y - t0.y) * v' →
        u' = (u : ℝ) ∧ v' = (v : ℝ)) ∧
      BarycentricCoordinates t0 t1 t2 p =
        ⟨FloatVal.finite u, FloatVal.finite v, FloatVal.finite (1 - u - v)⟩ ∧
      (InsideTriangle t0 t1 t2 p = true ↔ 0 ≤ u ∧ 0 ≤ v ∧ u + v < 1) := by
  have hden : dot (t1 - t0) (t1 - t0) * dot (t2 - t0) (t2 - t0)
      - dot (t1 - t0) (t2 - t0) * dot (t1 - t0) (t2 - t0) ≠ 0 := by
    rw [bary_denom_eq]; exact mul_ne_zero harea harea
  obtain ⟨u, hu⟩ : ∃ u : ℚ, u = (dot (t2 - t0) (t2 - t0) * dot (p - t0) (t1 - t0)
      - dot (t1 - t0) (t2 - t0) * dot (p - t0) (t2 - t0)) /
      (dot (t1 - t0) (t1 - t0) * dot (t2 - t0) (t2 - t0)
        - dot (t1 - t0) (t2 - t0) * dot (t1 - t0) (t2 - t0)) := ⟨_, rfl⟩
  obtain ⟨v, hv⟩ : ∃ v : ℚ, v = (dot (t1 - t0) (t1 - t0) * dot (p - t0) (t2 - t0)
      - dot (t1 - t0) (t2 - t0) * dot (p - t0) (t1 - t0)) /
      (dot (t1 - t0) (t1 - t0) * dot (t2 - t0) (t2 - t0)
        - dot (t1 - t0) (t2 - t0) * dot (t1 - t0) (t2 - t0)) := ⟨_, rfl⟩
  have hbary : BarycentricCoordinates t0 t1 t2 p =
      ⟨FloatVal.finite u, FloatVal.finite v, FloatVal.finite (1 - u - v)⟩ := by
    unfold BarycentricCoordinates
    simp only []
    rw [FloatVal.div_of_ne _ hden, FloatVal.div_of_ne _ hden, ← hu, ← hv]
    simp only [FloatVal.sub, FloatVal.neg, FloatVal.add, sub_eq_add_neg]
  have hux : u * ((t1.x - t0.x) * (t2.y - t0.y) - (t1.y - t0.y) * (t2.x - t0.x))
      = (p.x - t0.x) * (t2.y - t0.y) - (p.y - t0.y) * (t2.x - t0.x) := by
    rw [hu, bary_denom_eq]
    unfold cross at harea ⊢
    field_simp
    simp only [dot, vec2_sub_x, vec2_sub_y]; ring
  have hvx : v * ((t1.x - t0.x) * (t2.y - t0.y) - (t1.y - t0.y) * (t2.x - t0.x))
      = (t1.x - t0.x) * (p.y - t0.y) - (t1.y - t0.y) * (p.x - t0.x) := by
    rw [hv, bary_denom_eq]
    unfold cross at harea ⊢
    field_simp
    simp only [dot, vec2_sub_x, vec2_sub_y]; ring
  unfold cross at harea
  refine ⟨u, v, ?_, ?_, hbary, ?_⟩
  · rw [vec2_eq_iff]
    simp only [vec2_add_x, vec2_add_y, vec2_smul_x, vec2_smul_y, vec2_sub_x, vec2_sub_y]
    constructor
    · apply mul_right_cancel₀ harea
      linear_combination (-(t1.x - t0.x)) * hux - (t2.x - t0.x) * hvx
    · apply mul_right_cancel₀ harea
      linear_combination (-(t1.y - t0.y)) * hux - (t2.y - t0.y) * hvx
  · intro u' v' hpx hpy
    have hareaR : ((t1.x : ℝ) - t0.x) * (t2.y - t0.y) - (t1.y - t0.y) * (t2.x - t0.x) ≠ 0 := by
      exact_mod_cast harea
    have huxR : (u : ℝ) * (((t1.x : ℝ) - t0.x) * (t2.y - t0.y) - (t1.y - t0.y) * (t2.x - t0.x))
        = ((p.x : ℝ) - t0.x) * (t2.y - t0.y) - (p.y - t0.y) * (t2.x - t0.x) := by
      exact_mod_cast hux
    have hvxR : (v : ℝ) * (((t1.x : ℝ) - t0.x) * (t2.y - t0.y) - (t1.y - t0.y) * (t2.x - t0.x))
        = ((t1.x : ℝ) - t0.x) * (p.y - t0.y) - (t1.y - t0.y) * (p.x - t0.x) := by
      exact_mod_cast hvx
    constructor
    · apply mul_right_cancel₀ hareaR
      rw [huxR, hpx, hpy]; ring
    · apply mul_right_cancel₀ hareaR
      rw [hvxR, hpx, hpy]; ring
  · simp only [InsideTriangle, hbary, FloatVal.ge, FloatVal.add, FloatVal.lt, Bool.and_eq_true,
      decide_eq_true_eq, and_assoc]

/-! ## C7, C8, C9: the remap of `Init` -/

theorem Init_tiles (k : MapConsts) (c : CCollision) (hc : c.WellFormed) :
    (Init k c).m_pTiles = c.m_pTiles.map (remapTile k) := by
  obtain ⟨_, _, hlen⟩ := hc
  have hn : (c.m_Width * c.m_Height).toNat = c.m_pTiles.length := by
    rw [← hlen]; exact Int.toNat_natCast _
  simp only [Init, hn, List.take_length, List.drop_length, List.append_nil]

theorem Init_width (k : MapConsts) (c : CCollision) : (Init k c).m_Width = c.m_Width := rfl

theorem Init_height (k : MapConsts) (c : CCollision) : (Init k c).m_Height = c.m_Height := rfl

theorem Init_cellIndex (k : MapConsts) (c : CCollision) (x y : ℤ) :
    cellIndex (Init k c) x y = cellIndex c x y := rfl

theorem cellIndex_bounds (c : CCollision) (hc : c.WellFormed) (x y : ℤ) :
    0 ≤ cellIndex c x y ∧ (cellIndex c x y).toNat < c.m_pTiles.length := by
  obtain ⟨hW, hH, hlen⟩ := hc
  have hx := @clamp_mem (Int.tdiv x 32) (c.m_Width - 1) (by omega)
  have hy := @clamp_mem (Int.tdiv y 32) (c.m_Height - 1) (by omega)
  have h0 : 0 ≤ cellIndex c x y := by
    unfold cellIndex; simp only []; nlinarith [hx.1, hy.1]
  refine ⟨h0, ?_⟩
  have : cellIndex c x y < (c.m_pTiles.length : ℤ) := by
    rw [hlen]; unfold cellIndex; simp only []; nlinarith [hx.1, hx.2, hy.1, hy.2]
  omega

theorem tileIndexAt_Init (k : MapConsts) (c : CCollision) (hc : c.WellFormed) (x y : ℤ) :
    tileIndexAt (Init k c) (cellIndex c x y) =
      (toUChar (remapTileIndex k (tileIndexAt c (cellIndex c x y))) : ℤ) := by
  obtain ⟨h0, hlt⟩ := cellIndex_bounds c hc x y
  unfold tileIndexAt
  rw [if_pos h0, if_pos h0, Init_tiles k c hc]
  rw [List.getD_eq_getElem _ _ hlt, List.getD_eq_getElem _ _ (by simpa using hlt)]
  simp [remapTile]

theorem tileIndexAt_lt (c : CCollision) (hb : c.ByteTiles) (i : ℤ) :
    0 ≤ tileIndexAt c i ∧ tileIndexAt c i < 256 := by
  unfold tileIndexAt
  split_ifs with h
  · refine ⟨Int.natCast_nonneg _, ?_⟩
    rcases lt_or_le i.toNat c.m_pTiles.length with hlt | hge
    · rw [List.getD_eq_getElem _ _ hlt]
      exact_mod_cast hb _ (List.getElem_mem _)
    · rw [List.getD_eq_default _ _ hge]; norm_num
  · omega

theorem toUChar_of_range {v : ℤ} (h0 : 0 ≤ v) (h1 : v < 256) : (toUChar v : ℤ) = v := by
  unfold toUChar
  rw [Int.toNat_of_nonneg (Int.emod_nonneg _ (by norm_num)), Int.emod_eq_of_lt h0 h1]

theorem remapTileIndex_gt (k : MapConsts) (hk : k.Valid) {raw : ℤ} (h : raw > 128) :
    remapTileIndex k raw = raw ∧ tileFlagOf k raw = 0 := by
  have h1 := hk.tile_solid_le
  have h2 := hk.tile_death_le
  have h3 := hk.tile_nohook_le
  have h4 := hk.tile_export_le
  constructor
  · unfold remapTileIndex; rw [if_pos h]
  · unfold tileFlagOf
    rw [if_neg (by omega), if_neg (by omega), if_neg (by omega), if_neg (by omega)]

theorem remapTileIndex_le (k : MapConsts) (hk : k.Valid) {raw : ℤ} (h : ¬ raw > 128) :
    remapTileIndex k raw = tileFlagOf k raw ∧ 0 ≤ tileFlagOf k raw ∧ tileFlagOf k raw ≤ 128 := by
  have hsd := hk.solid_ne_death
  unfold remapTileIndex tileFlagOf
  rw [if_neg h]
  by_cases hS : raw = k.TILE_SOLID
  · have hD : ¬ raw = k.TILE_DEATH := by rw [hS]; exact hsd
    simp only [if_pos hS, if_neg hD]
    exact ⟨trivial, hk.solid_range⟩
  · by_cases hD : raw = k.TILE_DEATH
    · simp only [if_pos hD, if_neg hS]; exact ⟨trivial, hk.death_range⟩
    · by_cases hN : raw = k.TILE_NOHOOK
      · simp only [if_pos hN, if_neg hS, if_neg hD]; exact ⟨trivial, hk.solid_nohook_range⟩
      · by_cases hE : raw = k.TILE_EXPORT
        · simp only [if_pos hE, if_neg hS, if_neg hD, if_neg hN]; exact ⟨trivial, hk.export_range⟩
        · simp only [if_neg hE, if_neg hS, if_neg hD, if_neg hN]
          exact ⟨trivial, le_refl _, by norm_num⟩

/-- C8. After `Init`, the tile-only result of `GetTile` at any point is the
flag set of the cell's raw index: SOLID for `TILE_SOLID`, DEATH for
`TILE_DEATH`, SOLID|NOHOOK for `TILE_NOHOOK`, EXPORT for `TILE_EXPORT` and 0
for every other raw index, in particular for every raw index above 128; so it
lies in the closed set of these five values. -/
theorem Init_GetTile_closed_set (k : MapConsts) (hk : k.Valid) (c : CCollision)
    (hc : c.WellFormed) (hb : c.ByteTiles) (x y : ℤ) :
    GetTile (Init k c) x y false =
      (if tileIndexAt c (cellIndex c x y) = k.TILE_SOLID then k.COLFLAG_SOLID
       else if tileIndexAt c (cellIndex c x y) = k.TILE_DEATH then k.COLFLAG_DEATH
       else if tileIndexAt c (cellIndex c x y) = k.TILE_NOHOOK then
         Int.lor k.COLFLAG_SOLID k.COLFLAG_NOHOOK
       else if tileIndexAt c (cellIndex c x y) = k.TILE_EXPORT then k.COLFLAG_EXPORT
       else 0) ∧
    (128 < tileIndexAt c (cellIndex c x y) → GetTile (Init k c) x y false = 0) ∧
    (GetTile (Init k c) x y false = 0 ∨
      GetTile (Init k c) x y false = k.COLFLAG_SOLID ∨
      GetTile (Init k c) x y false = k.COLFLAG_DEATH ∨
      GetTile (Init k c) x y false = Int.lor k.COLFLAG_SOLID k.COLFLAG_NOHOOK ∨
      GetTile (Init k c) x y false = k.COLFLAG_EXPORT) := by
  obtain ⟨hr0, hr1⟩ := tileIndexAt_lt c hb (cellIndex c x y)
  have hG : GetTile (Init k c) x y false =
      if (toUChar (remapTileIndex k (tileIndexAt c (cellIndex c x y))) : ℤ) > 128 then 0
      else (toUChar (remapTileIndex k (tileIndexAt c (cellIndex c x y))) : ℤ) := by
    unfold GetTile
    simp only [Init_cellIndex, tileIndexAt_Init k c hc]
  generalize tileIndexAt c (cellIndex c x y) = raw at hr0 hr1 hG
  have key : GetTile (Init k c) x y false = tileFlagOf k raw := by
    rw [hG]
    by_cases h128 : raw > 128
    · rw [(remapTileIndex_gt k hk h128).1, (remapTileIndex_gt k hk h128).2,
        toUChar_of_range hr0 hr1, if_pos h128]
    · obtain ⟨h1, h2, h3⟩ := remapTileIndex_le k hk h128
      rw [h1, toUChar_of_range h2 (by omega), if_neg (by omega)]
  unfold tileFlagOf at key
  refine ⟨key, ?_, ?_⟩
  · intro h
    have h1 := hk.tile_solid_le
    have h2 := hk.tile_death_le
    have h3 := hk.tile_nohook_le
    have h4 := hk.tile_export_le
    rw [key, if_neg (by omega), if_neg (by omega), if_neg (by omega), if_neg (by omega)]
  · rw [key]
    split_ifs <;> simp

/-- Witness of C8: a single no-hook tile under the sample enumerator values. -/
theorem Init_GetTile_closed_set_witness :
    stockConsts.Valid ∧ (oneTileMap 3).WellFormed ∧ (oneTileMap 3).ByteTiles ∧
    GetTile (Init stockConsts (oneTileMap 3)) 7 7 false =
      Int.lor stockConsts.COLFLAG_SOLID stockConsts.COLFLAG_NOHOOK :=
  ⟨stockConsts_valid, by unfold CCollision.WellFormed; decide,
   by unfold CCollision.ByteTiles; decide,
   (Init_GetTile_closed_set stockConsts stockConsts_valid (oneTileMap 3)
      (by unfold CCollision.WellFormed; decide) (by unfold CCollision.ByteTiles; decide) 7 7).1⟩

/-- Counterexample to C7: on the one-tile map whose raw index is `TILE_NOHOOK`
the first remap stores SOLID|NOHOOK = 5, which the second remap turns into 0. -/
theorem Init_not_idempotent :
    Init stockConsts (Init stockConsts (oneTileMap 3)) ≠ Init stockConsts (oneTileMap 3) := by
  decide

theorem remapTile_fixed (k : MapConsts) (hu : k.Upstream) (t : CTile) (hb : t.m_Index < 256)
    (hN : (t.m_Index : ℤ) ≠ k.TILE_NOHOOK) (hE : (t.m_Index : ℤ) ≠ k.TILE_EXPORT) :
    remapTile k (remapTile k t) = remapTile k t := by
  obtain ⟨h1, h2, h3, h4, h5, h6, h7⟩ := hu
  rw [h3] at hN
  have hcases : t.m_Index > 128 ∨ t.m_Index = 1 ∨ t.m_Index = 2 ∨
      (t.m_Index ≤ 128 ∧ t.m_Index ≠ 1 ∧ t.m_Index ≠ 2 ∧ t.m_Index ≠ 3) := by omega
  have hz : remapTileIndex k 0 = 0 := by
    unfold remapTileIndex
    rw [h1, h2, h3]
    simp [Ne.symm h7]
  have hfix : remapTileIndex k (t.m_Index : ℤ) = (t.m_Index : ℤ) → remapTile k t = t := by
    intro hi
    have : toUChar (t.m_Index : ℤ) = t.m_Index := by
      unfold toUChar; omega
    unfold remapTile
    rw [hi, this]
  rcases hcases with h | h | h | ⟨ha, hb1, hb2, hb3⟩
  · have : remapTile k t = t := by
      apply hfix
      unfold remapTileIndex
      rw [if_pos (by omega)]
    rw [this, this]
  · have : remapTile k t = t := by
      apply hfix
      rw [h]
      unfold remapTileIndex
      rw [h1, h2, h4]
      norm_num
    rw [this, this]
  · have : remapTile k t = t := by
      apply hfix
      rw [h]
      unfold remapTileIndex
      rw [h2, h5]
      norm_num
    rw [this, this]
  · have h0 : remapTileIndex k (t.m_Index : ℤ) = 0 := by
      unfold remapTileIndex
      rw [h1, h2, h3]
      have e1 : ¬ ((t.m_Index : ℤ) > 128) := by omega
      have e2 : ¬ ((t.m_Index : ℤ) = 2) := by omega
      have e3 : ¬ ((t.m_Index : ℤ) = 1) := by omega
      have e4 : ¬ ((t.m_Index : ℤ) = 3) := by omega
      simp only [if_neg e1, if_neg e2, if_neg e3, if_neg e4, if_neg hE]
    have hz' : toUChar 0 = 0 := by decide
    unfold remapTile
    simp only [h0, hz', Nat.cast_zero, hz]

theorem remapQuad_fixed (k : MapConsts) (hu : k.Upstream) (q : CQuad)
    (hE : q.m_ColorEnvOffset ≠ k.TILE_EXPORT) :
    remapQuad k (remapQuad k q) = remapQuad k q := by
  obtain ⟨h1, h2, h3, h4, h5, h6, h7⟩ := hu
  have key : remapQuadIndex k (remapQuadIndex k q.m_ColorEnvOffset)
      = remapQuadIndex k q.m_ColorEnvOffset := by
    unfold remapQuadIndex
    rw [h2, h5]
    by_cases a : q.m_ColorEnvOffset > 128
    · simp only [if_pos a]
    · by_cases b : q.m_ColorEnvOffset = 2
      · simp [b]
      · simp [a, b, hE, Ne.symm h7]
  unfold remapQuad
  simp only [key]

/-- C7, amended. With the upstream enumerator values (`TILE_SOLID` and
`TILE_DEATH` equal to the flags they are remapped to), a second run of the
remap of `Init` changes nothing on a map none of whose tiles has raw index
`TILE_NOHOOK` or `TILE_EXPORT` and none of whose quads has raw value
`TILE_EXPORT`. -/
theorem Init_idempotent_of_no_nohook_export (k : MapConsts) (hu : k.Upstream) (c : CCollision)
    (hc : c.WellFormed) (hb : c.ByteTiles)
    (htiles : ∀ t ∈ c.m_pTiles, (t.m_Index : ℤ) ≠ k.TILE_NOHOOK ∧ (t.m_Index : ℤ) ≠ k.TILE_EXPORT)
    (hquads : ∀ quads, c.m_pPhysicalQuads = some quads →
      ∀ q ∈ quads, q.m_ColorEnvOffset ≠ k.TILE_EXPORT) :
    Init k (Init k c) = Init k c := by
  have hc' : (Init k c).WellFormed := by
    obtain ⟨h1, h2, h3⟩ := hc
    refine ⟨h1, h2, ?_⟩
    rw [Init_tiles k c ⟨h1, h2, h3⟩, List.length_map]
    exact h3
  have ht : (Init k (Init k c)).m_pTiles = (Init k c).m_pTiles := by
    rw [Init_tiles k _ hc', Init_tiles k c hc, List.map_map]
    apply List.map_congr_left
    intro t ht
    exact remapTile_fixed k hu t (hb t ht) (htiles t ht).1 (htiles t ht).2
  have hq : (Init k (Init k c)).m_pPhysicalQuads = (Init k c).m_pPhysicalQuads := by
    show ((c.m_pPhysicalQuads.map (List.map (remapQuad k))).map (List.map (remapQuad k)))
      = c.m_pPhysicalQuads.map (List.map (remapQuad k))
    cases hq : c.m_pPhysicalQuads with
    | none => rfl
    | some quads =>
      simp only [Option.map_some', List.map_map, Option.some.injEq]
      apply List.map_congr_left
      intro q hqm
      exact remapQuad_fixed k hu q (hquads quads hq q hqm)
  have hw : (Init k (Init k c)).m_Width = (Init k c).m_Width := rfl
  have hh : (Init k (Init k c)).m_Height = (Init k c).m_Height := rfl
  generalize Init k (Init k c) = a at *
  generalize Init k c = b at *
  cases a; cases b
  simp only at ht hq hw hh
  simp only [ht, hq, hw, hh]

/-- Witness of the amended C7 on the sample quad map with a death quad. -/
theorem Init_idempotent_witness :
    stockConsts.Upstream ∧ (quadMap 2).WellFormed ∧
    Init stockConsts (Init stockConsts (quadMap 2)) = Init stockConsts (quadMap 2) :=
  ⟨stockConsts_upstream, by unfold CCollision.WellFormed; decide,
   Init_idempotent_of_no_nohook_export stockConsts stockConsts_upstream (quadMap 2)
     (by unfold CCollision.WellFormed; decide) (by unfold CCollision.ByteTiles; decide)
     (by decide) (by intro quads h; cases h; decide)⟩

/-- C9, the code at the failing input: `Init` leaves the auxiliary value 129 of
a quad untouched, and `GetTile` ORs it into the result at a point inside the
quad, so the point reads as solid; a tile with raw index 129 yields 0. -/
theorem Init_keeps_quad_above_128 :
    (Init stockConsts (quadMap 129)).m_pPhysicalQuads = some [squareQuad 129] ∧
    quadContains (squareQuad 129) 5 5 = true ∧
    GetTile (Init stockConsts (quadMap 129)) 5 5 false = 0 ∧
    GetTile (Init stockConsts (quadMap 129)) 5 5 true = 129 ∧
    IsTile (Init stockConsts (quadMap 129)) 5 5 stockConsts.COLFLAG_SOLID true = true ∧
    GetTile (Init stockConsts (oneTileMap 129)) 5 5 true = 0 := by
  decide!

/-! ## C10: `IntersectLine` -/

theorem IntersectLineScan_miss (k : MapConsts) (c : CCollision) (Pos1 : vec2) (PhysicLayer : Bool)
    (samples : List vec2) (Last : vec2)
    (h : ∀ s ∈ samples, CheckPoint c s.x s.y (boolToInt PhysicLayer) k.PhysicLayerDefault = false) :
    IntersectLineScan k c Pos1 PhysicLayer samples Last = ⟨0, Pos1, Pos1⟩ := by
  induction samples generalizing Last with
  | nil => rfl
  | cons p rest ih =>
    have hp := h p (List.mem_cons_self _ _)
    unfold IntersectLineScan
    rw [hp]
    exact ih p fun s hs => h s (List.mem_cons_of_mem _ hs)

theorem IntersectLineScan_cons_false (k : MapConsts) (c : CCollision) (Pos1 : vec2)
    (PhysicLayer : Bool) (p : vec2) (rest : List vec2) (Last : vec2)
    (hp : CheckPoint c p.x p.y (boolToInt PhysicLayer) k.PhysicLayerDefault = false) :
    IntersectLineScan k c Pos1 PhysicLayer (p :: rest) Last
      = IntersectLineScan k c Pos1 PhysicLayer rest p := by
  simp [IntersectLineScan, hp]

theorem IntersectLineScan_hit (k : MapConsts) (c : CCollision) (Pos1 : vec2) (PhysicLayer : Bool)
    (pre : List vec2) (p : vec2) (post : List vec2) (Last : vec2)
    (hpre : ∀ s ∈ pre, CheckPoint c s.x s.y (boolToInt PhysicLayer) k.PhysicLayerDefault = false)
    (hp : CheckPoint c p.x p.y (boolToInt PhysicLayer) k.PhysicLayerDefault = true) :
    IntersectLineScan k c Pos1 PhysicLayer (pre ++ p :: post) Last =
      ⟨GetCollisionAt c p.x p.y PhysicLayer, p, pre.getLast?.getD Last⟩ := by
  induction pre generalizing Last with
  | nil =>
    simp only [List.nil_append, IntersectLineScan, hp, if_true, List.getLast?_nil, Option.getD_none]
  | cons q rest ih =>
    have hq := hpre q (List.mem_cons_self _ _)
    rw [List.cons_append, IntersectLineScan_cons_false k c Pos1 PhysicLayer q _ Last hq,
      ih q fun s hs => hpre s (List.mem_cons_of_mem _ hs)]
    cases rest with
    | nil => simp
    | cons r rs =>
      rw [List.getLast?_cons_cons, List.getLast?_eq_getLast _ (List.cons_ne_nil r rs)]
      rfl

theorem lineSamples_head (Pos0 Pos1 : vec2) :
    ∃ rest, lineSamples Pos0 Pos1 = Pos0 :: rest := by
  unfold lineSamples
  simp only []
  rw [List.range_succ_eq_map]
  refine ⟨((List.range (floorLength (Pos0 - Pos1) + 1 )).map Nat.succ).map
    (fun (i : ℕ) => mix Pos0 Pos1 ((i : ℚ) * (1 / ((floorLength (Pos0 - Pos1) + 1 : ℕ) : ℚ)))), ?_⟩
  simp only [List.map_cons]
  congr 1
  rw [vec2_eq_iff]
  simp [mix]

section Step

variable (k : MapConsts) (c : CCollision) (Size : vec2) (e F : ℚ) (pDeath PL : Bool)

theorem MoveBoxStep_free (s : MoveState)
    (h : boxTest k c Size PL (s.Pos + s.Vel * F) = false) :
    (MoveBoxStep k c Size e F pDeath PL s).Pos = s.Pos + s.Vel * F ∧
    (MoveBoxStep k c Size e F pDeath PL s).Vel = s.Vel := by
  unfold boxTest at h
  unfold MoveBoxStep
  simp only []
  generalize hA : TestBox c ⟨(s.Pos + s.Vel * F).x, (s.Pos + s.Vel * F).y⟩ Size (boolToInt PL)
      k.PhysicLayerDefault = A
  have : A = false := by rw [← hA]; exact h
  subst this
  exact ⟨rfl, rfl⟩

theorem MoveBoxStep_hitX (s : MoveState)
    (h1 : boxTest k c Size PL (s.Pos + s.Vel * F) = true)
    (h2 : boxTest k c Size PL ⟨s.Pos.x, (s.Pos + s.Vel * F).y⟩ = false)
    (h3 : boxTest k c Size PL ⟨(s.Pos + s.Vel * F).x, s.Pos.y⟩ = true) :
    (MoveBoxStep k c Size e F pDeath PL s).Pos = ⟨s.Pos.x, (s.Pos + s.Vel * F).y⟩ ∧
    (MoveBoxStep k c Size e F pDeath PL s).Vel = ⟨s.Vel.x * -e, s.Vel.y⟩ := by
  unfold boxTest at h1 h2 h3
  unfold MoveBoxStep
  simp only []
  generalize hA : TestBox c ⟨(s.Pos + s.Vel * F).x, (s.Pos + s.Vel * F).y⟩ Size (boolToInt PL)
      k.PhysicLayerDefault = A
  generalize hY : TestBox c ⟨s.Pos.x, (s.Pos + s.Vel * F).y⟩ Size (boolToInt PL)
      k.PhysicLayerDefault = Y
  generalize hX : TestBox c ⟨(s.Pos + s.Vel * F).x, s.Pos.y⟩ Size (boolToInt PL)
      k.PhysicLayerDefault = X
  have e1 : A = true := by rw [← hA]; exact h1
  have e2 : Y = false := by rw [← hY]; exact h2
  have e3 : X = true := by rw [← hX]; exact h3
  subst e1 e2 e3
  exact ⟨rfl, rfl⟩

theorem MoveBoxStep_pos_x (s : MoveState) :
    (MoveBoxStep k c Size e F pDeath PL s).Pos.x = s.Pos.x ∨
    ((MoveBoxStep k c Size e F pDeath PL s).Pos.x = (s.Pos + s.Vel * F).x ∧
      ∃ y, boxTest k c Size PL ⟨(s.Pos + s.Vel * F).x, y⟩ = false) := by
  unfold boxTest MoveBoxStep
  simp only []
  generalize hA : TestBox c ⟨(s.Pos + s.Vel * F).x, (s.Pos + s.Vel * F).y⟩ Size (boolToInt PL)
      k.PhysicLayerDefault = A
  generalize hY : TestBox c ⟨s.Pos.x, (s.Pos + s.Vel * F).y⟩ Size (boolToInt PL)
      k.PhysicLayerDefault = Y
  generalize hX : TestBox c ⟨(s.Pos + s.Vel * F).x, s.Pos.y⟩ Size (boolToInt PL)
      k.PhysicLayerDefault = X
  cases A
  · right
    exact ⟨rfl, (s.Pos + s.Vel * F).y, hA⟩
  · cases X
    · cases Y
      · left; rfl
      · right
        exact ⟨rfl, s.Pos.y, hX⟩
    · cases Y
      · left; rfl
      · left; rfl

theorem MoveBoxStep_vel_x (s : MoveState) :
    (MoveBoxStep k c Size e F pDeath PL s).Vel.x = s.Vel.x ∨
    (MoveBoxStep k c Size e F pDeath PL s).Vel.x = s.Vel.x * -e := by
  unfold MoveBoxStep
  simp only []
  generalize TestBox c ⟨(s.Pos + s.Vel * F).x, (s.Pos + s.Vel * F).y⟩ Size (boolToInt PL)
      k.PhysicLayerDefault = A
  generalize TestBox c ⟨s.Pos.x, (s.Pos + s.Vel * F).y⟩ Size (boolToInt PL)
      k.PhysicLayerDefault = Y
  generalize TestBox c ⟨(s.Pos + s.Vel * F).x, s.Pos.y⟩ Size (boolToInt PL)
      k.PhysicLayerDefault = X
  cases A
  · left; rfl
  · cases X
    · cases Y
      · right; rfl
      · left; rfl
    · cases Y
      · right; rfl
      · right; rfl

end Step

section Barrier

variable (k : MapConsts) (c : CCollision) (Size : vec2) (e F : ℚ) (pDeath PL : Bool)

theorem leadEdge_step {σ : ℤ} (hσ : σ = 1 ∨ σ = -1) (Size : vec2) {x x' : ℚ}
    (h : (σ : ℚ) * x' < (σ : ℚ) * x + 1) : leadEdge σ Size x' ≤ leadEdge σ Size x + 1 := by
  unfold leadEdge
  rcases hσ with rfl | rfl
  · have := @round_to_int_step (x + ((1 : ℤ) : ℚ) * (Size.x * (1 / 2)))
      (x' + ((1 : ℤ) : ℚ) * (Size.x * (1 / 2))) (by push_cast at h ⊢; linarith)
    omega
  · have := @round_to_int_step (x' + ((-1 : ℤ) : ℚ) * (Size.x * (1 / 2)))
      (x + ((-1 : ℤ) : ℚ) * (Size.x * (1 / 2))) (by push_cast at h ⊢; linarith)
    omega

theorem leadEdge_mono {σ : ℤ} (hσ : σ = 1 ∨ σ = -1) (Size : vec2) {x x' : ℚ}
    (h : (σ : ℚ) * x' ≤ (σ : ℚ) * x) : leadEdge σ Size x' ≤ leadEdge σ Size x := by
  unfold leadEdge
  rcases hσ with rfl | rfl
  · have := @round_to_int_mono (x' + ((1 : ℤ) : ℚ) * (Size.x * (1 / 2)))
      (x + ((1 : ℤ) : ℚ) * (Size.x * (1 / 2))) (by push_cast at h ⊢; linarith)
    omega
  · have := @round_to_int_mono (x + ((-1 : ℤ) : ℚ) * (Size.x * (1 / 2)))
      (x' + ((-1 : ℤ) : ℚ) * (Size.x * (1 / 2))) (by push_cast at h ⊢; linarith)
    omega

/-- One sub-step cannot carry the leading edge onto or past a pixel column `T`
at which the box test always fires, as long as the X velocity times the
fraction stays below one unit. -/
theorem barrier_step {σ : ℤ} (hσ : σ = 1 ∨ σ = -1) (T : ℤ)
    (hbar : ∀ P : vec2, leadEdge σ Size P.x = T → boxTest k c Size PL P = true)
    (he : 0 ≤ e ∧ e ≤ 1) (hF : 0 ≤ F) (B : ℚ) (hB : B * F < 1) (s : MoveState)
    (hs : leadEdge σ Size s.Pos.x < T) (hv : |s.Vel.x| ≤ B) :
    leadEdge σ Size (MoveBoxStep k c Size e F pDeath PL s).Pos.x < T ∧
    |(MoveBoxStep k c Size e F pDeath PL s).Vel.x| ≤ B := by
  constructor
  · rcases MoveBoxStep_pos_x k c Size e F pDeath PL s with h | ⟨h, y, hy⟩
    · rw [h]; exact hs
    · rw [h]
      have hstep : (σ : ℚ) * (s.Pos + s.Vel * F).x < (σ : ℚ) * s.Pos.x + 1 := by
        rw [vec2_add_x, vec2_smul_x]
        have h1 : |s.Vel.x| * F ≤ B * F := mul_le_mul_of_nonneg_right hv hF
        have h2 : s.Vel.x * F ≤ |s.Vel.x| * F := mul_le_mul_of_nonneg_right (le_abs_self _) hF
        have h3 : -(s.Vel.x * F) ≤ |s.Vel.x| * F := by
          have := mul_le_mul_of_nonneg_right (neg_abs_le s.Vel.x) hF
          linarith
        rcases hσ with rfl | rfl
        · push_cast; linarith
        · push_cast; linarith
      have hle := leadEdge_step hσ Size hstep
      have hne : leadEdge σ Size (s.Pos + s.Vel * F).x ≠ T := by
        intro heq
        have := hbar ⟨(s.Pos + s.Vel * F).x, y⟩ heq
        rw [this] at hy
        exact Bool.noConfusion hy
      omega
  · rcases MoveBoxStep_vel_x k c Size e F pDeath PL s with h | h
    · rw [h]; exact hv
    · rw [h, abs_mul, abs_neg, abs_of_nonneg he.1]
      have : |s.Vel.x| * e ≤ |s.Vel.x| * 1 := mul_le_mul_of_nonneg_left he.2 (abs_nonneg _)
      linarith

theorem barrier_iterate {σ : ℤ} (hσ : σ = 1 ∨ σ = -1) (T : ℤ)
    (hbar : ∀ P : vec2, leadEdge σ Size P.x = T → boxTest k c Size PL P = true)
    (he : 0 ≤ e ∧ e ≤ 1) (hF : 0 ≤ F) (B : ℚ) (hB : B * F < 1) (n : ℕ) (s : MoveState)
    (hs : leadEdge σ Size s.Pos.x < T) (hv : |s.Vel.x| ≤ B) :
    leadEdge σ Size ((MoveBoxStep k c Size e F pDeath PL)^[n] s).Pos.x < T := by
  induction n generalizing s with
  | zero => exact hs
  | succ n ih =>
    rw [Function.iterate_succ_apply]
    obtain ⟨h1, h2⟩ := barrier_step k c Size e F pDeath PL hσ T hbar he hF B hB s hs hv
    exact ih _ h1 h2

theorem abs_x_lt_floorLength_succ (v : vec2) : |v.x| < (floorLength v : ℚ) + 1 := by
  have h2 : ⌊dot v v⌋₊ < (floorLength v + 1) * (floorLength v + 1) :=
    floorSqrt_lt_succ_sq ⌊dot v v⌋₊
  have hfl2 : dot v v < ((⌊dot v v⌋₊ : ℕ) : ℚ) + 1 := Nat.lt_floor_add_one _
  generalize floorLength v = m at h2 ⊢
  generalize ⌊dot v v⌋₊ = d at h2 hfl2
  have h2q : dot v v < ((m : ℚ) + 1) * ((m : ℚ) + 1) := by
    have : ((d : ℕ) : ℚ) + 1 ≤ (((m + 1) * (m + 1) : ℕ) : ℚ) := by exact_mod_cast h2
    push_cast at this; linarith
  have hx : v.x * v.x ≤ dot v v := by unfold dot; nlinarith [mul_self_nonneg v.y]
  have hm : (0 : ℚ) ≤ m := Nat.cast_nonneg m
  by_contra hcon
  push_neg at hcon
  have : ((m : ℚ) + 1) * ((m : ℚ) + 1) ≤ |v.x| * |v.x| := by nlinarith
  rw [abs_mul_abs_self] at this
  linarith

/-- No tunnelling, abstractly: when the box test fires at every position whose
leading edge is in pixel column `T`, a box whose leading edge starts before `T`
ends `MoveBox` with its leading edge still before `T`. -/
theorem MoveBox_barrier {σ : ℤ} (hσ : σ = 1 ∨ σ = -1) (T : ℤ)
    (hbar : ∀ P : vec2, leadEdge σ Size P.x = T → boxTest k c Size PL P = true)
    (he : 0 ≤ e ∧ e ≤ 1) (Pos Vel : vec2) (hs : leadEdge σ Size Pos.x < T) :
    leadEdge σ Size (MoveBox k c Pos Vel Size e pDeath PL).Pos.x < T := by
  unfold MoveBox
  simp only []
  split_ifs with hd
  · have hpos : (0 : ℚ) < (floorLength Vel : ℚ) + 1 := by positivity
    have hB : |Vel.x| * (1 / ((floorLength Vel : ℚ) + 1)) < 1 := by
      rw [mul_one_div, div_lt_one hpos]
      exact abs_x_lt_floorLength_succ Vel
    exact barrier_iterate k c Size e (1 / ((floorLength Vel : ℚ) + 1)) pDeath PL hσ T hbar he
      (by positivity) (|Vel.x|) hB (floorLength Vel + 1) ⟨Pos, Vel, false⟩ hs (le_refl _)
  · exact hs

end Barrier

section Bounce

variable (k : MapConsts) (c : CCollision) (Size : vec2) (e F : ℚ) (pDeath PL : Bool)

theorem bounce_stepB {σ : ℤ} (hσ : σ = 1 ∨ σ = -1) (T : ℤ)
    (hclear : ∀ P : vec2, leadEdge σ Size P.x < T → boxTest k c Size PL P = false)
    (he : 0 ≤ e ∧ e ≤ 1) (hF : 0 ≤ F) (v : ℚ) (hv : 0 < (σ : ℚ) * v) (s : MoveState)
    (hvel : s.Vel = ⟨v * -e, 0⟩) (hs : leadEdge σ Size s.Pos.x < T) :
    (MoveBoxStep k c Size e F pDeath PL s).Vel = ⟨v * -e, 0⟩ ∧
    leadEdge σ Size (MoveBoxStep k c Size e F pDeath PL s).Pos.x < T := by
  have hmono : (σ : ℚ) * (s.Pos + s.Vel * F).x ≤ (σ : ℚ) * s.Pos.x := by
    rw [vec2_add_x, vec2_smul_x, hvel]
    have : 0 ≤ (σ : ℚ) * v * e * F := by
      have := he.1
      positivity
    simp only []
    nlinarith
  have hle := leadEdge_mono hσ Size hmono
  have hfree := hclear (s.Pos + s.Vel * F) (by omega)
  obtain ⟨h1, h2⟩ := MoveBoxStep_free k c Size e F pDeath PL s hfree
  rw [h1, h2]
  exact ⟨hvel, by omega⟩

theorem bounce_iterateB {σ : ℤ} (hσ : σ = 1 ∨ σ = -1) (T : ℤ)
    (hclear : ∀ P : vec2, leadEdge σ Size P.x < T → boxTest k c Size PL P = false)
    (he : 0 ≤ e ∧ e ≤ 1) (hF : 0 ≤ F) (v : ℚ) (hv : 0 < (σ : ℚ) * v) (n : ℕ) (s : MoveState)
    (hvel : s.Vel = ⟨v * -e, 0⟩) (hs : leadEdge σ Size s.Pos.x < T) :
    ((MoveBoxStep k c Size e F pDeath PL)^[n] s).Vel = ⟨v * -e, 0⟩ := by
  induction n generalizing s with
  | zero => exact hvel
  | succ n ih =>
    rw [Function.iterate_succ_apply]
    obtain ⟨h1, h2⟩ := bounce_stepB k c Size e F pDeath PL hσ T hclear he hF v hv s hvel hs
    exact ih _ h1 h2

theorem bounce_stepA {σ : ℤ} (hσ : σ = 1 ∨ σ = -1) (T : ℤ)
    (hbar : ∀ P : vec2, leadEdge σ Size P.x = T → boxTest k c Size PL P = true)
    (hclear : ∀ P : vec2, leadEdge σ Size P.x < T → boxTest k c Size PL P = false)
    (hF : 0 ≤ F) (v : ℚ) (hvF : |v| * F < 1) (x0 : ℚ) (j : ℕ) (s : MoveState)
    (hvel : s.Vel = ⟨v, 0⟩) (hx : s.Pos.x = x0 + (j : ℚ) * (v * F))
    (hs : leadEdge σ Size s.Pos.x < T) :
    ((MoveBoxStep k c Size e F pDeath PL s).Vel = ⟨v, 0⟩ ∧
      (MoveBoxStep k c Size e F pDeath PL s).Pos.x = x0 + ((j + 1 : ℕ) : ℚ) * (v * F) ∧
      leadEdge σ Size (MoveBoxStep k c Size e F pDeath PL s).Pos.x < T) ∨
    ((MoveBoxStep k c Size e F pDeath PL s).Vel = ⟨v * -e, 0⟩ ∧
      leadEdge σ Size (MoveBoxStep k c Size e F pDeath PL s).Pos.x < T) := by
  have hnx : (s.Pos + s.Vel * F).x = s.Pos.x + v * F := by
    rw [vec2_add_x, vec2_smul_x, hvel]
  have hstep : (σ : ℚ) * (s.Pos + s.Vel * F).x < (σ : ℚ) * s.Pos.x + 1 := by
    rw [hnx]
    have h2 : v * F ≤ |v| * F := mul_le_mul_of_nonneg_right (le_abs_self _) hF
    have h3 : -(v * F) ≤ |v| * F := by
      have := mul_le_mul_of_nonneg_right (neg_abs_le v) hF
      linarith
    rcases hσ with rfl | rfl
    · push_cast; linarith
    · push_cast; linarith
  have hle := leadEdge_step hσ Size hstep
  rcases lt_or_eq_of_le (show leadEdge σ Size (s.Pos + s.Vel * F).x ≤ T by omega) with hlt | heq
  · left
    have hfree := hclear (s.Pos + s.Vel * F) hlt
    obtain ⟨h1, h2⟩ := MoveBoxStep_free k c Size e F pDeath PL s hfree
    rw [h1, h2]
    refine ⟨hvel, ?_, hlt⟩
    rw [hnx, hx]; push_cast; ring
  · right
    have hA := hbar (s.Pos + s.Vel * F) heq
    have hY := hclear ⟨s.Pos.x, (s.Pos + s.Vel * F).y⟩ hs
    have hX := hbar ⟨(s.Pos + s.Vel * F).x, s.Pos.y⟩ heq
    obtain ⟨h1, h2⟩ := MoveBoxStep_hitX k c Size e F pDeath PL s hA hY hX
    rw [h1, h2, hvel]
    exact ⟨rfl, hs⟩

theorem bounce_iterateA {σ : ℤ} (hσ : σ = 1 ∨ σ = -1) (T : ℤ)
    (hbar : ∀ P : vec2, leadEdge σ Size P.x = T → boxTest k c Size PL P = true)
    (hclear : ∀ P : vec2, leadEdge σ Size P.x < T → boxTest k c Size PL P = false)
    (he : 0 ≤ e ∧ e ≤ 1) (hF : 0 ≤ F) (v : ℚ) (hv : 0 < (σ : ℚ) * v) (hvF : |v| * F < 1)
    (x0 : ℚ) (n j : ℕ) (s : MoveState)
    (hvel : s.Vel = ⟨v, 0⟩) (hx : s.Pos.x = x0 + (j : ℚ) * (v * F))
    (hs : leadEdge σ Size s.Pos.x < T) :
    (((MoveBoxStep k c Size e F pDeath PL)^[n] s).Pos.x = x0 + ((j + n : ℕ) : ℚ) * (v * F) ∧
      leadEdge σ Size ((MoveBoxStep k c Size e F pDeath PL)^[n] s).Pos.x < T) ∨
    ((MoveBoxStep k c Size e F pDeath PL)^[n] s).Vel = ⟨v * -e, 0⟩ := by
  induction n generalizing s j with
  | zero => left; exact ⟨hx, hs⟩
  | succ n ih =>
    rw [Function.iterate_succ_apply]
    rcases bounce_stepA k c Size e F pDeath PL hσ T hbar hclear hF v hvF x0 j s hvel hx hs with
      ⟨h1, h2, h3⟩ | ⟨h1, h2⟩
    · have := ih (j + 1) _ h1 h2 h3
      rw [show j + 1 + n = j + (n + 1) by omega] at this
      exact this
    · right
      exact bounce_iterateB k c Size e F pDeath PL hσ T hclear he hF v hv n _ h1 h2

/-- The bounce, abstractly: the box test fires exactly when the leading edge is
in pixel column `T` (among positions at or before `T`), the box starts before
`T` with velocity `(v, 0)` towards `T`, and the full displacement would carry
the leading edge to `T` or beyond.  Then `MoveBox` returns the velocity
`(v * -e, 0)`. -/
theorem MoveBox_bounce {σ : ℤ} (hσ : σ = 1 ∨ σ = -1) (T : ℤ)
    (hbar : ∀ P : vec2, leadEdge σ Size P.x = T → boxTest k c Size PL P = true)
    (hclear : ∀ P : vec2, leadEdge σ Size P.x < T → boxTest k c Size PL P = false)
    (he : 0 ≤ e ∧ e ≤ 1) (Pos : vec2) (v : ℚ) (hv : 0 < (σ : ℚ) * v)
    (hex : lengthExceeds ⟨v, 0⟩ (1 / 100000) = true)
    (hs : leadEdge σ Size Pos.x < T) (hreach : T ≤ leadEdge σ Size (Pos.x + v)) :
    (MoveBox k c Pos ⟨v, 0⟩ Size e pDeath PL).Vel = ⟨v * -e, 0⟩ := by
  unfold MoveBox
  simp only []
  rw [if_pos hex]
  have hpos : (0 : ℚ) < (floorLength ⟨v, 0⟩ : ℚ) + 1 := by positivity
  have hB : |v| * (1 / ((floorLength ⟨v, 0⟩ : ℚ) + 1)) < 1 := by
    rw [mul_one_div, div_lt_one hpos]
    exact abs_x_lt_floorLength_succ ⟨v, 0⟩
  rcases bounce_iterateA k c Size e (1 / ((floorLength ⟨v, 0⟩ : ℚ) + 1)) pDeath PL hσ T hbar hclear
    he (by positivity) v hv hB Pos.x (floorLength ⟨v, 0⟩ + 1) 0 ⟨Pos, ⟨v, 0⟩, false⟩ rfl
    (by simp) hs with ⟨h1, h2⟩ | h
  · exfalso
    have hx : Pos.x + ((0 + (floorLength ⟨v, 0⟩ + 1) : ℕ) : ℚ) *
        (v * (1 / ((floorLength ⟨v, 0⟩ : ℚ) + 1))) = Pos.x + v := by
      push_cast
      field_simp
    rw [h1, hx] at h2
    omega
  · exact h

end Bounce

/-! ## Walls on the grid -/

section Grid

theorem land_one_ne_zero_iff (v : ℤ) : Int.land v 1 ≠ 0 ↔ Int.testBit v 0 = true := by
  rw [land_one]
  cases Int.testBit v 0 <;> simp

theorem land_one_eq_zero_iff (v : ℤ) : Int.land v 1 = 0 ↔ Int.testBit v 0 = false := by
  rw [land_one]
  cases Int.testBit v 0 <;> simp

theorem foldl_quads_testBit (x y : ℤ) (quads : List CQuad) (I : ℤ) :
    (Int.testBit I 0 = true →
      Int.testBit (quads.foldl (fun Index q =>
        if quadContains q x y then Int.lor Index q.m_ColorEnvOffset else Index) I) 0 = true) ∧
    (Int.testBit I 0 = false → (∀ q ∈ quads, Int.testBit q.m_ColorEnvOffset 0 = false) →
      Int.testBit (quads.foldl (fun Index q =>
        if quadContains q x y then Int.lor Index q.m_ColorEnvOffset else Index) I) 0 = false) := by
  induction quads generalizing I with
  | nil => exact ⟨fun h => h, fun h _ => h⟩
  | cons q qs ih =>
    constructor
    · intro h
      rw [List.foldl_cons]
      apply (ih _).1
      split_ifs
      · rw [Int.testBit_lor, h]; rfl
      · exact h
    · intro h hq
      rw [List.foldl_cons]
      apply (ih _).2
      · split_ifs
        · rw [Int.testBit_lor, h, hq q (List.mem_cons_self _ _)]; rfl
        · exact h
      · exact fun q' hq' => hq q' (List.mem_cons_of_mem _ hq')

theorem GetTile_testBit_of_cell (c : CCollision) (x y : ℤ) (l : Bool)
    (h : Int.testBit (cellFlags c (clamp (Int.tdiv x 32) 0 (c.m_Width - 1))
      (clamp (Int.tdiv y 32) 0 (c.m_Height - 1))) 0 = true) :
    Int.testBit (GetTile c x y l) 0 = true := by
  unfold GetTile
  simp only []
  have h' : Int.testBit (if tileIndexAt c (cellIndex c x y) > 128 then 0
      else tileIndexAt c (cellIndex c x y)) 0 = true := h
  cases l with
  | false => exact h'
  | true =>
    cases hq : c.m_pPhysicalQuads with
    | none => exact h'
    | some quads => exact (foldl_quads_testBit x y quads _).1 h'

theorem GetTile_testBit_clear (c : CCollision) (x y : ℤ) (l : Bool)
    (hq : ∀ quads, c.m_pPhysicalQuads = some quads →
      ∀ q ∈ quads, Int.testBit q.m_ColorEnvOffset 0 = false)
    (h : Int.testBit (cellFlags c (clamp (Int.tdiv x 32) 0 (c.m_Width - 1))
      (clamp (Int.tdiv y 32) 0 (c.m_Height - 1))) 0 = false) :
    Int.testBit (GetTile c x y l) 0 = false := by
  unfold GetTile
  simp only []
  have h' : Int.testBit (if tileIndexAt c (cellIndex c x y) > 128 then 0
      else tileIndexAt c (cellIndex c x y)) 0 = false := h
  cases l with
  | false => exact h'
  | true =>
    cases hqs : c.m_pPhysicalQuads with
    | none => exact h'
    | some quads => exact (foldl_quads_testBit x y quads _).2 h' (hq quads hqs)

theorem CheckPoint_one (c : CCollision) (x y : ℚ) (l : Bool) :
    CheckPoint c x y 1 l = Int.testBit (GetTile c (round_to_int x) (round_to_int y) l) 0 := by
  unfold CheckPoint IsTile
  cases h : Int.testBit (GetTile c (round_to_int x) (round_to_int y) l) 0
  · rw [decide_eq_false_iff_not, not_not, land_one_eq_zero_iff]; exact h
  · rw [decide_eq_true_iff, land_one_ne_zero_iff]; exact h

theorem tdiv32_nonpos {x : ℤ} (hx : x < 0) : Int.tdiv x 32 ≤ 0 := by
  have : Int.tdiv x 32 = -(Int.tdiv (-x) 32) := by rw [Int.neg_tdiv, neg_neg]
  rw [this]
  have := Int.tdiv_nonneg (a := -x) (b := 32) (by omega) (by norm_num)
  omega

theorem clamp_row (c : CCollision) (hH : 1 ≤ c.m_Height) (y : ℤ) :
    0 ≤ clamp (Int.tdiv y 32) 0 (c.m_Height - 1) ∧
    clamp (Int.tdiv y 32) 0 (c.m_Height - 1) < c.m_Height := by
  have := @clamp_mem (Int.tdiv y 32) (c.m_Height - 1) (by omega)
  omega

theorem clamp_col_eq {W col X : ℤ} (h0 : 0 ≤ col) (h1 : col < W) (hlo : 32 * col ≤ X)
    (hhi : X ≤ 32 * col + 31) : clamp (Int.tdiv X 32) 0 (W - 1) = col := by
  rw [Int.tdiv_eq_ediv (by omega) (by norm_num)]
  have : X / 32 = col := by omega
  rw [this]
  unfold clamp
  split_ifs <;> omega

theorem clamp_col_lt {W col X : ℤ} (h0 : 0 < col) (h1 : col < W) (hX : X < 32 * col) :
    0 ≤ clamp (Int.tdiv X 32) 0 (W - 1) ∧ clamp (Int.tdiv X 32) 0 (W - 1) < col := by
  rcases lt_or_le X 0 with hneg | hpos
  · rw [clamp_nonpos (tdiv32_nonpos hneg) (by omega)]
    omega
  · rw [Int.tdiv_eq_ediv hpos (by norm_num)]
    have : X / 32 < col := by omega
    have : 0 ≤ X / 32 := by omega
    unfold clamp
    split_ifs <;> omega

theorem clamp_col_gt {W col X : ℤ} (h0 : 0 ≤ col) (h1 : col + 1 < W) (hX : 32 * col + 31 < X) :
    col < clamp (Int.tdiv X 32) 0 (W - 1) ∧ clamp (Int.tdiv X 32) 0 (W - 1) < W := by
  rw [Int.tdiv_eq_ediv (by omega) (by norm_num)]
  have : col < X / 32 := by omega
  unfold clamp
  split_ifs <;> omega

theorem TestBox_eq_or (c : CCollision) (P Size : vec2) (m : ℤ) (l : Bool) :
    TestBox c P Size m l =
      (CheckPoint c (P.x - Size.x * (1 / 2)) (P.y - Size.y * (1 / 2)) m l ||
       CheckPoint c (P.x + Size.x * (1 / 2)) (P.y - Size.y * (1 / 2)) m l ||
       CheckPoint c (P.x - Size.x * (1 / 2)) (P.y + Size.y * (1 / 2)) m l ||
       CheckPoint c (P.x + Size.x * (1 / 2)) (P.y + Size.y * (1 / 2)) m l) := by
  unfold TestBox
  simp only [vec2_smul_x, vec2_smul_y]
  cases CheckPoint c (P.x - Size.x * (1 / 2)) (P.y - Size.y * (1 / 2)) m l <;>
  cases CheckPoint c (P.x + Size.x * (1 / 2)) (P.y - Size.y * (1 / 2)) m l <;>
  cases CheckPoint c (P.x - Size.x * (1 / 2)) (P.y + Size.y * (1 / 2)) m l <;>
  cases CheckPoint c (P.x + Size.x * (1 / 2)) (P.y + Size.y * (1 / 2)) m l <;> rfl

/-- A point whose pixel lies in a solid full-height column is solid. -/
theorem CheckPoint_in_wall (k : MapConsts) (hk : k.COLFLAG_SOLID = 1) (c : CCollision)
    (hH : 1 ≤ c.m_Height) (col : ℤ) (h0 : 0 ≤ col) (h1 : col < c.m_Width)
    (hwall : SolidColumn k c col) (x y : ℚ) (l : Bool)
    (hlo : 32 * col ≤ round_to_int x) (hhi : round_to_int x ≤ 32 * col + 31) :
    CheckPoint c x y 1 l = true := by
  rw [CheckPoint_one]
  apply GetTile_testBit_of_cell
  rw [clamp_col_eq h0 h1 hlo hhi]
  obtain ⟨hr0, hr1⟩ := clamp_row c hH (round_to_int y)
  have := hwall _ hr0 hr1
  rw [hk, land_one_ne_zero_iff] at this
  exact this

/-- A point whose pixel lies in a range of free columns is not solid. -/
theorem CheckPoint_in_free (k : MapConsts) (hk : k.COLFLAG_SOLID = 1) (c : CCollision)
    (hH : 1 ≤ c.m_Height) (lo hi : ℤ) (hfree : FreeColumns k c lo hi) (hq : NoSolidQuad k c)
    (x y : ℚ) (l : Bool)
    (hlo : lo ≤ clamp (Int.tdiv (round_to_int x) 32) 0 (c.m_Width - 1))
    (hhi : clamp (Int.tdiv (round_to_int x) 32) 0 (c.m_Width - 1) < hi) :
    CheckPoint c x y 1 l = false := by
  rw [CheckPoint_one]
  apply GetTile_testBit_clear
  · intro quads hqs q hqm
    have := hq quads hqs q hqm
    rw [hk, land_one_eq_zero_iff] at this
    exact this
  · obtain ⟨hr0, hr1⟩ := clamp_row c hH (round_to_int y)
    have := hfree _ _ hlo hhi hr0 hr1
    rw [hk, land_one_eq_zero_iff] at this
    exact this

end Grid

section Walls

theorem leadEdge_one (Size : vec2) (x : ℚ) :
    leadEdge 1 Size x = round_to_int (x + Size.x * (1 / 2)) := by
  unfold leadEdge
  rw [one_mul, Int.cast_one, one_mul]

theorem leadEdge_neg_one (Size : vec2) (x : ℚ) :
    leadEdge (-1) Size x = -round_to_int (x - Size.x * (1 / 2)) := by
  unfold leadEdge
  rw [neg_one_mul, Int.cast_neg, Int.cast_one, neg_one_mul, sub_eq_add_neg]

/-- The box test of `MoveBox` in solid mode fires whenever the right edge of
the box is in the first pixel column of a solid full-height tile column. -/
theorem wall_barrier_right (k : MapConsts) (hk : k.COLFLAG_SOLID = 1) (c : CCollision)
    (hH : 1 ≤ c.m_Height) (col : ℤ) (h0 : 0 ≤ col) (h1 : col < c.m_Width)
    (hwall : SolidColumn k c col) (Size : vec2) (P : vec2)
    (h : leadEdge 1 Size P.x = 32 * col) : boxTest k c Size true P = true := by
  rw [leadEdge_one] at h
  unfold boxTest
  rw [TestBox_eq_or]
  have : CheckPoint c (P.x + Size.x * (1 / 2)) (P.y - Size.y * (1 / 2)) (boolToInt true)
      k.PhysicLayerDefault = true :=
    CheckPoint_in_wall k hk c hH col h0 h1 hwall _ _ _ (by omega) (by omega)
  rw [this]
  simp

/-- The box test of `MoveBox` in solid mode fires whenever the left edge of the
box is in the last pixel column of a solid full-height tile column. -/
theorem wall_barrier_left (k : MapConsts) (hk : k.COLFLAG_SOLID = 1) (c : CCollision)
    (hH : 1 ≤ c.m_Height) (col : ℤ) (h0 : 0 ≤ col) (h1 : col < c.m_Width)
    (hwall : SolidColumn k c col) (Size : vec2) (P : vec2)
    (h : leadEdge (-1) Size P.x = -(32 * col + 31)) : boxTest k c Size true P = true := by
  rw [leadEdge_neg_one] at h
  unfold boxTest
  rw [TestBox_eq_or]
  have : CheckPoint c (P.x - Size.x * (1 / 2)) (P.y - Size.y * (1 / 2)) (boolToInt true)
      k.PhysicLayerDefault = true :=
    CheckPoint_in_wall k hk c hH col h0 h1 hwall _ _ _ (by omega) (by omega)
  rw [this]
  simp

theorem TestBox_false_of_corners (c : CCollision) (P Size : vec2) (l : Bool)
    (h : ∀ x y : ℚ, (x = P.x - Size.x * (1 / 2) ∨ x = P.x + Size.x * (1 / 2)) →
      CheckPoint c x y 1 l = false) :
    TestBox c P Size 1 l = false := by
  rw [TestBox_eq_or, h _ _ (Or.inl rfl), h _ _ (Or.inr rfl), h _ _ (Or.inl rfl),
    h _ _ (Or.inr rfl)]
  rfl

theorem free_clear_right (k : MapConsts) (hk : k.COLFLAG_SOLID = 1) (c : CCollision)
    (hH : 1 ≤ c.m_Height) (col : ℤ) (h0 : 0 < col) (h1 : col < c.m_Width)
    (hfree : FreeColumns k c 0 col) (hq : NoSolidQuad k c) (Size : vec2) (hsz : 0 ≤ Size.x)
    (P : vec2) (h : leadEdge 1 Size P.x < 32 * col) : boxTest k c Size true P = false := by
  rw [leadEdge_one] at h
  unfold boxTest
  apply TestBox_false_of_corners
  intro x y hx
  have hle : round_to_int x ≤ round_to_int (P.x + Size.x * (1 / 2)) := by
    apply round_to_int_mono
    rcases hx with rfl | rfl <;> linarith
  obtain ⟨ha, hb⟩ := @clamp_col_lt c.m_Width col (round_to_int x) h0 h1 (by omega)
  exact CheckPoint_in_free k hk c hH 0 col hfree hq x y _ ha hb

theorem free_clear_left (k : MapConsts) (hk : k.COLFLAG_SOLID = 1) (c : CCollision)
    (hH : 1 ≤ c.m_Height) (col : ℤ) (h0 : 0 ≤ col) (h1 : col + 1 < c.m_Width)
    (hfree : FreeColumns k c (col + 1) c.m_Width) (hq : NoSolidQuad k c) (Size : vec2)
    (hsz : 0 ≤ Size.x) (P : vec2) (h : leadEdge (-1) Size P.x < -(32 * col + 31)) :
    boxTest k c Size true P = false := by
  rw [leadEdge_neg_one] at h
  unfold boxTest
  apply TestBox_false_of_corners
  intro x y hx
  have hle : round_to_int (P.x - Size.x * (1 / 2)) ≤ round_to_int x := by
    apply round_to_int_mono
    rcases hx with rfl | rfl <;> linarith
  obtain ⟨ha, hb⟩ := @clamp_col_gt c.m_Width col (round_to_int x) h0 h1 (by omega)
  exact CheckPoint_in_free k hk c hH (col + 1) c.m_Width hfree hq x y _ (by omega) hb

end Walls

theorem wallMap_wellFormed : wallMap.WellFormed := by
  unfold CCollision.WellFormed; decide

theorem wallMap_solidColumn : SolidColumn stockConsts wallMap 2 := by
  intro row h0 h1
  have h1' : row < 2 := h1
  interval_cases row <;> decide

theorem wallMap_freeColumns : FreeColumns stockConsts wallMap 0 2 := by
  intro col row h0 h1 h2 h3
  have h3' : row < 2 := h3
  interval_cases col <;> interval_cases row <;> decide

theorem wallMap_freeColumns_right : FreeColumns stockConsts wallMap (2 + 1) wallMap.m_Width := by
  intro col row h0 h1 h2 h3
  have h1' : col < 5 := h1
  have h3' : row < 2 := h3
  interval_cases col <;> interval_cases row <;> decide

theorem wallMap_noSolidQuad : NoSolidQuad stockConsts wallMap := by
  intro quads h
  exact Option.noConfusion h

/-! ## C2: no tunnelling -/

/-- C2. No tunnelling.  The map has a full-height column `col` of solid cells
(pixel columns `32 col .. 32 col + 31`), the elasticity lies in `[0, 1]`, the
velocity is arbitrary and the box does not overlap solid at the start; solid
mode is `PhysicLayer = true`, whose mask 1 is the solid flag.  If the box
starts left of the column (right edge `Pos.x + Size.x / 2 < 32 col`), then
after `MoveBox` its right edge, its position and the pixel of its position are
still left of the column.  If it starts right of the column (left edge at
`32 col + 32` or beyond), then afterwards the pixels of its left edge and of
its position are still at `32 col + 32` or beyond, and its position is beyond
the last pixel column of the wall: it is never on the far side. -/
theorem MoveBox_no_tunneling (k : MapConsts) (hk : k.COLFLAG_SOLID = 1) (c : CCollision)
    (hc : c.WellFormed) (col : ℤ) (h0 : 0 ≤ col) (h1 : col < c.m_Width)
    (hwall : SolidColumn k c col) (Pos Vel Size : vec2) (hsz : 0 ≤ Size.x) (e : ℚ)
    (he : 0 ≤ e ∧ e ≤ 1) (pDeath : Bool)
    (hfree : TestBox c Pos Size (boolToInt true) k.PhysicLayerDefault = false) :
    (Pos.x + Size.x / 2 < 32 * col →
      (MoveBox k c Pos Vel Size e pDeath true).Pos.x + Size.x / 2 < 32 * col ∧
      (MoveBox k c Pos Vel Size e pDeath true).Pos.x < 32 * col ∧
      round_to_int (MoveBox k c Pos Vel Size e pDeath true).Pos.x < 32 * col) ∧
    (32 * col + 32 ≤ Pos.x - Size.x / 2 →
      32 * col + 32 ≤ round_to_int ((MoveBox k c Pos Vel Size e pDeath true).Pos.x - Size.x / 2) ∧
      32 * col + 31 < (MoveBox k c Pos Vel Size e pDeath true).Pos.x - Size.x / 2 ∧
      32 * col + 31 < (MoveBox k c Pos Vel Size e pDeath true).Pos.x ∧
      32 * col + 32 ≤ round_to_int (MoveBox k c Pos Vel Size e pDeath true).Pos.x) := by
  have hH : 1 ≤ c.m_Height := hc.2.1
  have hhalf : Size.x / 2 = Size.x * (1 / 2) := by ring
  rw [hhalf]
  constructor
  · intro hstart
    have hs : leadEdge 1 Size Pos.x < 32 * col := by
      rw [leadEdge_one]
      have hle : round_to_int (Pos.x + Size.x * (1 / 2)) ≤ 32 * col := by
        have := round_to_int_mono hstart.le
        rw [show ((32 : ℚ) * (col : ℚ)) = ((32 * col : ℤ) : ℚ) by push_cast; ring,
          round_to_int_intCast] at this
        exact this
      rcases lt_or_eq_of_le hle with hlt | heq
      · exact hlt
      · exfalso
        have := wall_barrier_right k hk c hH col h0 h1 hwall Size Pos
          (by rw [leadEdge_one]; exact heq)
        unfold boxTest at this
        rw [this] at hfree
        exact Bool.noConfusion hfree
    have hend := MoveBox_barrier k c Size e pDeath true (Or.inl rfl) (32 * col)
      (wall_barrier_right k hk c hH col h0 h1 hwall Size) he Pos Vel hs
    rw [leadEdge_one] at hend
    have hlt := lt_of_round_to_int_lt hend
    push_cast at hlt
    have hpix : round_to_int (MoveBox k c Pos Vel Size e pDeath true).Pos.x
        ≤ round_to_int ((MoveBox k c Pos Vel Size e pDeath true).Pos.x + Size.x * (1 / 2)) :=
      round_to_int_mono (by linarith)
    exact ⟨hlt, by nlinarith, by omega⟩
  · intro hstart
    have hs : leadEdge (-1) Size Pos.x < -(32 * col + 31) := by
      rw [leadEdge_neg_one]
      have := round_to_int_mono hstart
      rw [show ((32 : ℚ) * (col : ℚ) + 32) = ((32 * col + 32 : ℤ) : ℚ) by push_cast; ring,
        round_to_int_intCast] at this
      omega
    have hend := MoveBox_barrier k c Size e pDeath true (Or.inr rfl) (-(32 * col + 31))
      (wall_barrier_left k hk c hH col h0 h1 hwall Size) he Pos Vel hs
    rw [leadEdge_neg_one] at hend
    have hgt : 32 * col + 31 < round_to_int
        ((MoveBox k c Pos Vel Size e pDeath true).Pos.x - Size.x * (1 / 2)) := by omega
    have hq := gt_of_round_to_int_gt hgt
    push_cast at hq
    have hpix : round_to_int ((MoveBox k c Pos Vel Size e pDeath true).Pos.x - Size.x * (1 / 2))
        ≤ round_to_int (MoveBox k c Pos Vel Size e pDeath true).Pos.x :=
      round_to_int_mono (by linarith)
    exact ⟨by omega, hq, by nlinarith, by omega⟩

/-- Witness of C2: a fast box started left of the wall of `wallMap`, and one
started right of it. -/
theorem MoveBox_no_tunneling_witness :
    stockConsts.COLFLAG_SOLID = 1 ∧ wallMap.WellFormed ∧ SolidColumn stockConsts wallMap 2 ∧
    TestBox wallMap ⟨20, 20⟩ ⟨8, 8⟩ (boolToInt true) stockConsts.PhysicLayerDefault = false ∧
    (MoveBox stockConsts wallMap ⟨20, 20⟩ ⟨1000, 3⟩ ⟨8, 8⟩ (1 / 2) false true).Pos.x
      < 32 * ((2 : ℤ) : ℚ) ∧
    TestBox wallMap ⟨140, 20⟩ ⟨8, 8⟩ (boolToInt true) stockConsts.PhysicLayerDefault = false ∧
    32 * ((2 : ℤ) : ℚ) + 31
      < (MoveBox stockConsts wallMap ⟨140, 20⟩ ⟨-1000, 3⟩ ⟨8, 8⟩ 1 false true).Pos.x :=
  ⟨rfl, wallMap_wellFormed, wallMap_solidColumn, by decide!,
   ((MoveBox_no_tunneling stockConsts rfl wallMap wallMap_wellFormed 2 (by decide) (by decide)
      wallMap_solidColumn ⟨20, 20⟩ ⟨1000, 3⟩ ⟨8, 8⟩ (by norm_num) (1 / 2) (by norm_num) false
      (by decide!)).1 (by norm_num)).2.1,
   by decide!,
   ((MoveBox_no_tunneling stockConsts rfl wallMap wallMap_wellFormed 2 (by decide) (by decide)
      wallMap_solidColumn ⟨140, 20⟩ ⟨-1000, 3⟩ ⟨8, 8⟩ (by norm_num) 1 (by norm_num) false
      (by decide!)).2 (by norm_num)).2.2.1⟩

/-! ## C11: `TestBox` -/

section SubSteps

variable (k : MapConsts) (c : CCollision) (Size : vec2) (e F : ℚ) (pDeath PL : Bool)

theorem MoveBoxStep_vel_y (s : MoveState) :
    (MoveBoxStep k c Size e F pDeath PL s).Vel.y = s.Vel.y ∨
    (MoveBoxStep k c Size e F pDeath PL s).Vel.y = s.Vel.y * -e := by
  unfold MoveBoxStep
  simp only []
  generalize TestBox c ⟨(s.Pos + s.Vel * F).x, (s.Pos + s.Vel * F).y⟩ Size (boolToInt PL)
      k.PhysicLayerDefault = A
  generalize TestBox c ⟨s.Pos.x, (s.Pos + s.Vel * F).y⟩ Size (boolToInt PL)
      k.PhysicLayerDefault = Y
  generalize TestBox c ⟨(s.Pos + s.Vel * F).x, s.Pos.y⟩ Size (boolToInt PL)
      k.PhysicLayerDefault = X
  cases A
  · left; rfl
  · cases X
    · cases Y
      · right; rfl
      · right; rfl
    · cases Y
      · left; rfl
      · right; rfl

theorem MoveBoxStep_death (s : MoveState) :
    (MoveBoxStep k c Size e F pDeath PL s).Death =
      ((pDeath && deathTest k c Size (tentativePos s F)) || s.Death) := by
  unfold deathTest tentativePos MoveBoxStep
  simp only []
  generalize TestBox c ⟨(s.Pos + s.Vel * F).x, (s.Pos + s.Vel * F).y⟩ Size (boolToInt PL)
      k.PhysicLayerDefault = A
  generalize TestBox c ⟨s.Pos.x, (s.Pos + s.Vel * F).y⟩ Size (boolToInt PL)
      k.PhysicLayerDefault = Y
  generalize TestBox c ⟨(s.Pos + s.Vel * F).x, s.Pos.y⟩ Size (boolToInt PL)
      k.PhysicLayerDefault = X
  generalize TestBox c ⟨(s.Pos + s.Vel * F).x, (s.Pos + s.Vel * F).y⟩ (Size * (2 / 3 : ℚ))
      k.COLFLAG_DEATH k.PhysicLayerDefault = D
  cases A <;> cases X <;> cases Y <;> cases D <;> cases pDeath <;> cases s.Death <;> rfl

/-- The position and velocity a sub-step commits depend on the map and on the
death request only through the box test. -/
theorem MoveBoxStep_congr (k' : MapConsts) (c' : CCollision) (pDeath' : Bool)
    (h : ∀ P : vec2, boxTest k c Size PL P = boxTest k' c' Size PL P) (s s' : MoveState)
    (hp : s.Pos = s'.Pos) (hv : s.Vel = s'.Vel) :
    (MoveBoxStep k c Size e F pDeath PL s).Pos = (MoveBoxStep k' c' Size e F pDeath' PL s').Pos ∧
    (MoveBoxStep k c Size e F pDeath PL s).Vel = (MoveBoxStep k' c' Size e F pDeath' PL s').Vel := by
  have hA := h ⟨(s.Pos + s.Vel * F).x, (s.Pos + s.Vel * F).y⟩
  have hY := h ⟨s.Pos.x, (s.Pos + s.Vel * F).y⟩
  have hX := h ⟨(s.Pos + s.Vel * F).x, s.Pos.y⟩
  unfold boxTest at hA hY hX
  unfold MoveBoxStep
  simp only []
  rw [← hp, ← hv, ← hA, ← hY, ← hX]
  generalize TestBox c ⟨(s.Pos + s.Vel * F).x, (s.Pos + s.Vel * F).y⟩ Size (boolToInt PL)
      k.PhysicLayerDefault = A
  generalize TestBox c ⟨s.Pos.x, (s.Pos + s.Vel * F).y⟩ Size (boolToInt PL)
      k.PhysicLayerDefault = Y
  generalize TestBox c ⟨(s.Pos + s.Vel * F).x, s.Pos.y⟩ Size (boolToInt PL)
      k.PhysicLayerDefault = X
  cases A <;> cases X <;> cases Y <;> exact ⟨rfl, rfl⟩

theorem MoveBoxStep_iterate_congr (k' : MapConsts) (c' : CCollision) (pDeath' : Bool)
    (h : ∀ P : vec2, boxTest k c Size PL P = boxTest k' c' Size PL P) (n : ℕ) (s s' : MoveState)
    (hp : s.Pos = s'.Pos) (hv : s.Vel = s'.Vel) :
    ((MoveBoxStep k c Size e F pDeath PL)^[n] s).Pos
      = ((MoveBoxStep k' c' Size e F pDeath' PL)^[n] s').Pos ∧
    ((MoveBoxStep k c Size e F pDeath PL)^[n] s).Vel
      = ((MoveBoxStep k' c' Size e F pDeath' PL)^[n] s').Vel := by
  induction n generalizing s s' with
  | zero => exact ⟨hp, hv⟩
  | succ n ih =>
    rw [Function.iterate_succ_apply, Function.iterate_succ_apply]
    obtain ⟨h1, h2⟩ := MoveBoxStep_congr k c Size e F pDeath PL k' c' pDeath' h s s' hp hv
    exact ih _ _ h1 h2

theorem MoveBoxStep_iterate_death (n : ℕ) (s : MoveState) :
    ((MoveBoxStep k c Size e F pDeath PL)^[n] s).Death = true ↔
      s.Death = true ∨ (pDeath = true ∧ ∃ i, i < n ∧
        deathTest k c Size (tentativePos ((MoveBoxStep k c Size e F pDeath PL)^[i] s) F) = true) := by
  induction n with
  | zero => simp
  | succ n ih =>
    rw [Function.iterate_succ_apply', MoveBoxStep_death, Bool.or_eq_true, Bool.and_eq_true, ih]
    constructor
    · rintro (⟨hp, hd⟩ | hs | ⟨hp, i, hi, hd⟩)
      · exact Or.inr ⟨hp, n, Nat.lt_succ_self n, hd⟩
      · exact Or.inl hs
      · exact Or.inr ⟨hp, i, Nat.lt_succ_of_lt hi, hd⟩
    · rintro (hs | ⟨hp, i, hi, hd⟩)
      · exact Or.inr (Or.inl hs)
      · rcases Nat.lt_succ_iff_lt_or_eq.mp hi with hlt | heq
        · exact Or.inr (Or.inr ⟨hp, i, hlt, hd⟩)
        · subst heq
          exact Or.inl ⟨hp, hd⟩

theorem MoveBoxStep_dot_le (he : 0 ≤ e ∧ e ≤ 1) (s : MoveState) :
    dot (MoveBoxStep k c Size e F pDeath PL s).Vel (MoveBoxStep k c Size e F pDeath PL s).Vel
      ≤ dot s.Vel s.Vel := by
  have hsq : ∀ a : ℚ, (a * -e) * (a * -e) ≤ a * a := by
    intro a
    have h1 : e * e ≤ 1 := by nlinarith [he.1, he.2]
    have h2 : 0 ≤ a * a := mul_self_nonneg a
    nlinarith
  unfold dot
  rcases MoveBoxStep_vel_x k c Size e F pDeath PL s with hx | hx <;>
  rcases MoveBoxStep_vel_y k c Size e F pDeath PL s with hy | hy <;>
  rw [hx, hy] <;> nlinarith [hsq s.Vel.x, hsq s.Vel.y]

theorem MoveBoxStep_iterate_dot_le (he : 0 ≤ e ∧ e ≤ 1) (n : ℕ) (s : MoveState) :
    dot ((MoveBoxStep k c Size e F pDeath PL)^[n] s).Vel
        ((MoveBoxStep k c Size e F pDeath PL)^[n] s).Vel ≤ dot s.Vel s.Vel := by
  induction n with
  | zero => exact le_refl _
  | succ n ih =>
    rw [Function.iterate_succ_apply']
    exact le_trans (MoveBoxStep_dot_le k c Size e F pDeath PL he _) ih

end SubSteps

theorem dot_lt_floorLength_succ_sq (v : vec2) :
    dot v v < ((floorLength v : ℚ) + 1) * ((floorLength v : ℚ) + 1) := by
  have h2 : ⌊dot v v⌋₊ < (floorLength v + 1) * (floorLength v + 1) :=
    floorSqrt_lt_succ_sq ⌊dot v v⌋₊
  have hfl2 : dot v v < ((⌊dot v v⌋₊ : ℕ) : ℚ) + 1 := Nat.lt_floor_add_one _
  generalize floorLength v = m at h2 ⊢
  generalize ⌊dot v v⌋₊ = d at h2 hfl2
  have : ((d : ℕ) : ℚ) + 1 ≤ (((m + 1) * (m + 1) : ℕ) : ℚ) := by exact_mod_cast h2
  push_cast at this
  linarith

theorem MoveBox_eq_subStepState (k : MapConsts) (c : CCollision) (Pos Vel Size : vec2) (e : ℚ)
    (pDeath PL : Bool) :
    MoveBox k c Pos Vel Size e pDeath PL =
      if lengthExceeds Vel (1 / 100000) then
        subStepState k c Pos Vel Size e pDeath PL (floorLength Vel + 1)
      else ⟨Pos, Vel, false⟩ := rfl

/-! ## C18: the death test -/

theorem boxTest_congr (k k' : MapConsts) (c c' : CCollision) (Size : vec2) (PL : Bool)
    (h : ∀ x y : ℤ, IsTile c x y (boolToInt PL) k.PhysicLayerDefault
      = IsTile c' x y (boolToInt PL) k'.PhysicLayerDefault) (P : vec2) :
    boxTest k c Size PL P = boxTest k' c' Size PL P := by
  unfold boxTest
  rw [TestBox_eq_or, TestBox_eq_or]
  unfold CheckPoint
  rw [h, h, h, h]

theorem deathTest_iff_corner (k : MapConsts) (c : CCollision) (Size P : vec2) :
    deathTest k c Size P = true ↔
      (CheckPoint c (P.x - Size.x / 3) (P.y - Size.y / 3) k.COLFLAG_DEATH k.PhysicLayerDefault
          = true ∨
       CheckPoint c (P.x + Size.x / 3) (P.y - Size.y / 3) k.COLFLAG_DEATH k.PhysicLayerDefault
          = true ∨
       CheckPoint c (P.x - Size.x / 3) (P.y + Size.y / 3) k.COLFLAG_DEATH k.PhysicLayerDefault
          = true ∨
       CheckPoint c (P.x + Size.x / 3) (P.y + Size.y / 3) k.COLFLAG_DEATH k.PhysicLayerDefault
          = true) := by
  have hx : Size.x / 3 = (Size * (2 / 3 : ℚ)).x * (1 / 2) := by rw [vec2_smul_x]; ring
  have hy : Size.y / 3 = (Size * (2 / 3 : ℚ)).y * (1 / 2) := by rw [vec2_smul_y]; ring
  unfold deathTest
  rw [TestBox_eq_or, hx, hy]
  simp only [Bool.or_eq_true, or_assoc]

theorem GetTile_of_no_quads (c : CCollision) (h : c.m_pPhysicalQuads = none) (x y : ℤ)
    (l : Bool) :
    GetTile c x y l =
      if tileIndexAt c (cellIndex c x y) > 128 then 0 else tileIndexAt c (cellIndex c x y) := by
  unfold GetTile
  rw [h]
  cases l <;> rfl

theorem wallMap_deathWallMap_IsTile (PL : Bool) (x y : ℤ) :
    IsTile wallMap x y (boolToInt PL) true = IsTile deathWallMap x y (boolToInt PL) true := by
  obtain ⟨h0, h1⟩ := cellIndex_bounds wallMap wallMap_wellFormed x y
  have hci : cellIndex deathWallMap x y = cellIndex wallMap x y := rfl
  have h2 : cellIndex wallMap x y < 10 := by
    have : wallMap.m_pTiles.length = 10 := rfl
    omega
  unfold IsTile
  rw [GetTile_of_no_quads wallMap rfl, GetTile_of_no_quads deathWallMap rfl, hci]
  generalize cellIndex wallMap x y = j at h0 h2
  interval_cases j <;> cases PL <;> decide!

theorem Int_zero_lor (f : ℤ) : Int.lor 0 f = f := by
  cases f with
  | ofNat n =>
    show ((0 ||| n : ℕ) : ℤ) = (n : ℤ)
    rw [Nat.zero_or]
  | negSucc n =>
    show Int.negSucc (Nat.ldiff n 0) = Int.negSucc n
    congr 1
    apply Nat.eq_of_testBit_eq
    intro i
    rw [Nat.testBit_ldiff]
    simp

theorem tileIndexAt_quadMap (f : ℤ) (i : ℤ) : tileIndexAt (quadMap f) i = 0 := by
  unfold tileIndexAt
  split_ifs with h
  · have : (quadMap f).m_pTiles = List.replicate 4 ⟨0, 0, 0, 0⟩ := rfl
    rw [this]
    simp only [List.getD_eq_getElem?_getD, List.getElem?_replicate]
    split_ifs <;> rfl
  · rfl

theorem GetTile_single_quad (c : CCollision) (q : CQuad) (h : c.m_pPhysicalQuads = some [q])
    (x y : ℤ) :
    GetTile c x y true =
      if quadContains q x y then
        Int.lor (if tileIndexAt c (cellIndex c x y) > 128 then 0
          else tileIndexAt c (cellIndex c x y)) q.m_ColorEnvOffset
      else (if tileIndexAt c (cellIndex c x y) > 128 then 0 else tileIndexAt c (cellIndex c x y)) := by
  unfold GetTile
  rw [h]
  rfl

theorem GetTile_quadMap (f : ℤ) (x y : ℤ) :
    GetTile (quadMap f) x y true = if quadContains (squareQuad f) x y then Int.lor 0 f else 0 := by
  have h := GetTile_single_quad (quadMap f) (squareQuad f) rfl x y
  rw [tileIndexAt_quadMap] at h
  exact h

theorem quadContains_squareQuad_5_5 (f : ℤ) : quadContains (squareQuad f) 5 5 = true := by
  have h : quadContains (squareQuad f) 5 5 = quadContains (squareQuad 0) 5 5 := rfl
  rw [h]; decide!

theorem quadContains_squareQuad_15_15 (f : ℤ) : quadContains (squareQuad f) 15 15 = false := by
  have h : quadContains (squareQuad f) 15 15 = quadContains (squareQuad 0) 15 15 := rfl
  rw [h]; decide!

/-- C19. Scenario: all tiles empty and the single physical quad (0,0), (10,0),
(10,10), (0,10) flagged DEATH.  `Init` turns the quad value `TILE_DEATH` into
`COLFLAG_DEATH`; the flags at (5,5) are DEATH and the flags at (15,15) are 0.
The same holds for any flag value `f` stored in the quad. -/
theorem GetTile_quad_scenario :
    (quadMap stockConsts.COLFLAG_DEATH).m_pTiles = List.replicate 4 ⟨0, 0, 0, 0⟩ ∧
    Init stockConsts (quadMap stockConsts.TILE_DEATH) = quadMap stockConsts.COLFLAG_DEATH ∧
    GetTile (Init stockConsts (quadMap stockConsts.TILE_DEATH)) 5 5 true
      = stockConsts.COLFLAG_DEATH ∧
    GetTile (Init stockConsts (quadMap stockConsts.TILE_DEATH)) 15 15 true = 0 ∧
    (∀ f : ℤ, GetTile (quadMap f) 5 5 true = f ∧ GetTile (quadMap f) 15 15 true = 0) := by
  refine ⟨rfl, by decide!, by decide!, by decide!, ?_⟩
  intro f
  rw [GetTile_quadMap, GetTile_quadMap, quadContains_squareQuad_5_5,
    quadContains_squareQuad_15_15]
  exact ⟨Int_zero_lor f, rfl⟩

/-! ## The shared diagonal in exact arithmetic -/

theorem BarycentricCoordinates_combination (t0 t1 t2 : vec2) (u v : ℚ)
    (harea : cross t0 t1 t2 ≠ 0) :
    BarycentricCoordinates t0 t1 t2 (t0 + (t1 - t0) * u + (t2 - t0) * v) =
      ⟨FloatVal.finite u, FloatVal.finite v, FloatVal.finite (1 - u - v)⟩ := by
  have hden : dot (t1 - t0) (t1 - t0) * dot (t2 - t0) (t2 - t0)
      - dot (t1 - t0) (t2 - t0) * dot (t1 - t0) (t2 - t0) ≠ 0 := by
    rw [bary_denom_eq]; exact mul_ne_zero harea harea
  have hu : (dot (t2 - t0) (t2 - t0) * dot (t0 + (t1 - t0) * u + (t2 - t0) * v - t0) (t1 - t0)
      - dot (t1 - t0) (t2 - t0) * dot (t0 + (t1 - t0) * u + (t2 - t0) * v - t0) (t2 - t0)) /
      (dot (t1 - t0) (t1 - t0) * dot (t2 - t0) (t2 - t0)
        - dot (t1 - t0) (t2 - t0) * dot (t1 - t0) (t2 - t0)) = u := by
    rw [div_eq_iff hden]
    simp only [dot, vec2_sub_x, vec2_sub_y, vec2_add_x, vec2_add_y, vec2_smul_x, vec2_smul_y]
    ring
  have hv : (dot (t1 - t0) (t1 - t0) * dot (t0 + (t1 - t0) * u + (t2 - t0) * v - t0) (t2 - t0)
      - dot (t1 - t0) (t2 - t0) * dot (t0 + (t1 - t0) * u + (t2 - t0) * v - t0) (t1 - t0)) /
      (dot (t1 - t0) (t1 - t0) * dot (t2 - t0) (t2 - t0)
        - dot (t1 - t0) (t2 - t0) * dot (t1 - t0) (t2 - t0)) = v := by
    rw [div_eq_iff hden]
    simp only [dot, vec2_sub_x, vec2_sub_y, vec2_add_x, vec2_add_y, vec2_smul_x, vec2_smul_y]
    ring
  unfold BarycentricCoordinates
  simp only []
  rw [FloatVal.div_of_ne _ hden, FloatVal.div_of_ne _ hden, hu, hv]
  simp only [FloatVal.sub, FloatVal.neg, FloatVal.add, sub_eq_add_neg]

theorem InsideTriangle_combination (t0 t1 t2 : vec2) (u v : ℚ) (harea : cross t0 t1 t2 ≠ 0) :
    InsideTriangle t0 t1 t2 (t0 + (t1 - t0) * u + (t2 - t0) * v) = true ↔
      0 ≤ u ∧ 0 ≤ v ∧ u + v < 1 := by
  simp only [InsideTriangle, BarycentricCoordinates_combination t0 t1 t2 u v harea, FloatVal.ge,
    FloatVal.add, FloatVal.lt, Bool.and_eq_true, decide_eq_true_eq, and_assoc]

theorem SameSide_on_line (q0 q1 q2 : vec2) (v : ℚ) :
    SameSide q1 q2 (q1 + (q2 - q1) * v) q0 = decide (0 ≤ cross q0 q1 q2) := by
  have h1 : (q2 - q1).x * ((q1 + (q2 - q1) * v) - q1).y
      - (q2 - q1).y * ((q1 + (q2 - q1) * v) - q1).x = 0 := by
    simp only [vec2_sub_x, vec2_sub_y, vec2_add_x, vec2_add_y, vec2_smul_x, vec2_smul_y]
    ring
  have h2 : (q2 - q1).x * (q0 - q1).y - (q2 - q1).y * (q0 - q1).x = cross q0 q1 q2 := by
    simp only [cross, vec2_sub_x, vec2_sub_y]
    ring
  unfold SameSide
  simp only []
  rw [h1, h2]
  unfold sign
  by_cases hc : cross q0 q1 q2 < 0
  · rw [if_neg (lt_irrefl 0), if_pos hc]
    have : ¬ (0 ≤ cross q0 q1 q2) := not_le.mpr hc
    simp only [this, decide_False]
    decide
  · rw [if_neg (lt_irrefl 0), if_neg hc]
    have : 0 ≤ cross q0 q1 q2 := not_lt.mp hc
    simp only [this, decide_True]

theorem diag_point_eq (q0 q1 q2 : vec2) (u v : ℚ) (huv : u + v = 1) :
    q0 + (q1 - q0) * u + (q2 - q0) * v = q1 + (q2 - q1) * v := by
  have hu : u = 1 - v := by linarith
  subst hu
  rw [vec2_eq_iff]
  simp only [vec2_sub_x, vec2_sub_y, vec2_add_x, vec2_add_y, vec2_smul_x, vec2_smul_y]
  constructor <;> ring

theorem diag_point_eq_second (q1 q2 q3 : vec2) (v : ℚ) :
    q1 + (q2 - q1) * v = q1 + (q2 - q1) * v + (q3 - q1) * (0 : ℚ) := by
  rw [vec2_eq_iff]
  simp only [vec2_sub_x, vec2_sub_y, vec2_add_x, vec2_add_y, vec2_smul_x, vec2_smul_y]
  constructor <;> ring

/-- In exact arithmetic: a point with `u + v = 1` in the triangle
(q0, q1, q2) is the point `q1 + v (q2 - q1)` of the diagonal; when
`cross q0 q1 q2 > 0` it is tested against the first triangle and is outside,
when `cross q0 q1 q2 < 0` it is tested against the triangle (q1, q2, q3) and
is inside exactly when `0 ≤ v < 1`. -/
theorem diagonal_law_exact (q0 q1 q2 q3 : vec2) (u v : ℚ)
    (h012 : cross q0 q1 q2 ≠ 0) (h123 : cross q1 q2 q3 ≠ 0) (huv : u + v = 1) :
    BarycentricCoordinates q0 q1 q2 (q0 + (q1 - q0) * u + (q2 - q0) * v)
      = ⟨FloatVal.finite u, FloatVal.finite v, FloatVal.finite (1 - u - v)⟩ ∧
    q0 + (q1 - q0) * u + (q2 - q0) * v = q1 + (q2 - q1) * v ∧
    (0 < cross q0 q1 q2 →
      InsideQuad q0 q1 q2 q3 (q0 + (q1 - q0) * u + (q2 - q0) * v) = false) ∧
    (cross q0 q1 q2 < 0 →
      (InsideQuad q0 q1 q2 q3 (q0 + (q1 - q0) * u + (q2 - q0) * v) = true ↔ 0 ≤ v ∧ v < 1)) := by
  refine ⟨BarycentricCoordinates_combination q0 q1 q2 u v h012, diag_point_eq q0 q1 q2 u v huv,
    ?_, ?_⟩
  · intro hpos
    unfold InsideQuad
    have hs : SameSide q1 q2 (q0 + (q1 - q0) * u + (q2 - q0) * v) q0 = true := by
      rw [diag_point_eq q0 q1 q2 u v huv, SameSide_on_line, decide_eq_true_eq]
      exact hpos.le
    rw [if_pos hs]
    cases hin : InsideTriangle q0 q1 q2 (q0 + (q1 - q0) * u + (q2 - q0) * v)
    · rfl
    · rw [InsideTriangle_combination q0 q1 q2 u v h012] at hin
      linarith [hin.2.2]
  · intro hneg
    unfold InsideQuad
    have hs : ¬ SameSide q1 q2 (q0 + (q1 - q0) * u + (q2 - q0) * v) q0 = true := by
      rw [diag_point_eq q0 q1 q2 u v huv, SameSide_on_line, decide_eq_true_eq]
      exact not_le.mpr hneg
    rw [if_neg hs, diag_point_eq q0 q1 q2 u v huv, diag_point_eq_second q1 q2 q3 v,
      InsideTriangle_combination q1 q2 q3 v 0 h123]
    constructor
    · rintro ⟨h1, _, h3⟩
      exact ⟨h1, by linarith⟩
    · rintro ⟨h1, h2⟩
      exact ⟨h1, le_refl 0, by linarith⟩

/-! ## The centroid in exact arithmetic -/

theorem centroid_eq_first (q0 q1 q2 : vec2) (a b : ℚ) :
    centroid q0 q1 q2 (q0 + (q1 - q0) * a + (q2 - q0) * b)
      = q0 + (q1 - q0) * ((1 + a) / 4) + (q2 - q0) * ((1 + b) / 4) := by
  unfold centroid
  rw [vec2_eq_iff]
  simp only [vec2_sub_x, vec2_sub_y, vec2_add_x, vec2_add_y, vec2_smul_x, vec2_smul_y]
  constructor <;> ring

theorem centroid_eq_second (q0 q1 q2 : vec2) (a b : ℚ) (hab : a + b - 1 ≠ 0) :
    centroid q0 q1 q2 (q0 + (q1 - q0) * a + (q2 - q0) * b)
      = q1 + (q2 - q1) * ((a + 2 * b - 1) / (4 * (a + b - 1)))
          + ((q0 + (q1 - q0) * a + (q2 - q0) * b) - q1) * ((a + b - 2) / (4 * (a + b - 1))) := by
  unfold centroid
  rw [vec2_eq_iff]
  simp only [vec2_sub_x, vec2_sub_y, vec2_add_x, vec2_add_y, vec2_smul_x, vec2_smul_y]
  constructor <;> field_simp <;> ring

theorem SameSide_combination (q0 q1 q2 : vec2) (s t : ℚ) :
    SameSide q1 q2 (q0 + (q1 - q0) * s + (q2 - q0) * t) q0
      = decide (sign (cross q0 q1 q2 * (1 - s - t)) = sign (cross q0 q1 q2)) := by
  have h1 : (q2 - q1).x * ((q0 + (q1 - q0) * s + (q2 - q0) * t) - q1).y
      - (q2 - q1).y * ((q0 + (q1 - q0) * s + (q2 - q0) * t) - q1).x
      = cross q0 q1 q2 * (1 - s - t) := by
    simp only [cross, vec2_sub_x, vec2_sub_y, vec2_add_x, vec2_add_y, vec2_smul_x, vec2_smul_y]
    ring
  have h2 : (q2 - q1).x * (q0 - q1).y - (q2 - q1).y * (q0 - q1).x = cross q0 q1 q2 := by
    simp only [cross, vec2_sub_x, vec2_sub_y]
    ring
  unfold SameSide
  simp only []
  rw [h1, h2]

theorem cross_second (q0 q1 q2 : vec2) (a b : ℚ) :
    cross q1 q2 (q0 + (q1 - q0) * a + (q2 - q0) * b) = cross q0 q1 q2 * (1 - a - b) := by
  simp only [cross, vec2_sub_x, vec2_sub_y, vec2_add_x, vec2_add_y, vec2_smul_x, vec2_smul_y]
  ring

theorem sign_eq_iff (x y : ℚ) : sign x = sign y ↔ (x < 0 ↔ y < 0) := by
  unfold sign
  by_cases hx : x < 0 <;> by_cases hy : y < 0 <;> simp [hx, hy] <;> norm_num

/-- In exact arithmetic: for `q3 = q0 + a (q1 - q0) + b (q2 - q0)` with
`a, b > 0` and `a + b > 1` over a triangle (q0, q1, q2) of non-zero area, the
centroid is classified as outside exactly when `a + b = 2` and
`cross q0 q1 q2 > 0`. -/
theorem centroid_law_exact (q0 q1 q2 : vec2) (a b : ℚ) (harea : cross q0 q1 q2 ≠ 0)
    (ha : 0 < a) (hb : 0 < b) (hab : 1 < a + b) :
    InsideQuad q0 q1 q2 (q0 + (q1 - q0) * a + (q2 - q0) * b)
        (centroid q0 q1 q2 (q0 + (q1 - q0) * a + (q2 - q0) * b)) = false ↔
      (a + b = 2 ∧ 0 < cross q0 q1 q2) := by
  have h123 : cross q1 q2 (q0 + (q1 - q0) * a + (q2 - q0) * b) ≠ 0 := by
    rw [cross_second]
    exact mul_ne_zero harea (by linarith)
  have hd : a + b - 1 ≠ 0 := by linarith
  have hdpos : 0 < 4 * (a + b - 1) := by linarith
  have hss : SameSide q1 q2 (centroid q0 q1 q2 (q0 + (q1 - q0) * a + (q2 - q0) * b)) q0 = true ↔
      (cross q0 q1 q2 * (1 - (1 + a) / 4 - (1 + b) / 4) < 0 ↔ cross q0 q1 q2 < 0) := by
    rw [centroid_eq_first, SameSide_combination, decide_eq_true_eq, sign_eq_iff]
  have hT1 : InsideTriangle q0 q1 q2 (centroid q0 q1 q2 (q0 + (q1 - q0) * a + (q2 - q0) * b))
      = true ↔ a + b < 2 := by
    rw [centroid_eq_first, InsideTriangle_combination q0 q1 q2 _ _ harea]
    constructor
    · rintro ⟨_, _, h⟩; linarith
    · intro h; exact ⟨by linarith, by linarith, by linarith⟩
  have hT2 : InsideTriangle q1 q2 (q0 + (q1 - q0) * a + (q2 - q0) * b)
      (centroid q0 q1 q2 (q0 + (q1 - q0) * a + (q2 - q0) * b)) = true ↔ 2 ≤ a + b := by
    rw [centroid_eq_second q0 q1 q2 a b hd, InsideTriangle_combination q1 q2 _ _ _ h123]
    constructor
    · rintro ⟨_, h, _⟩
      rw [le_div_iff₀ hdpos] at h
      linarith
    · intro h
      refine ⟨?_, ?_, ?_⟩
      · rw [le_div_iff₀ hdpos]; linarith
      · rw [le_div_iff₀ hdpos]; linarith
      · rw [← add_div, div_lt_one hdpos]; linarith
  unfold InsideQuad
  rcases lt_trichotomy (a + b) 2 with hlt | heq | hgt
  · have hs : SameSide q1 q2 (centroid q0 q1 q2 (q0 + (q1 - q0) * a + (q2 - q0) * b)) q0
        = true := by
      rw [hss]
      have hpos : 0 < 1 - (1 + a) / 4 - (1 + b) / 4 := by linarith
      rw [mul_neg_iff]
      constructor
      · rintro (⟨_, h⟩ | ⟨h, _⟩)
        · linarith
        · exact h
      · intro h; exact Or.inr ⟨h, hpos⟩
    rw [if_pos hs, hT1.mpr hlt]
    constructor
    · intro h; exact absurd h (by decide)
    · rintro ⟨h, _⟩; linarith
  · have hz : 1 - (1 + a) / 4 - (1 + b) / 4 = 0 := by linarith
    rcases lt_or_gt_of_ne harea with hneg | hpos
    · have hs : ¬ SameSide q1 q2 (centroid q0 q1 q2 (q0 + (q1 - q0) * a + (q2 - q0) * b)) q0
          = true := by
        rw [hss, hz, mul_zero]
        intro h
        exact lt_irrefl 0 (h.mpr hneg)
      rw [if_neg hs, hT2.mpr heq.ge]
      constructor
      · intro h; exact absurd h (by decide)
      · rintro ⟨_, h⟩; linarith
    · have hs : SameSide q1 q2 (centroid q0 q1 q2 (q0 + (q1 - q0) * a + (q2 - q0) * b)) q0
          = true := by
        rw [hss, hz, mul_zero]
        constructor
        · intro h; exact absurd h (lt_irrefl 0)
        · intro h; linarith
      rw [if_pos hs]
      constructor
      · intro _; exact ⟨heq, hpos⟩
      · intro _
        cases hin : InsideTriangle q0 q1 q2
            (centroid q0 q1 q2 (q0 + (q1 - q0) * a + (q2 - q0) * b))
        · rfl
        · rw [hT1] at hin; linarith
  · have hs : ¬ SameSide q1 q2 (centroid q0 q1 q2 (q0 + (q1 - q0) * a + (q2 - q0) * b)) q0
        = true := by
      rw [hss]
      have hneg : 1 - (1 + a) / 4 - (1 + b) / 4 < 0 := by linarith
      intro h
      rcases lt_or_gt_of_ne harea with hK | hK
      · have := h.mpr hK
        nlinarith
      · have : cross q0 q1 q2 * (1 - (1 + a) / 4 - (1 + b) / 4) < 0 := by nlinarith
        linarith [h.mp this]
    rw [if_neg hs, hT2.mpr hgt.le]
    constructor
    · intro h; exact absurd h (by decide)
    · rintro ⟨h, _⟩; linarith

/-! ## Degenerate triangles in exact arithmetic -/

theorem FloatVal.div_zero_not_inside (a b : ℚ) :
    ((FloatVal.div a 0).ge 0 && (FloatVal.div b 0).ge 0 &&
      (FloatVal.add (FloatVal.div a 0) (FloatVal.div b 0)).lt 1) = false := by
  unfold FloatVal.div
  rw [if_pos rfl, if_pos rfl]
  split_ifs <;> rfl

theorem InsideTriangle_of_denom_zero (t0 t1 t2 p : vec2) (h : baryDenom t0 t1 t2 = 0) :
    InsideTriangle t0 t1 t2 p = false := by
  unfold baryDenom at h
  unfold InsideTriangle BarycentricCoordinates
  simp only []
  rw [h]
  exact FloatVal.div_zero_not_inside _ _

theorem GetTile_of_quads_miss (c : CCollision) (quads : List CQuad) (x y : ℤ)
    (hq : c.m_pPhysicalQuads = some quads) (h : ∀ q ∈ quads, quadContains q x y = false) :
    GetTile c x y true = GetTile c x y false := by
  have hfold : ∀ (l : List CQuad) (I : ℤ), (∀ q ∈ l, quadContains q x y = false) →
      l.foldl (fun Index q => if quadContains q x y then Int.lor Index q.m_ColorEnvOffset
        else Index) I = I := by
    intro l
    induction l with
    | nil => intro I _; rfl
    | cons q qs ih =>
      intro I hl
      rw [List.foldl_cons, hl q (List.mem_cons_self _ _)]
      exact ih I fun q' hq' => hl q' (List.mem_cons_of_mem _ hq')
  unfold GetTile
  rw [hq]
  exact hfold quads _ h

/-! ## C23, C24: runs of the reconciler -/

section Run

variable {Core Ser : Type} [DecidableEq Ser] (Write : Core → Ser)
  (advanceDummy advanceCore : Core → Core) (TickSpeed T0 : ℤ) (s : Reckoning Core)

theorem tickRun_succ (n : ℕ) :
    tickRun Write advanceDummy advanceCore TickSpeed T0 s (n + 1) =
      TickDefered Write advanceDummy advanceCore TickSpeed (T0 + ((n + 1 : ℕ) : ℤ))
        (tickRun Write advanceDummy advanceCore TickSpeed T0 s n) := rfl

theorem tickRun_of_replaced (n : ℕ)
    (h : replacedAt Write advanceDummy advanceCore TickSpeed T0 s n = true) :
    (tickRun Write advanceDummy advanceCore TickSpeed T0 s (n + 1)).m_ReckoningTick
      = T0 + ((n + 1 : ℕ) : ℤ) ∧
    (tickRun Write advanceDummy advanceCore TickSpeed T0 s (n + 1)).m_SendCore
      = advanceCore (tickRun Write advanceDummy advanceCore TickSpeed T0 s n).m_Core ∧
    (tickRun Write advanceDummy advanceCore TickSpeed T0 s (n + 1)).m_ReckoningCore
      = (tickRun Write advanceDummy advanceCore TickSpeed T0 s (n + 1)).m_Core := by
  unfold replacedAt at h
  rw [decide_eq_true_eq] at h
  rw [tickRun_succ]
  unfold TickDefered updateSendCore
  simp only []
  rw [if_pos h]
  exact ⟨rfl, rfl, rfl⟩

theorem tickRun_of_not_replaced (n : ℕ)
    (h : replacedAt Write advanceDummy advanceCore TickSpeed T0 s n = false) :
    (tickRun Write advanceDummy advanceCore TickSpeed T0 s (n + 1)).m_ReckoningTick
      = (tickRun Write advanceDummy advanceCore TickSpeed T0 s n).m_ReckoningTick ∧
    (tickRun Write advanceDummy advanceCore TickSpeed T0 s (n + 1)).m_SendCore
      = (tickRun Write advanceDummy advanceCore TickSpeed T0 s n).m_SendCore := by
  unfold replacedAt at h
  rw [decide_eq_false_iff_not] at h
  rw [tickRun_succ]
  unfold TickDefered updateSendCore
  simp only []
  rw [if_neg h]
  exact ⟨rfl, rfl⟩

theorem replacedAt_of_agree (n : ℕ)
    (h : agreeAt Write advanceDummy advanceCore TickSpeed T0 s n = true) :
    replacedAt Write advanceDummy advanceCore TickSpeed T0 s n = true ↔
      (tickRun Write advanceDummy advanceCore TickSpeed T0 s n).m_ReckoningTick + 3 * TickSpeed
        < T0 + (n : ℤ) + 1 := by
  unfold agreeAt at h
  rw [decide_eq_true_eq] at h
  unfold replacedAt
  rw [decide_eq_true_eq]
  have hc : TickSpeed * 3 = 3 * TickSpeed := mul_comm _ _
  rw [hc]
  push_cast
  constructor
  · rintro (h1 | h1)
    · linarith
    · exact absurd h h1
  · intro h1
    exact Or.inl (by linarith)

theorem tickRun_reckoningTick_le (hs : s.m_ReckoningTick ≤ T0) (n : ℕ) :
    (tickRun Write advanceDummy advanceCore TickSpeed T0 s n).m_ReckoningTick ≤ T0 + (n : ℤ) := by
  induction n with
  | zero => simpa using hs
  | succ n ih =>
    cases h : replacedAt Write advanceDummy advanceCore TickSpeed T0 s n
    · rw [(tickRun_of_not_replaced Write advanceDummy advanceCore TickSpeed T0 s n h).1]
      push_cast; linarith
    · rw [(tickRun_of_replaced Write advanceDummy advanceCore TickSpeed T0 s n h).1]

/-- After a baseline of tick `T0`, while the serialisations agree, the next
`3 * TickSpeed` calls keep the baseline and the call after them replaces it. -/
theorem quiet_window (TS : ℕ) (hTS : TickSpeed = (TS : ℤ)) (hs : s.m_ReckoningTick = T0)
    (hag : ∀ n, n ≤ 3 * TS → agreeAt Write advanceDummy advanceCore TickSpeed T0 s n = true) :
    (∀ n, n ≤ 3 * TS →
      (tickRun Write advanceDummy advanceCore TickSpeed T0 s n).m_ReckoningTick = T0 ∧
      (tickRun Write advanceDummy advanceCore TickSpeed T0 s n).m_SendCore = s.m_SendCore) ∧
    (∀ n, n < 3 * TS → replacedAt Write advanceDummy advanceCore TickSpeed T0 s n = false) ∧
    replacedAt Write advanceDummy advanceCore TickSpeed T0 s (3 * TS) = true := by
  have hkeep : ∀ n, n ≤ 3 * TS →
      (tickRun Write advanceDummy advanceCore TickSpeed T0 s n).m_ReckoningTick = T0 ∧
      (tickRun Write advanceDummy advanceCore TickSpeed T0 s n).m_SendCore = s.m_SendCore := by
    intro n
    induction n with
    | zero => intro _; exact ⟨hs, rfl⟩
    | succ n ih =>
      intro hn
      obtain ⟨h1, h2⟩ := ih (by omega)
      have hnot : replacedAt Write advanceDummy advanceCore TickSpeed T0 s n = false := by
        cases hr : replacedAt Write advanceDummy advanceCore TickSpeed T0 s n
        · rfl
        · rw [replacedAt_of_agree Write advanceDummy advanceCore TickSpeed T0 s n
            (hag n (by omega)), h1, hTS] at hr
          have : (n : ℤ) + 1 ≤ 3 * (TS : ℤ) := by exact_mod_cast hn
          linarith
      obtain ⟨h3, h4⟩ := tickRun_of_not_replaced Write advanceDummy advanceCore TickSpeed T0 s n hnot
      exact ⟨h3.trans h1, h4.trans h2⟩
  refine ⟨hkeep, ?_, ?_⟩
  · intro n hn
    cases hr : replacedAt Write advanceDummy advanceCore TickSpeed T0 s n
    · rfl
    · rw [replacedAt_of_agree Write advanceDummy advanceCore TickSpeed T0 s n
        (hag n (by omega)), (hkeep n (by omega)).1, hTS] at hr
      have : (n : ℤ) < 3 * (TS : ℤ) := by exact_mod_cast hn
      linarith
  · rw [replacedAt_of_agree Write advanceDummy advanceCore TickSpeed T0 s (3 * TS)
      (hag _ (le_refl _)), (hkeep _ (le_refl _)).1, hTS]
    push_cast
    linarith

theorem tickRun_add (m n : ℕ) :
    tickRun Write advanceDummy advanceCore TickSpeed T0 s (m + n) =
      tickRun Write advanceDummy advanceCore TickSpeed (T0 + (m : ℤ))
        (tickRun Write advanceDummy advanceCore TickSpeed T0 s m) n := by
  induction n with
  | zero => rfl
  | succ n ih =>
    rw [← Nat.add_assoc, tickRun_succ, tickRun_succ, ih]
    congr 1
    push_cast
    ring

theorem agreeAt_add (m n : ℕ) :
    agreeAt Write advanceDummy advanceCore TickSpeed T0 s (m + n) =
      agreeAt Write advanceDummy advanceCore TickSpeed (T0 + (m : ℤ))
        (tickRun Write advanceDummy advanceCore TickSpeed T0 s m) n := by
  unfold agreeAt
  rw [tickRun_add]

theorem replacedAt_add (m n : ℕ) :
    replacedAt Write advanceDummy advanceCore TickSpeed T0 s (m + n) =
      replacedAt Write advanceDummy advanceCore TickSpeed (T0 + (m : ℤ))
        (tickRun Write advanceDummy advanceCore TickSpeed T0 s m) n := by
  unfold replacedAt
  rw [tickRun_add]
  congr 2
  push_cast
  ring_nf

/-- Fed the same advance, two cores that start equal stay equal along the
run, so every comparison finds identical serialisations. -/
theorem agreeAt_of_same_advance (advance : Core → Core)
    (hs : s.m_ReckoningCore = s.m_Core) (n : ℕ) :
    (tickRun Write advance advance TickSpeed T0 s n).m_ReckoningCore
      = (tickRun Write advance advance TickSpeed T0 s n).m_Core ∧
    agreeAt Write advance advance TickSpeed T0 s n = true := by
  have hcore : ∀ n, (tickRun Write advance advance TickSpeed T0 s n).m_ReckoningCore
      = (tickRun Write advance advance TickSpeed T0 s n).m_Core := by
    intro n
    induction n with
    | zero => exact hs
    | succ n ih =>
      rw [tickRun_succ]
      unfold TickDefered updateSendCore
      simp only []
      split_ifs
      · rfl
      · show advance _ = advance _
        rw [ih]
  refine ⟨hcore n, ?_⟩
  unfold agreeAt
  rw [decide_eq_true_eq, hcore n]

end Run

/-- Counterexample to C23: with `TickSpeed = 50`, a baseline of tick 1000 and
serialisations that agree at every comparison, none of the 150 calls at ticks
1001 to 1150 replaces the baseline; the call at tick 1151 does. -/
theorem staleness_window_without_replacement :
    (∀ n, n < 150 → agreeAt (fun c : ℤ => c) (fun c => c + 1) (fun c => c + 1) 50 1000
      ⟨1000, 7, 7, 7⟩ n = true) ∧
    (∀ n, n < 150 → replacedAt (fun c : ℤ => c) (fun c => c + 1) (fun c => c + 1) 50 1000
      ⟨1000, 7, 7, 7⟩ n = false) ∧
    (tickRun (fun c : ℤ => c) (fun c => c + 1) (fun c => c + 1) 50 1000
      ⟨1000, 7, 7, 7⟩ 150).m_ReckoningTick = 1000 ∧
    (tickRun (fun c : ℤ => c) (fun c => c + 1) (fun c => c + 1) 50 1000
      ⟨1000, 7, 7, 7⟩ 151).m_ReckoningTick = 1151 := by
  decide!

/-- C23, amended. With a baseline tick not after `T0`, one of the next
`3 * TickSpeed + 1` calls of `TickDefered` replaces the baseline.  After a
replacement at tick `T0`, while the serialisations agree, the calls at ticks
`T0 + 1` to `T0 + 3 * TickSpeed` do not replace it and the call at tick
`T0 + 3 * TickSpeed + 1` does: consecutive replacements are
`3 * TickSpeed + 1` ticks apart. -/
theorem staleness_bound {Core Ser : Type} [DecidableEq Ser] (Write : Core → Ser)
    (advanceDummy advanceCore : Core → Core) (TickSpeed : ℕ) (T0 : ℤ) (s : Reckoning Core) :
    (s.m_ReckoningTick ≤ T0 →
      ∃ n, n ≤ 3 * TickSpeed ∧
        replacedAt Write advanceDummy advanceCore (TickSpeed : ℤ) T0 s n = true) ∧
    (s.m_ReckoningTick = T0 →
      (∀ n, n ≤ 3 * TickSpeed →
        agreeAt Write advanceDummy advanceCore (TickSpeed : ℤ) T0 s n = true) →
      (∀ n, n < 3 * TickSpeed →
        replacedAt Write advanceDummy advanceCore (TickSpeed : ℤ) T0 s n = false) ∧
      replacedAt Write advanceDummy advanceCore (TickSpeed : ℤ) T0 s (3 * TickSpeed) = true ∧
      (tickRun Write advanceDummy advanceCore (TickSpeed : ℤ) T0 s
        (3 * TickSpeed + 1)).m_ReckoningTick = T0 + (3 * (TickSpeed : ℤ) + 1)) := by
  constructor
  · intro hs
    by_contra hno
    have hall : ∀ n, n ≤ 3 * TickSpeed →
        replacedAt Write advanceDummy advanceCore (TickSpeed : ℤ) T0 s n = false := by
      intro n hn
      cases hr : replacedAt Write advanceDummy advanceCore (TickSpeed : ℤ) T0 s n
      · rfl
      · exact absurd ⟨n, hn, hr⟩ hno
    have hkeep : ∀ n, n ≤ 3 * TickSpeed + 1 →
        (tickRun Write advanceDummy advanceCore (TickSpeed : ℤ) T0 s n).m_ReckoningTick
          = s.m_ReckoningTick := by
      intro n
      induction n with
      | zero => intro _; rfl
      | succ n ih =>
        intro hn
        rw [(tickRun_of_not_replaced Write advanceDummy advanceCore (TickSpeed : ℤ) T0 s n
          (hall n (by omega))).1]
        exact ih (by omega)
    have hlast := hall (3 * TickSpeed) (le_refl _)
    unfold replacedAt at hlast
    rw [decide_eq_false_iff_not, hkeep _ (by omega)] at hlast
    apply hlast
    left
    push_cast
    linarith
  · intro hs hag
    obtain ⟨_, h2, h3⟩ := quiet_window Write advanceDummy advanceCore (TickSpeed : ℤ) T0 s
      TickSpeed rfl hs hag
    refine ⟨h2, h3, ?_⟩
    rw [(tickRun_of_replaced Write advanceDummy advanceCore (TickSpeed : ℤ) T0 s _ h3).1]
    push_cast
    ring

/-- Counterexample to C24: from `Spawn` on, with serialisations that agree at
every comparison, the first call replaces the baseline (tick 1001) and so does
call number 151 (tick 1152). -/
theorem replacement_despite_identical_serialisations :
    (∀ n, n < 200 → agreeAt (fun c : ℤ => c) (fun c => c + 1) (fun c => c + 1) 50 1000
      (Spawn 7 7) n = true) ∧
    replacedAt (fun c : ℤ => c) (fun c => c + 1) (fun c => c + 1) 50 1000 (Spawn 7 7) 0 = true ∧
    replacedAt (fun c : ℤ => c) (fun c => c + 1) (fun c => c + 1) 50 1000 (Spawn 7 7) 151
      = true ∧
    (tickRun (fun c : ℤ => c) (fun c => c + 1) (fun c => c + 1) 50 1000
      (Spawn 7 7) 152).m_ReckoningTick = 1152 := by
  decide!

/-- C24, amended. In a run whose serialisations agree at every comparison, a
call replaces the baseline exactly when the baseline is older than
`3 * TickSpeed` ticks; after a replacement, none of the next `3 * TickSpeed`
calls replaces it and the to-send core stays what the replacement stored. -/
theorem convergence_between_staleness {Core Ser : Type} [DecidableEq Ser] (Write : Core → Ser)
    (advanceDummy advanceCore : Core → Core) (TickSpeed : ℕ) (T0 : ℤ) (s : Reckoning Core)
    (hagree : ∀ n, agreeAt Write advanceDummy advanceCore (TickSpeed : ℤ) T0 s n = true) :
    (∀ n, replacedAt Write advanceDummy advanceCore (TickSpeed : ℤ) T0 s n = true ↔
      (tickRun Write advanceDummy advanceCore (TickSpeed : ℤ) T0 s n).m_ReckoningTick
        + 3 * (TickSpeed : ℤ) < T0 + (n : ℤ) + 1) ∧
    (∀ n, replacedAt Write advanceDummy advanceCore (TickSpeed : ℤ) T0 s n = true →
      ∀ j, 1 ≤ j → j ≤ 3 * TickSpeed →
        replacedAt Write advanceDummy advanceCore (TickSpeed : ℤ) T0 s (n + j) = false ∧
        (tickRun Write advanceDummy advanceCore (TickSpeed : ℤ) T0 s (n + j + 1)).m_SendCore
          = (tickRun Write advanceDummy advanceCore (TickSpeed : ℤ) T0 s (n + 1)).m_SendCore) := by
  constructor
  · intro n
    exact replacedAt_of_agree Write advanceDummy advanceCore (TickSpeed : ℤ) T0 s n (hagree n)
  · intro n hn j hj1 hj2
    have hbase := (tickRun_of_replaced Write advanceDummy advanceCore (TickSpeed : ℤ) T0 s n hn).1
    obtain ⟨hk, hq, _⟩ := quiet_window Write advanceDummy advanceCore (TickSpeed : ℤ)
      (T0 + ((n + 1 : ℕ) : ℤ))
      (tickRun Write advanceDummy advanceCore (TickSpeed : ℤ) T0 s (n + 1)) TickSpeed rfl hbase
      (by
        intro i _
        rw [← agreeAt_add]
        exact hagree _)
    have e1 : n + j = (n + 1) + (j - 1) := by omega
    have e2 : n + j + 1 = (n + 1) + j := by omega
    constructor
    · rw [e1, replacedAt_add]
      exact hq (j - 1) (by omega)
    · rw [e2, tickRun_add]
      exact (hk j hj2).2

/-- Witness of the amended C24: both cores are advanced alike from `Spawn`;
the first call replaces the baseline and the call 150 ticks later does not. -/
theorem convergence_between_staleness_witness :
    replacedAt (fun c : ℤ => c) (fun c => c + 1) (fun c => c + 1) ((50 : ℕ) : ℤ) 1000
      (Spawn 7 7) 0 = true ∧
    replacedAt (fun c : ℤ => c) (fun c => c + 1) (fun c => c + 1) ((50 : ℕ) : ℤ) 1000
      (Spawn 7 7) (0 + 150) = false :=
  ⟨by decide!,
   ((convergence_between_staleness (fun c : ℤ => c) (fun c => c + 1) (fun c => c + 1) 50 1000
      (Spawn 7 7)
      (fun n => (agreeAt_of_same_advance (fun c : ℤ => c) ((50 : ℕ) : ℤ) 1000 (Spawn 7 7)
        (fun c => c + 1) rfl n).2)).2 0 (by decide!) 150 (by norm_num) (by norm_num)).1⟩

/-! ## C25: `SnapCharacter` -/

/-- Counterexample to C25: after `Spawn` the baseline tick is 0 and the to-send
core is zeroed; without pause `SnapCharacter` writes tick 0 with the
serialisation of the authoritative core `m_Core`, not of `m_SendCore`. -/
theorem SnapCharacter_writes_raw_core_at_tick_zero :
    (Spawn (0 : ℤ) 7).m_ReckoningTick = 0 ∧ (Spawn (0 : ℤ) 7).m_SendCore = 0 ∧
    (Spawn (0 : ℤ) 7).m_Core = 7 ∧
    SnapCharacter (fun c : ℤ => c) false (Spawn 0 7) = ⟨0, 7⟩ ∧
    (SnapCharacter (fun c : ℤ => c) false (Spawn 0 7)).Core ≠ (Spawn (0 : ℤ) 7).m_SendCore := by
  decide

/-- C25, amended. Paused, `SnapCharacter` writes tick 0 with the serialisation
of `m_Core`.  Not paused, it writes the baseline tick `m_ReckoningTick`:
together with the serialisation of the baseline `m_SendCore` when that tick is
not 0, and with the serialisation of `m_Core` when it is 0. -/
theorem SnapCharacter_payload {Core Ser : Type} (Write : Core → Ser) (m_Paused : Bool)
    (s : Reckoning Core) :
    (m_Paused = true → SnapCharacter Write m_Paused s = ⟨0, Write s.m_Core⟩) ∧
    (m_Paused = false → s.m_ReckoningTick ≠ 0 →
      SnapCharacter Write m_Paused s = ⟨s.m_ReckoningTick, Write s.m_SendCore⟩) ∧
    (m_Paused = false → s.m_ReckoningTick = 0 →
      SnapCharacter Write m_Paused s = ⟨0, Write s.m_Core⟩) ∧
    (m_Paused = false → (SnapCharacter Write m_Paused s).m_Tick = s.m_ReckoningTick) := by
  unfold SnapCharacter
  refine ⟨?_, ?_, ?_, ?_⟩
  · intro hp
    rw [if_pos (Or.inr hp)]
  · intro hp h0
    rw [if_neg (by rw [hp]; simp [h0])]
  · intro _ h0
    rw [if_pos (Or.inl h0)]
  · intro hp
    by_cases h0 : s.m_ReckoningTick = 0
    · rw [if_pos (Or.inl h0), h0]
    · rw [if_neg (by rw [hp]; simp [h0])]

/-! ## The samples of `IntersectLine` in exact arithmetic -/

theorem lineSamples_length (Pos0 Pos1 : vec2) :
    (lineSamples Pos0 Pos1).length = floorLength (Pos0 - Pos1) + 2 := by
  unfold lineSamples
  simp only [List.length_map, List.length_range]

theorem lineSamples_get (Pos0 Pos1 : vec2) (i : ℕ) (hi : i ≤ floorLength (Pos0 - Pos1) + 1) :
    (lineSamples Pos0 Pos1)[i]? =
      some (mix Pos0 Pos1 ((i : ℚ) * (1 / ((floorLength (Pos0 - Pos1) + 1 : ℕ) : ℚ)))) := by
  unfold lineSamples
  simp only []
  rw [List.getElem?_map, List.getElem?_range (by omega)]
  rfl

theorem mix_step (Pos0 Pos1 : vec2) (a b : ℚ) :
    mix Pos0 Pos1 b - mix Pos0 Pos1 a = (Pos1 - Pos0) * (b - a) := by
  unfold mix
  rw [vec2_eq_iff]
  simp only [vec2_sub_x, vec2_sub_y, vec2_add_x, vec2_add_y, vec2_smul_x, vec2_smul_y]
  constructor <;> ring

theorem dot_neg_sub (a b : vec2) : dot (b - a) (b - a) = dot (a - b) (a - b) := by
  simp only [dot, vec2_sub_x, vec2_sub_y]
  ring

/-! ## C27: a free box stays free -/

theorem MoveBoxStep_keeps_free (k : MapConsts) (c : CCollision) (Size : vec2) (e F : ℚ)
    (pDeath PL : Bool) (s : MoveState) (h : boxTest k c Size PL s.Pos = false) :
    boxTest k c Size PL (MoveBoxStep k c Size e F pDeath PL s).Pos = false := by
  unfold boxTest at h ⊢
  unfold MoveBoxStep
  simp only []
  generalize hA : TestBox c ⟨(s.Pos + s.Vel * F).x, (s.Pos + s.Vel * F).y⟩ Size (boolToInt PL)
      k.PhysicLayerDefault = A
  generalize hY : TestBox c ⟨s.Pos.x, (s.Pos + s.Vel * F).y⟩ Size (boolToInt PL)
      k.PhysicLayerDefault = Y
  generalize hX : TestBox c ⟨(s.Pos + s.Vel * F).x, s.Pos.y⟩ Size (boolToInt PL)
      k.PhysicLayerDefault = X
  cases A
  · exact hA
  · cases Y
    · cases X
      · exact h
      · exact hY
    · cases X
      · exact hX
      · exact h

/-- C27. If the box test of `MoveBox` (same size and collision mode) reports no
overlap at the starting position, it reports none at the position committed
by any sub-step, and none at the position `MoveBox` returns. -/
theorem MoveBox_stays_free (k : MapConsts) (c : CCollision) (Pos Vel Size : vec2) (e : ℚ)
    (pDeath PL : Bool) (h : boxTest k c Size PL Pos = false) :
    (∀ i : ℕ, boxTest k c Size PL (subStepState k c Pos Vel Size e pDeath PL i).Pos = false) ∧
    boxTest k c Size PL (MoveBox k c Pos Vel Size e pDeath PL).Pos = false := by
  have hall : ∀ i : ℕ,
      boxTest k c Size PL (subStepState k c Pos Vel Size e pDeath PL i).Pos = false := by
    intro i
    induction i with
    | zero => exact h
    | succ i ih =>
      unfold subStepState at ih ⊢
      rw [Function.iterate_succ_apply']
      exact MoveBoxStep_keeps_free k c Size e _ pDeath PL _ ih
  refine ⟨hall, ?_⟩
  rw [MoveBox_eq_subStepState]
  split_ifs
  · exact hall _
  · exact h

/-- Witness of C27: a box thrown at the wall of `wallMap` ends free. -/
theorem MoveBox_stays_free_witness :
    boxTest stockConsts wallMap ⟨8, 8⟩ true ⟨50, 20⟩ = false ∧
    boxTest stockConsts wallMap ⟨8, 8⟩ true
      (MoveBox stockConsts wallMap ⟨50, 20⟩ ⟨40, 3⟩ ⟨8, 8⟩ (1 / 2) false true).Pos = false :=
  ⟨by decide!,
   (MoveBox_stays_free stockConsts wallMap ⟨50, 20⟩ ⟨40, 3⟩ ⟨8, 8⟩ (1 / 2) false true
      (by decide!)).2⟩

/-! ## The collision mode in exact arithmetic -/

theorem Int_land_zero (v : ℤ) : Int.land v 0 = 0 := by
  cases v with
  | ofNat n =>
    show ((n &&& 0 : ℕ) : ℤ) = 0
    rw [Nat.and_zero]; rfl
  | negSucc n =>
    show ((Nat.ldiff 0 n : ℕ) : ℤ) = 0
    have : Nat.ldiff 0 n = 0 := by
      apply Nat.eq_of_testBit_eq
      intro i
      rw [Nat.testBit_ldiff]
      simp
    rw [this]; rfl

theorem boxTest_mode_false (k : MapConsts) (c : CCollision) (Size P : vec2) :
    boxTest k c Size false P = false := by
  have hcp : ∀ x y : ℚ, CheckPoint c x y (boolToInt false) k.PhysicLayerDefault = false := by
    intro x y
    unfold CheckPoint IsTile boolToInt
    rw [if_neg (by decide), Int_land_zero]
    decide
  unfold boxTest
  rw [TestBox_eq_or, hcp, hcp, hcp, hcp]
  rfl

/-! ## C29: the remap of the quads -/

theorem Int_lor_zero (v : ℤ) : Int.lor v 0 = v := by
  cases v with
  | ofNat n =>
    show ((n ||| 0 : ℕ) : ℤ) = (n : ℤ)
    rw [Nat.or_zero]
  | negSucc n =>
    show Int.negSucc (Nat.ldiff n 0) = Int.negSucc n
    congr 1
    apply Nat.eq_of_testBit_eq
    intro i
    rw [Nat.testBit_ldiff]
    simp

theorem foldl_quads_zero (x y : ℤ) (quads : List CQuad) (I : ℤ)
    (h : ∀ q ∈ quads, q.m_ColorEnvOffset = 0) :
    quads.foldl (fun Index q => if quadContains q x y then Int.lor Index q.m_ColorEnvOffset
      else Index) I = I := by
  induction quads generalizing I with
  | nil => rfl
  | cons q qs ih =>
    rw [List.foldl_cons, h q (List.mem_cons_self _ _), Int_lor_zero, ite_self]
    exact ih I fun q' hq' => h q' (List.mem_cons_of_mem _ hq')

/-- C29. `Init` remaps every physical quad.  A raw value of at most 128 becomes
`COLFLAG_DEATH` if it was `TILE_DEATH`, `COLFLAG_EXPORT` if it was
`TILE_EXPORT`, and 0 otherwise; `TILE_SOLID` and `TILE_NOHOOK` become 0, and a
map whose quads all carry one of these two gets no flag from its quads at any
point. -/
theorem Init_quad_flags (k : MapConsts) (hk : k.Valid) (c : CCollision) :
    (Init k c).m_pPhysicalQuads = c.m_pPhysicalQuads.map (List.map (remapQuad k)) ∧
    (∀ q : CQuad, q.m_ColorEnvOffset ≤ 128 →
      ((remapQuad k q).m_ColorEnvOffset =
        if q.m_ColorEnvOffset = k.TILE_DEATH then k.COLFLAG_DEATH
        else if q.m_ColorEnvOffset = k.TILE_EXPORT then k.COLFLAG_EXPORT
        else 0) ∧
      (q.m_ColorEnvOffset = k.TILE_DEATH → (remapQuad k q).m_ColorEnvOffset = k.COLFLAG_DEATH) ∧
      (q.m_ColorEnvOffset = k.TILE_EXPORT → (remapQuad k q).m_ColorEnvOffset = k.COLFLAG_EXPORT) ∧
      (q.m_ColorEnvOffset ≠ k.TILE_DEATH → q.m_ColorEnvOffset ≠ k.TILE_EXPORT →
        (remapQuad k q).m_ColorEnvOffset = 0)) ∧
    (∀ q : CQuad, q.m_ColorEnvOffset = k.TILE_SOLID ∨ q.m_ColorEnvOffset = k.TILE_NOHOOK →
      (remapQuad k q).m_ColorEnvOffset = 0) ∧
    (∀ (quads : List CQuad) (x y : ℤ), c.m_pPhysicalQuads = some quads →
      (∀ q ∈ quads, q.m_ColorEnvOffset = k.TILE_SOLID ∨ q.m_ColorEnvOffset = k.TILE_NOHOOK) →
      GetTile (Init k c) x y true = GetTile (Init k c) x y false) := by
  have hsolid : ∀ q : CQuad,
      q.m_ColorEnvOffset = k.TILE_SOLID ∨ q.m_ColorEnvOffset = k.TILE_NOHOOK →
      (remapQuad k q).m_ColorEnvOffset = 0 := by
    intro q hq
    show remapQuadIndex k q.m_ColorEnvOffset = 0
    unfold remapQuadIndex
    rcases hq with hq | hq
    · rw [hq, if_neg (not_lt.mpr hk.tile_solid_le), if_neg hk.solid_ne_death,
        if_neg hk.solid_ne_export]
    · rw [hq, if_neg (not_lt.mpr hk.tile_nohook_le), if_neg (Ne.symm hk.death_ne_nohook),
        if_neg hk.nohook_ne_export]
  refine ⟨rfl, ?_, hsolid, ?_⟩
  · intro q hq
    have h128 : ¬ q.m_ColorEnvOffset > 128 := not_lt.mpr hq
    have hval : (remapQuad k q).m_ColorEnvOffset =
        if q.m_ColorEnvOffset = k.TILE_DEATH then k.COLFLAG_DEATH
        else if q.m_ColorEnvOffset = k.TILE_EXPORT then k.COLFLAG_EXPORT
        else 0 := by
      show remapQuadIndex k q.m_ColorEnvOffset = _
      unfold remapQuadIndex
      rw [if_neg h128]
    refine ⟨hval, ?_, ?_, ?_⟩
    · intro hd
      rw [hval, if_pos hd]
    · intro he
      have hne : q.m_ColorEnvOffset ≠ k.TILE_DEATH := by
        rw [he]; exact Ne.symm hk.death_ne_export
      rw [hval, if_neg hne, if_pos he]
    · intro h1 h2
      rw [hval, if_neg h1, if_neg h2]
  · intro quads x y hq hall
    have hI : (Init k c).m_pPhysicalQuads = some (quads.map (remapQuad k)) := by
      show c.m_pPhysicalQuads.map (List.map (remapQuad k)) = _
      rw [hq]; rfl
    unfold GetTile
    rw [hI]
    apply foldl_quads_zero
    intro q' hq'
    rw [List.mem_map] at hq'
    obtain ⟨q, hqm, rfl⟩ := hq'
    exact hsolid q (hall q hqm)

/-- Witness of C29 under the sample enumerator values: a solid quad that
contains the point (5,5) adds nothing there. -/
theorem Init_quad_flags_witness :
    quadContains (squareQuad 1) 5 5 = true ∧
    (remapQuad stockConsts (squareQuad 2)).m_ColorEnvOffset = stockConsts.COLFLAG_DEATH ∧
    (remapQuad stockConsts (squareQuad 3)).m_ColorEnvOffset = 0 ∧
    GetTile (Init stockConsts (quadMap 1)) 5 5 true = GetTile (Init stockConsts (quadMap 1)) 5 5 false :=
  ⟨by decide!,
   ((Init_quad_flags stockConsts stockConsts_valid (quadMap 1)).2.1 (squareQuad 2)
      (by decide)).2.1 rfl,
   (Init_quad_flags stockConsts stockConsts_valid (quadMap 1)).2.2.1 (squareQuad 3)
      (Or.inr rfl),
   (Init_quad_flags stockConsts stockConsts_valid (quadMap 1)).2.2.2 [squareQuad 1] 5 5 rfl
      (by
        intro q hq
        rw [List.mem_singleton] at hq
        subst hq
        exact Or.inl rfl)⟩

/-! ## C30: `InitTilemapSkip` -/

theorem tileIndexOf_setSkip (t : List CTile) (i v j : ℤ) :
    tileIndexOf (setSkip t i v) j = tileIndexOf t j := by
  unfold tileIndexOf setSkip
  simp only [List.getD_eq_getElem?_getD, List.getElem?_set]
  by_cases h : i.toNat = j.toNat
  · rw [if_pos h]
    by_cases hl : i.toNat < t.length
    · rw [if_pos hl, ← h]
      rfl
    · rw [if_neg hl, ← h, List.getElem?_eq_none (not_lt.mp hl)]
  · rw [if_neg h]

theorem length_setSkip (t : List CTile) (i v : ℤ) : (setSkip t i v).length = t.length := by
  unfold setSkip
  rw [List.length_set]

theorem getD_setSkip_ne (t : List CTile) (i v : ℤ) (n : ℕ) (h : i.toNat ≠ n) :
    (setSkip t i v).getD n ⟨0, 0, 0, 0⟩ = t.getD n ⟨0, 0, 0, 0⟩ := by
  unfold setSkip
  simp only [List.getD_eq_getElem?_getD, List.getElem?_set, if_neg h]

theorem skipAt_setSkip_self (t : List CTile) (i v : ℤ) (h : i.toNat < t.length) :
    skipAt (setSkip t i v) i = toUChar v := by
  unfold skipAt setSkip
  rw [List.getD_eq_getElem?_getD, List.getElem?_set, if_pos rfl, if_pos h]
  rfl

theorem emptyRun_congr (t t1 : List CTile) (W : ℤ) (y x : ℕ)
    (h : ∀ i : ℤ, tileIndexOf t1 i = tileIndexOf t i) :
    emptyRun t1 W y x = emptyRun t W y x := by
  unfold emptyRun
  simp only [h]

theorem emptyRun_le (t : List CTile) (W : ℤ) (y x : ℕ) : emptyRun t W y x ≤ 254 :=
  Nat.findGreatest_le 254

theorem toUChar_skip (r : ℕ) (h : r ≤ 254) : toUChar (((r + 1 : ℕ) : ℤ) - 1) = r := by
  unfold toUChar
  have : (((r + 1 : ℕ) : ℤ) - 1) % 256 = (r : ℤ) := by omega
  rw [this]
  exact Int.toNat_natCast r

/-- The innermost loop leaves `SkippedX` one above the run of empty cells. -/
theorem skipScan_spec (t : List CTile) (W : ℤ) (y x : ℕ) (fuel S : ℕ)
    (hS1 : 1 ≤ S) (hS2 : S ≤ 255) (hfuel : 256 ≤ fuel + S)
    (hP : ∀ j, j < S - 1 → ((x + 1 + j : ℕ) : ℤ) < W ∧
      tileIndexOf t ((y : ℤ) * W + ((x + 1 + j : ℕ) : ℤ)) = 0) :
    skipScan t W y x fuel S = some (emptyRun t W y x + 1) := by
  induction fuel generalizing S with
  | zero => omega
  | succ fuel ih =>
    unfold skipScan
    have hidx : (y : ℤ) * W + (x : ℤ) + (S : ℤ) = (y : ℤ) * W + ((x + 1 + (S - 1) : ℕ) : ℤ) := by
      have : ((x + 1 + (S - 1) : ℕ) : ℤ) = (x : ℤ) + (S : ℤ) := by omega
      rw [this]; ring
    have hxS : ((x + S : ℕ) : ℤ) = ((x + 1 + (S - 1) : ℕ) : ℤ) := by omega
    by_cases hc : ((x + S : ℕ) : ℤ) < W ∧ S < 255
    · rw [if_pos hc]
      by_cases hi : tileIndexOf t ((y : ℤ) * W + (x : ℤ) + (S : ℤ)) ≠ 0
      · rw [if_pos hi]
        have he : emptyRun t W y x = S - 1 := by
          unfold emptyRun
          rw [Nat.findGreatest_eq_iff]
          refine ⟨by omega, fun _ => hP, ?_⟩
          intro n hn _ hPn
          apply hi
          rw [hidx]
          exact (hPn (S - 1) hn).2
        have hS : S - 1 + 1 = S := by omega
        rw [he, hS]
      · rw [if_neg hi]
        rw [not_not] at hi
        apply ih (S + 1) (by omega) (by omega) (by omega)
        intro j hj
        by_cases hjS : j < S - 1
        · exact hP j hjS
        · have hjeq : j = S - 1 := by omega
          subst hjeq
          rw [← hidx, ← hxS]
          exact ⟨hc.1, hi⟩
    · rw [if_neg hc]
      have he : emptyRun t W y x = S - 1 := by
        unfold emptyRun
        rw [Nat.findGreatest_eq_iff]
        refine ⟨by omega, fun _ => hP, ?_⟩
        intro n hn hn2 hPn
        apply hc
        refine ⟨?_, by omega⟩
        rw [hxS]
        exact (hPn (S - 1) hn).1
      have hS : S - 1 + 1 = S := by omega
      rw [he, hS]

theorem SkipChain_congr (t t1 : List CTile) (W : ℤ) (y : ℕ)
    (hidx : ∀ i : ℤ, tileIndexOf t1 i = tileIndexOf t i)
    (hskip : ∀ x : ℕ, 1 ≤ x → (x : ℤ) < W →
      skipAt t1 ((y : ℤ) * W + (x : ℤ)) = skipAt t ((y : ℤ) * W + (x : ℤ)))
    (x : ℕ) (hx : 1 ≤ x) (h : SkipChain t W y x) : SkipChain t1 W y x := by
  induction h with
  | done x h => exact SkipChain.done x h
  | step x h hs _ ih =>
    have he := emptyRun_congr t t1 W y x hidx
    refine SkipChain.step x h ?_ ?_
    · rw [hskip x hx h, hs, he]
    · rw [he]
      exact ih (by omega)

/-- The scan of row `y` from cell `x` on: it returns, keeps the length and the
tile indices, touches only the cells from `x` on of this row, and leaves the
skip chain from `x`. -/
theorem skipRow_spec (W : ℤ) (y : ℕ) (fuel x : ℕ) (t : List CTile)
    (hfuel : (W - (x : ℤ)).toNat + 256 ≤ fuel) :
    ∃ t1, skipRow W y fuel x t = some t1 ∧ t1.length = t.length ∧
      (∀ i : ℤ, tileIndexOf t1 i = tileIndexOf t i) ∧
      (∀ n : ℕ, ((n : ℤ) < (y : ℤ) * W + (x : ℤ) ∨ (y : ℤ) * W + W ≤ (n : ℤ)) →
        t1.getD n ⟨0, 0, 0, 0⟩ = t.getD n ⟨0, 0, 0, 0⟩) ∧
      (0 ≤ W → (y : ℤ) * W + W ≤ (t.length : ℤ) → SkipChain t1 W y x) := by
  induction fuel generalizing x t with
  | zero => omega
  | succ fuel ih =>
    unfold skipRow
    by_cases hx : (x : ℤ) < W
    · rw [if_pos hx]
      rw [skipScan_spec t W y x fuel 1 (le_refl 1) (by norm_num) (by omega)
        (fun j hj => absurd hj (by omega))]
      simp only []
      obtain ⟨t1, h1, h2, h3, h4, h5⟩ := ih (x + (emptyRun t W y x + 1))
        (setSkip t ((y : ℤ) * W + (x : ℤ)) (((emptyRun t W y x + 1 : ℕ) : ℤ) - 1))
        (by push_cast; omega)
      refine ⟨t1, h1, ?_, ?_, ?_, ?_⟩
      · rw [h2, length_setSkip]
      · intro i
        rw [h3, tileIndexOf_setSkip]
      · intro n hn
        rw [h4 n (by push_cast; omega)]
        apply getD_setSkip_ne
        have hy : (0 : ℤ) ≤ (y : ℤ) * W := by
          have : (0 : ℤ) ≤ (y : ℤ) := Int.natCast_nonneg y
          have : (0 : ℤ) ≤ W := by omega
          positivity
        omega
      · intro hW hlen
        have hy : (0 : ℤ) ≤ (y : ℤ) * W := by
          have : (0 : ℤ) ≤ (y : ℤ) := Int.natCast_nonneg y
          positivity
        have hchain := h5 hW (by rw [length_setSkip]; exact hlen)
        have he0 : ∀ i : ℤ, tileIndexOf t1 i = tileIndexOf t i := by
          intro i
          rw [h3, tileIndexOf_setSkip]
        have he1 := emptyRun_congr t t1 W y x he0
        refine SkipChain.step x hx ?_ ?_
        · unfold skipAt
          rw [h4 ((y : ℤ) * W + (x : ℤ)).toNat (by left; push_cast; omega)]
          have := skipAt_setSkip_self t ((y : ℤ) * W + (x : ℤ))
            (((emptyRun t W y x + 1 : ℕ) : ℤ) - 1) (by omega)
          unfold skipAt at this
          rw [this, he1, toUChar_skip _ (emptyRun_le t W y x)]
        · rw [he1, Nat.add_assoc]
          exact hchain
    · rw [if_neg hx]
      exact ⟨t, rfl, rfl, fun _ => rfl, fun _ _ => rfl,
        fun _ _ => SkipChain.done x (not_lt.mp hx)⟩

/-- The scan of the rows from `y` on: it returns, keeps the length and the
tile indices, leaves the rows before `y` alone, and leaves the skip chain in
every row from `y` on. -/
theorem skipRows_spec (W H : ℤ) (fuel y : ℕ) (t : List CTile)
    (hfuel : (H - (y : ℤ)).toNat + W.toNat + 257 ≤ fuel) :
    ∃ t1, skipRows W H fuel y t = some t1 ∧ t1.length = t.length ∧
      (∀ i : ℤ, tileIndexOf t1 i = tileIndexOf t i) ∧
      (0 ≤ W → ∀ n : ℕ, (n : ℤ) < (y : ℤ) * W →
        t1.getD n ⟨0, 0, 0, 0⟩ = t.getD n ⟨0, 0, 0, 0⟩) ∧
      (0 ≤ W → W * H ≤ (t.length : ℤ) → ∀ y1 : ℕ, y ≤ y1 → (y1 : ℤ) < H →
        SkipChain t1 W y1 1) := by
  induction fuel generalizing y t with
  | zero => omega
  | succ fuel ih =>
    unfold skipRows
    by_cases hy : (y : ℤ) < H
    · rw [if_pos hy]
      obtain ⟨tr, hr1, hr2, hr3, hr4, hr5⟩ := skipRow_spec W y fuel 1 t (by push_cast; omega)
      rw [hr1]
      simp only []
      obtain ⟨t1, h1, h2, h3, h4, h5⟩ := ih (y + 1) tr (by push_cast; omega)
      refine ⟨t1, h1, by rw [h2, hr2], fun i => by rw [h3, hr3], ?_, ?_⟩
      · intro hW n hn
        have hy0 : (0 : ℤ) ≤ (y : ℤ) := Int.natCast_nonneg y
        rw [h4 hW n (by push_cast; nlinarith), hr4 n (by left; push_cast; omega)]
      · intro hW hlen y1 hy1 hy1H
        have hy0 : (0 : ℤ) ≤ (y : ℤ) := Int.natCast_nonneg y
        rcases Nat.eq_or_lt_of_le hy1 with heq | hlt
        · subst heq
          have hrow : (y : ℤ) * W + W ≤ (t.length : ℤ) := by nlinarith
          have hchain := hr5 hW hrow
          apply SkipChain_congr tr t1 W y h3 ?_ 1 (le_refl 1) hchain
          intro x hx1 hxW
          unfold skipAt
          have hnn : (0 : ℤ) ≤ (y : ℤ) * W := by positivity
          have hsucc : ((y : ℤ) + 1) * W = (y : ℤ) * W + W := by ring
          rw [h4 hW ((y : ℤ) * W + (x : ℤ)).toNat (by push_cast; omega)]
        · exact h5 hW (by rw [hr2]; exact hlen) y1 hlt hy1H
    · rw [if_neg hy]
      exact ⟨t, rfl, rfl, fun _ => rfl, fun _ _ _ => rfl,
        fun _ _ y1 hy1 hy1H => absurd hy1H (by omega)⟩

theorem layerSkip_spec (L : CMapItemLayer) :
    ∃ fuel0 : ℕ, ∀ fuel : ℕ, fuel0 ≤ fuel →
      ∃ L1, layerSkip fuel L = some L1 ∧ LayerSkipped L L1 := by
  cases L with
  | tilemap W H t =>
    refine ⟨H.toNat + W.toNat + 257, ?_⟩
    intro fuel hfuel
    obtain ⟨t1, h1, h2, h3, _, h5⟩ := skipRows_spec W H fuel 0 t (by
      have : (H - ((0 : ℕ) : ℤ)).toNat = H.toNat := by simp
      omega)
    refine ⟨CMapItemLayer.tilemap W H t1, ?_, ?_⟩
    · show Option.map (CMapItemLayer.tilemap W H) (skipRows W H fuel 0 t) = _
      rw [h1]
      rfl
    · exact ⟨rfl, rfl, h2, h3, fun hW hlen y hy => h5 hW hlen y (Nat.zero_le y) hy⟩
  | other =>
    exact ⟨0, fun _ _ => ⟨CMapItemLayer.other, rfl, trivial⟩⟩

/-- C30. `InitTilemapSkip` returns once the fuel covers the layer sizes.
Afterwards every tile layer keeps its dimensions and tile indices, and in a
layer whose array holds `m_Width * m_Height` tiles every row carries the skip
chain from cell 1: the cell holds the number of consecutive cells after it
that lie in the row and have index 0, capped at 254, and the next cell of the
chain is `x + skip + 1`. -/
theorem InitTilemapSkip_spec (layers : List CMapItemLayer) :
    ∃ fuel0 : ℕ, ∀ fuel : ℕ, fuel0 ≤ fuel →
      ∃ layers1, InitTilemapSkip fuel layers = some layers1 ∧
        List.Forall₂ LayerSkipped layers layers1 := by
  induction layers with
  | nil => exact ⟨0, fun _ _ => ⟨[], rfl, List.Forall₂.nil⟩⟩
  | cons L rest ih =>
    obtain ⟨f1, h1⟩ := layerSkip_spec L
    obtain ⟨f2, h2⟩ := ih
    refine ⟨max f1 f2, ?_⟩
    intro fuel hfuel
    obtain ⟨L1, hL1, hL2⟩ := h1 fuel (le_trans (le_max_left f1 f2) hfuel)
    obtain ⟨r1, hr1, hr2⟩ := h2 fuel (le_trans (le_max_right f1 f2) hfuel)
    refine ⟨L1 :: r1, ?_, List.Forall₂.cons hL2 hr2⟩
    unfold InitTilemapSkip
    rw [hL1, hr1]

/-- Witness of C30: the row 1 0 0 1 0 0 gets skip 1 at cell 1 and skip 2 at
cell 3. -/
theorem InitTilemapSkip_spec_witness :
    InitTilemapSkip 300 [skipLayer, CMapItemLayer.other] =
      some [CMapItemLayer.tilemap 6 1
        [⟨1, 0, 0, 0⟩, ⟨0, 0, 1, 0⟩, ⟨0, 0, 0, 0⟩, ⟨1, 0, 2, 0⟩, ⟨0, 0, 0, 0⟩, ⟨0, 0, 0, 0⟩],
        CMapItemLayer.other] ∧
    ∃ fuel0 : ℕ, ∀ fuel : ℕ, fuel0 ≤ fuel →
      ∃ layers1, InitTilemapSkip fuel [skipLayer, CMapItemLayer.other] = some layers1 ∧
        List.Forall₂ LayerSkipped [skipLayer, CMapItemLayer.other] layers1 :=
  ⟨by decide!, InitTilemapSkip_spec [skipLayer, CMapItemLayer.other]⟩

/-! ## binary32: basic facts -/

theorem log2Aux_eq_log (fuel n : ℕ) (h : n ≤ fuel) : F32.log2Aux fuel n = Nat.log 2 n := by
  induction fuel generalizing n with
  | zero =>
    have : n = 0 := by omega
    subst this; simp [F32.log2Aux]
  | succ f ih =>
    unfold F32.log2Aux
    split_ifs with h2
    · rw [ih (n / 2) (by omega), Nat.log_of_one_lt_of_le (by norm_num) h2]
    · rw [Nat.log_of_lt (by omega)]

theorem natLog2_eq_log (n : ℕ) : F32.natLog2 n = Nat.log 2 n :=
  log2Aux_eq_log n n le_rfl

theorem pow2_eq_zpow (e : ℤ) : F32.pow2 e = (2 : ℚ) ^ e := by
  unfold F32.pow2
  split_ifs with h
  · lift e to ℕ using h
    simp
  · push_neg at h
    obtain ⟨n, hn⟩ : ∃ n : ℕ, e = -(n : ℤ) := ⟨(-e).toNat, by omega⟩
    subst hn
    simp [zpow_neg]

theorem pow2_pos (e : ℤ) : 0 < F32.pow2 e := by
  rw [pow2_eq_zpow]; positivity

theorem natLog2_bounds (n : ℕ) (hn : 0 < n) :
    ((2 : ℚ) ^ (F32.natLog2 n : ℤ) ≤ (n : ℚ)) ∧ ((n : ℚ) < 2 * (2 : ℚ) ^ (F32.natLog2 n : ℤ)) := by
  rw [natLog2_eq_log, zpow_natCast]
  constructor
  · have := Nat.pow_log_le_self 2 (Nat.pos_iff_ne_zero.mp hn)
    exact_mod_cast this
  · have := Nat.lt_pow_succ_log_self (by norm_num : 1 < 2) n
    rw [pow_succ] at this
    have h2 : ((n : ℕ) : ℚ) < ((2 ^ Nat.log 2 n * 2 : ℕ) : ℚ) := by exact_mod_cast this
    push_cast at h2
    linarith

/-- `ilog2` is the integer part of the binary logarithm. -/
theorem ilog2_spec (a : ℚ) (ha : 0 < a) :
    (2 : ℚ) ^ (F32.ilog2 a) ≤ a ∧ a < (2 : ℚ) ^ (F32.ilog2 a + 1) := by
  have hnum : 0 < a.num := Rat.num_pos.mpr ha
  have hn : 0 < a.num.natAbs := Int.natAbs_pos.mpr hnum.ne'
  have hd : 0 < a.den := a.den_pos
  obtain ⟨hn1, hn2⟩ := natLog2_bounds _ hn
  obtain ⟨hd1, hd2⟩ := natLog2_bounds _ hd
  have hA : (0 : ℚ) < (2 : ℚ) ^ (F32.natLog2 a.num.natAbs : ℤ) := by positivity
  have hB : (0 : ℚ) < (2 : ℚ) ^ (F32.natLog2 a.den : ℤ) := by positivity
  have hdq : (0 : ℚ) < (a.den : ℚ) := by exact_mod_cast hd
  have hnq : ((a.num.natAbs : ℕ) : ℚ) = a * (a.den : ℚ) := by
    have h1 : ((a.num.natAbs : ℕ) : ℤ) = a.num := Int.natAbs_of_nonneg hnum.le
    have h2 : ((a.num.natAbs : ℕ) : ℚ) = (a.num : ℚ) := by
      rw [← Int.cast_natCast, h1]
    rw [h2]
    exact (Rat.mul_den_eq_num a).symm
  rw [hnq] at hn1 hn2
  have hlow : (2 : ℚ) ^ ((F32.natLog2 a.num.natAbs : ℤ) - (F32.natLog2 a.den : ℤ) - 1) < a := by
    rw [zpow_sub₀ (by norm_num), zpow_sub₀ (by norm_num), zpow_one, div_div, div_lt_iff₀ (by positivity)]
    nlinarith
  have hupp : a < (2 : ℚ) ^ ((F32.natLog2 a.num.natAbs : ℤ) - (F32.natLog2 a.den : ℤ) + 1) := by
    rw [zpow_add₀ (by norm_num), zpow_sub₀ (by norm_num), zpow_one, div_mul_eq_mul_div,
      lt_div_iff₀ hB]
    nlinarith
  unfold F32.ilog2
  simp only []
  split_ifs with h
  · rw [pow2_eq_zpow] at h
    exact ⟨h, hupp⟩
  · rw [pow2_eq_zpow] at h
    push_neg at h
    refine ⟨hlow.le, ?_⟩
    rw [sub_add_cancel]
    exact h

theorem roundHalfEven_le (m : ℚ) : (F32.roundHalfEven m : ℚ) ≤ m + 1 := by
  have h := Int.floor_le m
  unfold F32.roundHalfEven
  simp only []
  split_ifs <;> push_cast <;> linarith

theorem floor_le_roundHalfEven (m : ℚ) : ⌊m⌋ ≤ F32.roundHalfEven m := by
  unfold F32.roundHalfEven
  simp only []
  split_ifs <;> omega

theorem round_zero : F32.round 0 = FloatVal.finite 0 := by
  simp [F32.round]

theorem round_neg (q : ℚ) : F32.round (-q) = F32.neg (F32.round q) := by
  by_cases h0 : q = 0
  · subst h0; simp [round_zero, F32.neg]
  · rcases lt_or_gt_of_ne h0 with h | h
    · have h1 : ¬ (0 < q) := by linarith
      have h2 : 0 < -q := by linarith
      simp only [F32.round, neg_eq_zero, h0, if_false, abs_neg, h1, h2, if_true]
      split_ifs <;> simp [F32.neg]
    · have h1 : ¬ (0 < -q) := by linarith
      simp only [F32.round, neg_eq_zero, h0, if_false, abs_neg, h1, h, if_true]
      split_ifs <;> simp [F32.neg]

/-- A value of magnitude at most `2 ^ 127` rounds to a finite value. -/
theorem round_finite (q : ℚ) (h : |q| ≤ (2 : ℚ) ^ (127 : ℤ)) : ∃ r, F32.round q = FloatVal.finite r := by
  by_cases h0 : q = 0
  · subst h0; exact ⟨0, round_zero⟩
  · have ha : 0 < |q| := abs_pos.mpr h0
    obtain ⟨hl, hu⟩ := ilog2_spec |q| ha
    have key : ¬ (F32.pow2 128 ≤
        (F32.roundHalfEven (|q| / F32.pow2 (max (F32.ilog2 |q|) (-126) - 23)) : ℚ) *
          F32.pow2 (max (F32.ilog2 |q|) (-126) - 23)) := by
      push_neg
      have hulp := pow2_pos (max (F32.ilog2 |q|) (-126) - 23)
      have hr := roundHalfEven_le (|q| / F32.pow2 (max (F32.ilog2 |q|) (-126) - 23))
      have h1 : (F32.roundHalfEven (|q| / F32.pow2 (max (F32.ilog2 |q|) (-126) - 23)) : ℚ) *
          F32.pow2 (max (F32.ilog2 |q|) (-126) - 23) ≤ |q| + F32.pow2 (max (F32.ilog2 |q|) (-126) - 23) := by
        calc _ ≤ (|q| / F32.pow2 (max (F32.ilog2 |q|) (-126) - 23) + 1) *
              F32.pow2 (max (F32.ilog2 |q|) (-126) - 23) := by
              exact mul_le_mul_of_nonneg_right hr hulp.le
          _ = _ := by field_simp
      have h2 : F32.pow2 (max (F32.ilog2 |q|) (-126) - 23) < (2 : ℚ) ^ (127 : ℤ) := by
        rw [pow2_eq_zpow]
        apply zpow_lt_zpow_right₀ (by norm_num)
        have : F32.ilog2 |q| < 128 := by
          by_contra hc
          push_neg at hc
          have : (2 : ℚ) ^ (128 : ℤ) ≤ (2 : ℚ) ^ (F32.ilog2 |q|) := zpow_le_zpow_right₀ (by norm_num) hc
          have h3 : (2 : ℚ) ^ (127 : ℤ) < (2 : ℚ) ^ (128 : ℤ) := by norm_num
          linarith
        rcases max_cases (F32.ilog2 |q|) (-126) with ⟨hm, _⟩ | ⟨hm, _⟩ <;> rw [hm] <;> omega
      have h3 : F32.pow2 128 = (2 : ℚ) ^ (127 : ℤ) + (2 : ℚ) ^ (127 : ℤ) := by
        rw [pow2_eq_zpow]; norm_num
      rw [h3]
      linarith
    unfold F32.round
    simp only [h0, if_false, key]
    exact ⟨_, rfl⟩

/-- A value of at least 1 rounds to a value of at least 1, or overflows. -/
theorem round_ge_one (q : ℚ) (h : 1 ≤ q) :
    F32.round q = FloatVal.posInf ∨ ∃ r, 1 ≤ r ∧ F32.round q = FloatVal.finite r := by
  have h0 : q ≠ 0 := by linarith
  have hq : 0 < q := by linarith
  have habs : |q| = q := abs_of_pos hq
  obtain ⟨hl, hu⟩ := ilog2_spec q hq
  have he : 0 ≤ F32.ilog2 q := by
    by_contra hc
    push_neg at hc
    have : (2 : ℚ) ^ (F32.ilog2 q + 1) ≤ (2 : ℚ) ^ (0 : ℤ) := zpow_le_zpow_right₀ (by norm_num) (by omega)
    simp at this
    linarith
  have hmax : max (F32.ilog2 q) (-126) = F32.ilog2 q := max_eq_left (by omega)
  unfold F32.round
  simp only [h0, if_false, habs, hmax, hq, if_true]
  split_ifs with hov
  · left; rfl
  · right
    refine ⟨_, ?_, rfl⟩
    have hulp := pow2_pos (F32.ilog2 q - 23)
    have hm : ((2 ^ 23 : ℤ) : ℚ) ≤ q / F32.pow2 (F32.ilog2 q - 23) := by
      rw [le_div_iff₀ hulp, pow2_eq_zpow, zpow_sub₀ (by norm_num)]
      push_cast
      have : (2 : ℚ) ^ (23 : ℤ) = 2 ^ 23 := by norm_num
      rw [this]
      field_simp
      linarith
    have hfl : (2 ^ 23 : ℤ) ≤ ⌊q / F32.pow2 (F32.ilog2 q - 23)⌋ := Int.le_floor.mpr hm
    have hr := floor_le_roundHalfEven (q / F32.pow2 (F32.ilog2 q - 23))
    have hr2 : ((2 ^ 23 : ℤ) : ℚ) ≤ (F32.roundHalfEven (q / F32.pow2 (F32.ilog2 q - 23)) : ℚ) := by
      exact_mod_cast le_trans hfl hr
    have h1 : (1 : ℚ) ≤ (2 : ℚ) ^ (F32.ilog2 q) := by
      have := zpow_le_zpow_right₀ (by norm_num : (1 : ℚ) ≤ 2) he
      simpa using this
    calc (1 : ℚ) ≤ (2 : ℚ) ^ (F32.ilog2 q) := h1
      _ = ((2 ^ 23 : ℤ) : ℚ) * F32.pow2 (F32.ilog2 q - 23) := by
          rw [pow2_eq_zpow, zpow_sub₀ (by norm_num)]
          push_cast
          have : (2 : ℚ) ^ (23 : ℤ) = 2 ^ 23 := by norm_num
          rw [this]
          field_simp
          norm_num
          ring
      _ ≤ _ := mul_le_mul_of_nonneg_right hr2 hulp.le

/-! ## C3: the scenario -/

/-- The scenario in binary32, for either collision mode and with or without
the death output: the velocity and the Y position are unchanged, the final
position lies in cell (5,4), which is free, and no sub-step overlaps. -/
theorem scenario_run (pDeath PhysicLayer : Bool) :
    (Binary32.MoveBox stockConsts grid10 ⟨FloatVal.finite 140, FloatVal.finite 140⟩
      ⟨FloatVal.finite 40, FloatVal.finite 0⟩ ⟨FloatVal.finite 32, FloatVal.finite 32⟩
      (FloatVal.finite (1 / 2)) pDeath PhysicLayer).Vel = ⟨FloatVal.finite 40, FloatVal.finite 0⟩ ∧
    (Binary32.MoveBox stockConsts grid10 ⟨FloatVal.finite 140, FloatVal.finite 140⟩
      ⟨FloatVal.finite 40, FloatVal.finite 0⟩ ⟨FloatVal.finite 32, FloatVal.finite 32⟩
      (FloatVal.finite (1 / 2)) pDeath PhysicLayer).Pos.y = FloatVal.finite 140 ∧
    Int.tdiv (Binary32.round_to_int
      (Binary32.MoveBox stockConsts grid10 ⟨FloatVal.finite 140, FloatVal.finite 140⟩
        ⟨FloatVal.finite 40, FloatVal.finite 0⟩ ⟨FloatVal.finite 32, FloatVal.finite 32⟩
        (FloatVal.finite (1 / 2)) pDeath PhysicLayer).Pos.x) 32 = 5 ∧
    Int.tdiv (Binary32.round_to_int
      (Binary32.MoveBox stockConsts grid10 ⟨FloatVal.finite 140, FloatVal.finite 140⟩
        ⟨FloatVal.finite 40, FloatVal.finite 0⟩ ⟨FloatVal.finite 32, FloatVal.finite 32⟩
        (FloatVal.finite (1 / 2)) pDeath PhysicLayer).Pos.y) 32 = 4 ∧
    Binary32.bounceCount stockConsts grid10 ⟨FloatVal.finite 140, FloatVal.finite 140⟩
      ⟨FloatVal.finite 40, FloatVal.finite 0⟩ ⟨FloatVal.finite 32, FloatVal.finite 32⟩
      (FloatVal.finite (1 / 2)) pDeath PhysicLayer = 0 := by
  revert pDeath PhysicLayer
  decide!

/-- Counterexample to C3: in the scenario, run in binary32 with the half-size
16 as `Size = (32,32)`, the X velocity after `MoveBox` is not -20 and the cell
of the final position is not (4,4). -/
theorem MoveBox_scenario_no_bounce :
    (Binary32.MoveBox stockConsts grid10 ⟨FloatVal.finite 140, FloatVal.finite 140⟩
      ⟨FloatVal.finite 40, FloatVal.finite 0⟩ ⟨FloatVal.finite 32, FloatVal.finite 32⟩
      (FloatVal.finite (1 / 2)) false true).Vel.x ≠ FloatVal.finite (-20) ∧
    Int.tdiv (Binary32.round_to_int
      (Binary32.MoveBox stockConsts grid10 ⟨FloatVal.finite 140, FloatVal.finite 140⟩
        ⟨FloatVal.finite 40, FloatVal.finite 0⟩ ⟨FloatVal.finite 32, FloatVal.finite 32⟩
        (FloatVal.finite (1 / 2)) false true).Pos.x) 32 ≠ 4 := by
  obtain ⟨h1, _, h3, _, _⟩ := scenario_run false true
  rw [h1, h3]
  decide!

/-- C3, amended.  In the scenario (10x10 grid, only cell (5,5) solid, box of
half-size 16 at (140,140), velocity (40,0), elasticity 1/2) the binary32
`MoveBox` finds no sub-step overlapping: it returns the velocity (40,0)
unchanged, the Y position 140 unchanged, and a position whose cell is (5,4),
in either collision mode and with or without the death output. -/
theorem MoveBox_scenario (pDeath PhysicLayer : Bool) :
    (Binary32.MoveBox stockConsts grid10 ⟨FloatVal.finite 140, FloatVal.finite 140⟩
      ⟨FloatVal.finite 40, FloatVal.finite 0⟩ ⟨FloatVal.finite 32, FloatVal.finite 32⟩
      (FloatVal.finite (1 / 2)) pDeath PhysicLayer).Vel = ⟨FloatVal.finite 40, FloatVal.finite 0⟩ ∧
    (Binary32.MoveBox stockConsts grid10 ⟨FloatVal.finite 140, FloatVal.finite 140⟩
      ⟨FloatVal.finite 40, FloatVal.finite 0⟩ ⟨FloatVal.finite 32, FloatVal.finite 32⟩
      (FloatVal.finite (1 / 2)) pDeath PhysicLayer).Pos.y = FloatVal.finite 140 ∧
    Int.tdiv (Binary32.round_to_int
      (Binary32.MoveBox stockConsts grid10 ⟨FloatVal.finite 140, FloatVal.finite 140⟩
        ⟨FloatVal.finite 40, FloatVal.finite 0⟩ ⟨FloatVal.finite 32, FloatVal.finite 32⟩
        (FloatVal.finite (1 / 2)) pDeath PhysicLayer).Pos.x) 32 = 5 ∧
    Int.tdiv (Binary32.round_to_int
      (Binary32.MoveBox stockConsts grid10 ⟨FloatVal.finite 140, FloatVal.finite 140⟩
        ⟨FloatVal.finite 40, FloatVal.finite 0⟩ ⟨FloatVal.finite 32, FloatVal.finite 32⟩
        (FloatVal.finite (1 / 2)) pDeath PhysicLayer).Pos.y) 32 = 4 ∧
    Binary32.bounceCount stockConsts grid10 ⟨FloatVal.finite 140, FloatVal.finite 140⟩
      ⟨FloatVal.finite 40, FloatVal.finite 0⟩ ⟨FloatVal.finite 32, FloatVal.finite 32⟩
      (FloatVal.finite (1 / 2)) pDeath PhysicLayer = 0 :=
  scenario_run pDeath PhysicLayer

/-! ## C4: the bounce -/

theorem F32_add_zero (y : FloatVal) (hy : F32.IsFloat y) : F32.add y (FloatVal.finite 0) = y := by
  cases y with
  | finite a =>
    show F32.round (a + 0) = _
    rw [add_zero]; exact hy
  | posInf => rfl
  | negInf => rfl
  | nan => rfl

theorem F32_zero_mul_finite (f : ℚ) : F32.mul (FloatVal.finite 0) (FloatVal.finite f) = FloatVal.finite 0 := by
  show F32.round (0 * f) = _
  rw [zero_mul, round_zero]

theorem fractionOf_finite (Vel : Binary32.vec2) (h : 0 < Binary32.subStepCount Vel) :
    ∃ f, Binary32.fractionOf Vel = FloatVal.finite f := by
  unfold Binary32.subStepCount at h
  have h1 : (1 : ℤ) ≤ Binary32.maxOf Vel + 1 := by omega
  unfold Binary32.fractionOf F32.ofInt
  rcases round_ge_one ((Binary32.maxOf Vel + 1 : ℤ) : ℚ) (by exact_mod_cast h1) with hinf | ⟨r, hr, hfin⟩
  · rw [hinf]; exact ⟨0, rfl⟩
  · rw [hfin]
    have hr0 : r ≠ 0 := by linarith
    have : F32.div (FloatVal.finite 1) (FloatVal.finite r) = F32.round (1 / r) := by
      simp only [F32.div, hr0, if_false]
    rw [this]
    apply round_finite
    have h2 : 0 < 1 / r := by positivity
    rw [abs_of_pos h2]
    have h3 : 1 / r ≤ 1 := by
      rw [div_le_one (by linarith)]; exact hr
    have h4 : (1 : ℚ) ≤ (2 : ℚ) ^ (127 : ℤ) := by norm_num
    linarith

/-- A sub-step of a box that is free and moves along the X axis: an overlap
of the tentative box is attributed to the X axis alone. -/
theorem MoveBoxStep_axis (k : MapConsts) (c : CCollision) (Size : Binary32.vec2) (e : FloatVal)
    (f : ℚ) (pDeath PhysicLayer : Bool) (s : Binary32.MoveState)
    (hvy : s.Vel.y = FloatVal.finite 0) (hy : F32.IsFloat s.Pos.y)
    (hfree : Binary32.boxTest k c Size PhysicLayer s.Pos = false) :
    (Binary32.MoveBoxStep k c Size e (FloatVal.finite f) pDeath PhysicLayer s).Vel =
      (if Binary32.boxTest k c Size PhysicLayer (Binary32.tentativePos s (FloatVal.finite f))
        then ⟨F32.mul s.Vel.x (F32.neg e), FloatVal.finite 0⟩ else s.Vel) ∧
    (Binary32.MoveBoxStep k c Size e (FloatVal.finite f) pDeath PhysicLayer s).Pos.y = s.Pos.y ∧
    Binary32.boxTest k c Size PhysicLayer
      (Binary32.MoveBoxStep k c Size e (FloatVal.finite f) pDeath PhysicLayer s).Pos = false := by
  obtain ⟨⟨px, py⟩, ⟨vx, vy⟩, d⟩ := s
  simp only at hvy hy hfree
  subst hvy
  have hny : F32.add py (F32.mul (FloatVal.finite 0) (FloatVal.finite f)) = py := by
    rw [F32_zero_mul_finite, F32_add_zero py hy]
  have ht : Binary32.tentativePos ⟨⟨px, py⟩, ⟨vx, FloatVal.finite 0⟩, d⟩ (FloatVal.finite f)
      = ⟨F32.add px (F32.mul vx (FloatVal.finite f)), py⟩ := by
    show (⟨F32.add px (F32.mul vx (FloatVal.finite f)),
      F32.add py (F32.mul (FloatVal.finite 0) (FloatVal.finite f))⟩ : Binary32.vec2) = _
    rw [hny]
  have hstep : Binary32.MoveBoxStep k c Size e (FloatVal.finite f) pDeath PhysicLayer
      ⟨⟨px, py⟩, ⟨vx, FloatVal.finite 0⟩, d⟩ =
      (if Binary32.boxTest k c Size PhysicLayer ⟨F32.add px (F32.mul vx (FloatVal.finite f)), py⟩ then
        ⟨⟨px, py⟩, ⟨F32.mul vx (F32.neg e), FloatVal.finite 0⟩,
          (if pDeath && Binary32.TestBox c ⟨F32.add px (F32.mul vx (FloatVal.finite f)), py⟩
            (Size * Binary32.twoThirds) k.COLFLAG_DEATH k.PhysicLayerDefault then true else d)⟩
      else
        ⟨⟨F32.add px (F32.mul vx (FloatVal.finite f)), py⟩, ⟨vx, FloatVal.finite 0⟩,
          (if pDeath && Binary32.TestBox c ⟨F32.add px (F32.mul vx (FloatVal.finite f)), py⟩
            (Size * Binary32.twoThirds) k.COLFLAG_DEATH k.PhysicLayerDefault then true else d)⟩) := by
    unfold Binary32.boxTest at hfree ⊢
    unfold Binary32.MoveBoxStep
    have e1 : ((⟨px, py⟩ : Binary32.vec2) + (⟨vx, FloatVal.finite 0⟩ : Binary32.vec2) * FloatVal.finite f).x
        = F32.add px (F32.mul vx (FloatVal.finite f)) := rfl
    have e2 : ((⟨px, py⟩ : Binary32.vec2) + (⟨vx, FloatVal.finite 0⟩ : Binary32.vec2) * FloatVal.finite f).y
        = py := hny
    simp only [e1, e2]
    by_cases hov : Binary32.TestBox c ⟨F32.add px (F32.mul vx (FloatVal.finite f)), py⟩ Size
        (boolToInt PhysicLayer) k.PhysicLayerDefault = true
    · simp [hov, hfree]
    · simp [hov]
      exact ht
  rw [hstep, ht]
  by_cases hov : Binary32.boxTest k c Size PhysicLayer
      ⟨F32.add px (F32.mul vx (FloatVal.finite f)), py⟩ = true
  · simp only [hov, if_true]
    exact ⟨trivial, trivial, hfree⟩
  · simp only [hov]
    simp only [Bool.not_eq_true] at hov
    exact ⟨by simp, by simp, hov⟩


theorem iterate_axis (k : MapConsts) (c : CCollision) (Size : Binary32.vec2) (e : FloatVal)
    (f : ℚ) (pDeath PhysicLayer : Bool) (n : ℕ) (s : Binary32.MoveState)
    (hvy : s.Vel.y = FloatVal.finite 0) (hy : F32.IsFloat s.Pos.y)
    (hfree : Binary32.boxTest k c Size PhysicLayer s.Pos = false) :
    ((Binary32.MoveBoxStep k c Size e (FloatVal.finite f) pDeath PhysicLayer)^[n] s).Vel =
      ⟨(fun x => F32.mul x (F32.neg e))^[Binary32.overlapCount k c Size e (FloatVal.finite f)
        pDeath PhysicLayer n s] s.Vel.x, FloatVal.finite 0⟩ := by
  induction n generalizing s with
  | zero =>
    obtain ⟨P, ⟨vx, vy⟩, d⟩ := s
    simp only at hvy
    subst hvy
    rfl
  | succ n ih =>
    obtain ⟨h1, h2, h3⟩ := MoveBoxStep_axis k c Size e f pDeath PhysicLayer s hvy hy hfree
    rw [Function.iterate_succ_apply]
    have hvy2 : (Binary32.MoveBoxStep k c Size e (FloatVal.finite f) pDeath PhysicLayer s).Vel.y
        = FloatVal.finite 0 := by
      rw [h1]; split_ifs
      · rfl
      · exact hvy
    rw [ih _ hvy2 (by rw [h2]; exact hy) h3, h1]
    show _ = (⟨(fun x => F32.mul x (F32.neg e))^[(if Binary32.boxTest k c Size PhysicLayer
      (Binary32.tentativePos s (FloatVal.finite f)) then 1 else 0) +
      Binary32.overlapCount k c Size e (FloatVal.finite f) pDeath PhysicLayer n
        (Binary32.MoveBoxStep k c Size e (FloatVal.finite f) pDeath PhysicLayer s)] s.Vel.x,
      FloatVal.finite 0⟩ : Binary32.vec2)
    split_ifs with hov
    · rw [Nat.add_comm, Function.iterate_succ_apply]
    · rw [Nat.zero_add]

theorem F32_mul_neg_one (q : ℚ) (hq : F32.Rep q) :
    F32.mul (FloatVal.finite q) (F32.neg (FloatVal.finite 1)) = FloatVal.finite (-q) := by
  show F32.round (q * -1) = _
  rw [mul_neg_one, round_neg, hq]
  rfl

theorem F32_mul_neg_zero (q : ℚ) :
    F32.mul (FloatVal.finite q) (F32.neg (FloatVal.finite 0)) = FloatVal.finite 0 := by
  show F32.round (q * -0) = _
  rw [neg_zero, mul_zero, round_zero]

theorem epsilon_eq : Binary32.epsilon = FloatVal.finite (2748779 / 274877906944) := by
  decide!

theorem toInt_of_nonneg (d : ℚ) (h0 : 0 ≤ d) (h1 : d < 2147483648) :
    F32.toInt (FloatVal.finite d) = ⌊d⌋ := by
  have hf0 : 0 ≤ ⌊d⌋ := Int.floor_nonneg.mpr h0
  have hf1 : ⌊d⌋ < 2147483648 := by
    rw [Int.floor_lt]; exact_mod_cast h1
  have ht : truncToInt d = ⌊d⌋ := by
    unfold truncToInt
    rw [if_pos h0]
  show (if -2147483648 ≤ truncToInt d ∧ truncToInt d ≤ 2147483647 then truncToInt d
    else -2147483648) = ⌊d⌋
  rw [ht, if_pos ⟨by omega, by omega⟩]

/-- A sub-step whose tentative box is free commits the tentative position and
keeps the velocity. -/
theorem b32_MoveBoxStep_free (k : MapConsts) (c : CCollision) (Size : Binary32.vec2)
    (e F : FloatVal) (pDeath PL : Bool) (s : Binary32.MoveState)
    (h : Binary32.boxTest k c Size PL (Binary32.tentativePos s F) = false) :
    (Binary32.MoveBoxStep k c Size e F pDeath PL s).Pos = Binary32.tentativePos s F ∧
    (Binary32.MoveBoxStep k c Size e F pDeath PL s).Vel = s.Vel := by
  unfold Binary32.boxTest Binary32.tentativePos at h
  have h2 : Binary32.TestBox c ⟨(s.Pos + s.Vel * F).x, (s.Pos + s.Vel * F).y⟩ Size (boolToInt PL)
      k.PhysicLayerDefault = false := h
  unfold Binary32.MoveBoxStep Binary32.tentativePos
  simp only [h2]
  exact ⟨rfl, rfl⟩

theorem b32_subStepState_succ (k : MapConsts) (c : CCollision) (Pos Vel Size : Binary32.vec2)
    (e : FloatVal) (pDeath PL : Bool) (i : ℕ) :
    Binary32.subStepState k c Pos Vel Size e pDeath PL (i + 1)
      = Binary32.MoveBoxStep k c Size e (Binary32.fractionOf Vel) pDeath PL
          (Binary32.subStepState k c Pos Vel Size e pDeath PL i) := by
  unfold Binary32.subStepState
  rw [Function.iterate_succ_apply']

/-- Counterexample to C14: the velocity (7.7204741e-06, 6.3556495e-06) has a
magnitude of at most 0.00001, but its binary32 length rounds to
1.00000007e-05, above `0.00001f`; on a death tile of `deathWallMap` `MoveBox`
runs a sub-step, moves the box and reports death. -/
theorem MoveBox_moves_below_threshold :
    dot ⟨8488751 / 1099511627776, 13976221 / 2199023255552⟩
      ⟨8488751 / 1099511627776, 13976221 / 2199023255552⟩ ≤ (1 / 100000) * (1 / 100000) ∧
    F32.Rep (8488751 / 1099511627776) ∧ F32.Rep (13976221 / 2199023255552) ∧
    (Binary32.MoveBox stockConsts deathWallMap ⟨FloatVal.finite 16, FloatVal.finite 16⟩
      ⟨FloatVal.finite (8488751 / 1099511627776), FloatVal.finite (13976221 / 2199023255552)⟩
      ⟨FloatVal.finite 8, FloatVal.finite 8⟩ (FloatVal.finite (1 / 2)) true true).Pos
      ≠ ⟨FloatVal.finite 16, FloatVal.finite 16⟩ ∧
    (Binary32.MoveBox stockConsts deathWallMap ⟨FloatVal.finite 16, FloatVal.finite 16⟩
      ⟨FloatVal.finite (8488751 / 1099511627776), FloatVal.finite (13976221 / 2199023255552)⟩
      ⟨FloatVal.finite 8, FloatVal.finite 8⟩ (FloatVal.finite (1 / 2)) true true).Death = true := by
  decide!

/-- C14, amended.  When the binary32 length `Distance` of the velocity does
not exceed `0.00001f`, as for the zero velocity, `MoveBox` runs no sub-step:
position and velocity are returned unchanged and no death is reported,
whatever the map contains. -/
theorem MoveBox_still (k : MapConsts) (c : CCollision) (Pos Vel Size : Binary32.vec2)
    (e : FloatVal) (pDeath PL : Bool)
    (hD : F32.lt Binary32.epsilon (Binary32.length Vel) = false) :
    Binary32.MoveBox k c Pos Vel Size e pDeath PL = ⟨Pos, Vel, false⟩ ∧
    Binary32.MoveBox k c Pos ⟨FloatVal.finite 0, FloatVal.finite 0⟩ Size e pDeath PL
      = ⟨Pos, ⟨FloatVal.finite 0, FloatVal.finite 0⟩, false⟩ := by
  constructor
  · unfold Binary32.MoveBox
    rw [hD]
    rfl
  · have h0 : F32.lt Binary32.epsilon
        (Binary32.length ⟨FloatVal.finite 0, FloatVal.finite 0⟩) = false := by decide!
    unfold Binary32.MoveBox
    rw [h0]
    rfl

/-- Witness of C14: a box resting on a death tile of `deathWallMap` with the
velocity (2^-18, 0) and the death output requested. -/
theorem MoveBox_still_witness :
    F32.lt Binary32.epsilon
      (Binary32.length ⟨FloatVal.finite (1 / 262144), FloatVal.finite 0⟩) = false ∧
    Binary32.TestBox deathWallMap ⟨FloatVal.finite 16, FloatVal.finite 16⟩
      ((⟨FloatVal.finite 8, FloatVal.finite 8⟩ : Binary32.vec2) * Binary32.twoThirds)
      stockConsts.COLFLAG_DEATH stockConsts.PhysicLayerDefault = true ∧
    Binary32.MoveBox stockConsts deathWallMap ⟨FloatVal.finite 16, FloatVal.finite 16⟩
        ⟨FloatVal.finite (1 / 262144), FloatVal.finite 0⟩ ⟨FloatVal.finite 8, FloatVal.finite 8⟩
        (FloatVal.finite (1 / 2)) true true
      = ⟨⟨FloatVal.finite 16, FloatVal.finite 16⟩,
         ⟨FloatVal.finite (1 / 262144), FloatVal.finite 0⟩, false⟩ :=
  ⟨by decide!, by decide!,
   (MoveBox_still stockConsts deathWallMap ⟨FloatVal.finite 16, FloatVal.finite 16⟩
      ⟨FloatVal.finite (1 / 262144), FloatVal.finite 0⟩ ⟨FloatVal.finite 8, FloatVal.finite 8⟩
      (FloatVal.finite (1 / 2)) true true (by decide!)).1⟩

/-! ## C28: the collision mode as a flag mask -/

theorem b32_boxTest_mode_false (k : MapConsts) (c : CCollision) (Size P : Binary32.vec2) :
    Binary32.boxTest k c Size false P = false := by
  have hcp : ∀ x y : FloatVal,
      Binary32.CheckPoint c x y (boolToInt false) k.PhysicLayerDefault = false := by
    intro x y
    unfold Binary32.CheckPoint Binary32.IsTile boolToInt
    rw [if_neg (by decide), Int_land_zero]
    decide
  unfold Binary32.boxTest Binary32.TestBox
  simp only [hcp]
  rfl

/-- Counterexample to C28: with the mode false the box at (50,20) with the
velocity (2,0) ends at X = 52.000004, the rounded sum of its 3 sub-steps, not
at 50 + 2 = 52. -/
theorem MoveBox_mode_false_sum :
    (Binary32.MoveBox stockConsts wallMap ⟨FloatVal.finite 50, FloatVal.finite 20⟩
      ⟨FloatVal.finite 2, FloatVal.finite 0⟩ ⟨FloatVal.finite 8, FloatVal.finite 8⟩
      (FloatVal.finite (1 / 2)) false false).Pos
      = ⟨FloatVal.finite (13631489 / 262144), FloatVal.finite 20⟩ ∧
    (⟨FloatVal.finite 50, FloatVal.finite 20⟩ : Binary32.vec2) + ⟨FloatVal.finite 2, FloatVal.finite 0⟩
      = ⟨FloatVal.finite 52, FloatVal.finite 20⟩ ∧
    (52 : ℚ) < 13631489 / 262144 := by
  decide!

/-- C28, amended.  `MoveBox` passes its `bool` mode as the `int` flag mask:
`false` is mask 0 and `true` is mask 1.  With mask 0 the box test never
reports an overlap, every sub-step commits its tentative position
`Pos + Vel * Fraction` and keeps the velocity, and `MoveBox` returns the
position reached by adding `Vel * Fraction` in binary32 once per sub-step
(`Pos` itself when no sub-step runs) with the velocity unchanged. -/
theorem MoveBox_mode_false (k : MapConsts) (c : CCollision) (Pos Vel Size : Binary32.vec2)
    (e : FloatVal) (pDeath : Bool) :
    boolToInt false = 0 ∧ boolToInt true = 1 ∧
    (∀ P : Binary32.vec2, Binary32.boxTest k c Size false P = false) ∧
    (∀ i : ℕ,
      (Binary32.subStepState k c Pos Vel Size e pDeath false i).Pos
        = (fun P : Binary32.vec2 => P + Vel * Binary32.fractionOf Vel)^[i] Pos ∧
      (Binary32.subStepState k c Pos Vel Size e pDeath false i).Vel = Vel) ∧
    (F32.lt Binary32.epsilon (Binary32.length Vel) = true →
      (Binary32.MoveBox k c Pos Vel Size e pDeath false).Pos
        = (fun P : Binary32.vec2 => P + Vel * Binary32.fractionOf Vel)^[Binary32.subStepCount Vel] Pos) ∧
    (F32.lt Binary32.epsilon (Binary32.length Vel) = false →
      (Binary32.MoveBox k c Pos Vel Size e pDeath false).Pos = Pos) ∧
    (Binary32.MoveBox k c Pos Vel Size e pDeath false).Vel = Vel := by
  have hsteps : ∀ i : ℕ,
      (Binary32.subStepState k c Pos Vel Size e pDeath false i).Pos
        = (fun P : Binary32.vec2 => P + Vel * Binary32.fractionOf Vel)^[i] Pos ∧
      (Binary32.subStepState k c Pos Vel Size e pDeath false i).Vel = Vel := by
    intro i
    induction i with
    | zero => exact ⟨rfl, rfl⟩
    | succ i ih =>
      obtain ⟨ih1, ih2⟩ := ih
      obtain ⟨h1, h2⟩ := b32_MoveBoxStep_free k c Size e (Binary32.fractionOf Vel) pDeath false
        (Binary32.subStepState k c Pos Vel Size e pDeath false i)
        (b32_boxTest_mode_false k c Size _)
      rw [b32_subStepState_succ, h1, h2, Function.iterate_succ_apply']
      refine ⟨?_, ih2⟩
      unfold Binary32.tentativePos
      rw [ih1, ih2]
  refine ⟨rfl, rfl, b32_boxTest_mode_false k c Size, hsteps, ?_, ?_, ?_⟩
  · intro hD
    have : Binary32.MoveBox k c Pos Vel Size e pDeath false
        = Binary32.subStepState k c Pos Vel Size e pDeath false (Binary32.subStepCount Vel) := by
      unfold Binary32.MoveBox Binary32.subStepState
      rw [if_pos hD]
    rw [this]
    exact (hsteps _).1
  · intro hD
    unfold Binary32.MoveBox
    rw [hD]
    rfl
  · cases hD : F32.lt Binary32.epsilon (Binary32.length Vel)
    · unfold Binary32.MoveBox
      rw [hD]
      rfl
    · have : Binary32.MoveBox k c Pos Vel Size e pDeath false
          = Binary32.subStepState k c Pos Vel Size e pDeath false (Binary32.subStepCount Vel) := by
        unfold Binary32.MoveBox Binary32.subStepState
        rw [if_pos hD]
      rw [this]
      exact (hsteps _).2

/-! ## C26: the samples of `IntersectLine` -/

theorem round_nonneg (q r : ℚ) (h : 0 ≤ q) (hr : F32.round q = FloatVal.finite r) : 0 ≤ r := by
  rcases h.eq_or_lt with h0 | hpos
  · subst h0
    rw [round_zero] at hr
    injection hr with hr
    rw [← hr]
  · have hne : q ≠ 0 := hpos.ne'
    unfold F32.round at hr
    simp only [hne, if_false, hpos, if_true] at hr
    split_ifs at hr
    injection hr with hr
    rw [← hr]
    apply mul_nonneg
    · have h1 := floor_le_roundHalfEven (|q| / F32.pow2 (max (F32.ilog2 |q|) (-126) - 23))
      have h2 : 0 ≤ ⌊|q| / F32.pow2 (max (F32.ilog2 |q|) (-126) - 23)⌋ := by
        apply Int.floor_nonneg.mpr
        exact div_nonneg (abs_nonneg q) (pow2_pos _).le
      exact_mod_cast le_trans h2 h1
    · exact (pow2_pos _).le

theorem sqrt_nonneg (x : FloatVal) (d : ℚ) (h : F32.sqrt x = FloatVal.finite d) : 0 ≤ d := by
  cases x with
  | finite a =>
    unfold F32.sqrt at h
    simp only at h
    split_ifs at h with h1 h2 h3
    · injection h with h; rw [← h]
    · refine round_nonneg _ d ?_ h
      exact div_nonneg (Nat.cast_nonneg _) (pow2_pos _).le
    · refine round_nonneg _ d ?_ h
      exact div_nonneg (Nat.cast_nonneg _) (pow2_pos _).le
  | posInf => exact absurd h (by simp [F32.sqrt])
  | negInf => exact absurd h (by simp [F32.sqrt])
  | nan => exact absurd h (by simp [F32.sqrt])

theorem b32_IntersectLineScan_miss (k : MapConsts) (c : CCollision) (Pos1 : Binary32.vec2)
    (PL : Bool) (l : List Binary32.vec2) (Last : Binary32.vec2)
    (h : ∀ p ∈ l, Binary32.CheckPoint c p.x p.y (boolToInt PL) k.PhysicLayerDefault = false) :
    Binary32.IntersectLineScan k c Pos1 PL l Last = ⟨0, Pos1, Pos1⟩ := by
  induction l generalizing Last with
  | nil => rfl
  | cons p rest ih =>
    unfold Binary32.IntersectLineScan
    rw [h p (List.mem_cons_self _ _)]
    simp only [Bool.false_eq_true, if_false]
    exact ih p fun q hq => h q (List.mem_cons_of_mem _ hq)

theorem b32_lineSamples_length (Pos0 Pos1 : Binary32.vec2) :
    (Binary32.lineSamples Pos0 Pos1).length = (Binary32.endOf Pos0 Pos1 + 1).toNat := by
  unfold Binary32.lineSamples
  simp only [List.length_map, List.length_range]

theorem F32_add_exact (a b : ℚ) (h : F32.Rep (a + b)) :
    F32.add (FloatVal.finite a) (FloatVal.finite b) = FloatVal.finite (a + b) := h

theorem F32_sub_exact (a b : ℚ) (h : F32.Rep (a - b)) :
    F32.sub (FloatVal.finite a) (FloatVal.finite b) = FloatVal.finite (a - b) := by
  show F32.round (a + -b) = _
  rw [← sub_eq_add_neg]
  exact h

theorem F32_mul_exact (a b : ℚ) (h : F32.Rep (a * b)) :
    F32.mul (FloatVal.finite a) (FloatVal.finite b) = FloatVal.finite (a * b) := h

theorem F32_div_exact (a b : ℚ) (h : F32.Rep (a / b)) :
    F32.div (FloatVal.finite a) (FloatVal.finite b) = FloatVal.div a b := by
  unfold FloatVal.div
  by_cases hb : b = 0
  · subst hb
    simp [F32.div]
  · simp only [F32.div, hb, if_false]
    exact h

theorem F32_neg_eq (x : FloatVal) : F32.neg x = FloatVal.neg x := by
  cases x <;> rfl

theorem F32_add_eq (x y : FloatVal)
    (h : ∀ a b : ℚ, x = FloatVal.finite a → y = FloatVal.finite b → F32.Rep (a + b)) :
    F32.add x y = FloatVal.add x y := by
  cases x <;> cases y <;> try rfl
  exact h _ _ rfl rfl

theorem F32_sub_eq (x y : FloatVal)
    (h : ∀ a b : ℚ, x = FloatVal.finite a → y = FloatVal.finite b → F32.Rep (a - b)) :
    F32.sub x y = FloatVal.sub x y := by
  unfold F32.sub FloatVal.sub
  rw [← F32_neg_eq]
  apply F32_add_eq
  intro a b ha hb
  cases y with
  | finite c =>
    have hc : b = -c := by
      have : F32.neg (FloatVal.finite c) = FloatVal.finite (-c) := rfl
      rw [this] at hb
      injection hb with hb
      exact hb.symm
    subst hc
    rw [← sub_eq_add_neg]
    exact h a c ha rfl
  | posInf => exact absurd hb (by simp [F32.neg])
  | negInf => exact absurd hb (by simp [F32.neg])
  | nan => exact absurd hb (by simp [F32.neg])

theorem F32_ge_zero_eq (x : FloatVal) : F32.ge x (FloatVal.finite 0) = FloatVal.ge x 0 := by
  cases x with
  | finite a =>
    show (!decide (a < 0)) = decide (0 ≤ a)
    by_cases h : a < 0
    · simp [h, not_le.mpr h]
    · simp [h, not_lt.mp h]
  | posInf => rfl
  | negInf => rfl
  | nan => rfl

theorem F32_lt_one_eq (x : FloatVal) : F32.lt x (FloatVal.finite 1) = FloatVal.lt x 1 := by
  cases x <;> rfl

theorem FloatVal.div_eq_finite {a b r : ℚ} (h : FloatVal.div a b = FloatVal.finite r) :
    r = a / b := by
  unfold FloatVal.div at h
  split_ifs at h
  injection h with h
  exact h.symm

theorem b32_sub_exact (a b : vec2) (h : ExactSub a b) :
    Binary32.ofExact a - Binary32.ofExact b = Binary32.ofExact (a - b) := by
  show (⟨F32.sub (FloatVal.finite a.x) (FloatVal.finite b.x),
    F32.sub (FloatVal.finite a.y) (FloatVal.finite b.y)⟩ : Binary32.vec2) = _
  rw [F32_sub_exact _ _ h.1, F32_sub_exact _ _ h.2]
  rfl

theorem b32_dot_exact (a b : vec2) (h : ExactDot a b) :
    Binary32.dot (Binary32.ofExact a) (Binary32.ofExact b) = FloatVal.finite (dot a b) := by
  show F32.add (F32.mul (FloatVal.finite a.x) (FloatVal.finite b.x))
    (F32.mul (FloatVal.finite a.y) (FloatVal.finite b.y)) = _
  rw [F32_mul_exact _ _ h.1, F32_mul_exact _ _ h.2.1, F32_add_exact _ _ h.2.2]
  rfl

theorem F32_det_exact (a b c d : ℚ) (h : ExactDet a b c d) :
    F32.sub (F32.mul (FloatVal.finite a) (FloatVal.finite b))
      (F32.mul (FloatVal.finite c) (FloatVal.finite d)) = FloatVal.finite (a * b - c * d) := by
  rw [F32_mul_exact _ _ h.1, F32_mul_exact _ _ h.2.1, F32_sub_exact _ _ h.2.2]

theorem b32_denom_exact (t0 t1 t2 : vec2) (h : ExactDenom t0 t1 t2) :
    Binary32.denom (Binary32.ofExact t0) (Binary32.ofExact t1) (Binary32.ofExact t2)
      = FloatVal.finite (baryDenom t0 t1 t2) := by
  obtain ⟨_, _, _, hs1, hs2, hd00, hd01, hd11, hdet⟩ := h
  unfold Binary32.denom
  rw [b32_sub_exact _ _ hs1, b32_sub_exact _ _ hs2, b32_dot_exact _ _ hd00,
    b32_dot_exact _ _ hd01, b32_dot_exact _ _ hd11, F32_det_exact _ _ _ _ hdet]
  rfl

/-- When nothing is rounded, the binary32 `BarycentricCoordinates` returns
what the exact one does. -/
theorem b32_bary_exact (t0 t1 t2 p : vec2) (h : ExactBary t0 t1 t2 p) :
    Binary32.BarycentricCoordinates (Binary32.ofExact t0) (Binary32.ofExact t1)
      (Binary32.ofExact t2) (Binary32.ofExact p) = BarycentricCoordinates t0 t1 t2 p := by
  obtain ⟨hden, _, hs3, hd20, hd21, hn1, hn2, hu, hv, huv, hz1, hz2⟩ := h
  have hdenom := b32_denom_exact t0 t1 t2 hden
  obtain ⟨_, _, _, hs1, hs2, hd00, hd01, hd11, hdet⟩ := hden
  have hbx : F32.div (F32.sub
      (F32.mul (Binary32.dot (Binary32.ofExact t2 - Binary32.ofExact t0)
          (Binary32.ofExact t2 - Binary32.ofExact t0))
        (Binary32.dot (Binary32.ofExact p - Binary32.ofExact t0)
          (Binary32.ofExact t1 - Binary32.ofExact t0)))
      (F32.mul (Binary32.dot (Binary32.ofExact t1 - Binary32.ofExact t0)
          (Binary32.ofExact t2 - Binary32.ofExact t0))
        (Binary32.dot (Binary32.ofExact p - Binary32.ofExact t0)
          (Binary32.ofExact t2 - Binary32.ofExact t0))))
      (Binary32.denom (Binary32.ofExact t0) (Binary32.ofExact t1) (Binary32.ofExact t2))
      = FloatVal.div (dot (t2 - t0) (t2 - t0) * dot (p - t0) (t1 - t0)
          - dot (t1 - t0) (t2 - t0) * dot (p - t0) (t2 - t0)) (baryDenom t0 t1 t2) := by
    rw [hdenom, b32_sub_exact _ _ hs1, b32_sub_exact _ _ hs2, b32_sub_exact _ _ hs3,
      b32_dot_exact _ _ hd11, b32_dot_exact _ _ hd20, b32_dot_exact _ _ hd01,
      b32_dot_exact _ _ hd21, F32_det_exact _ _ _ _ hn1]
    exact F32_div_exact _ _ hu
  have hby : F32.div (F32.sub
      (F32.mul (Binary32.dot (Binary32.ofExact t1 - Binary32.ofExact t0)
          (Binary32.ofExact t1 - Binary32.ofExact t0))
        (Binary32.dot (Binary32.ofExact p - Binary32.ofExact t0)
          (Binary32.ofExact t2 - Binary32.ofExact t0)))
      (F32.mul (Binary32.dot (Binary32.ofExact t1 - Binary32.ofExact t0)
          (Binary32.ofExact t2 - Binary32.ofExact t0))
        (Binary32.dot (Binary32.ofExact p - Binary32.ofExact t0)
          (Binary32.ofExact t1 - Binary32.ofExact t0))))
      (Binary32.denom (Binary32.ofExact t0) (Binary32.ofExact t1) (Binary32.ofExact t2))
      = FloatVal.div (dot (t1 - t0) (t1 - t0) * dot (p - t0) (t2 - t0)
          - dot (t1 - t0) (t2 - t0) * dot (p - t0) (t1 - t0)) (baryDenom t0 t1 t2) := by
    rw [hdenom, b32_sub_exact _ _ hs1, b32_sub_exact _ _ hs2, b32_sub_exact _ _ hs3,
      b32_dot_exact _ _ hd00, b32_dot_exact _ _ hd20, b32_dot_exact _ _ hd01,
      b32_dot_exact _ _ hd21, F32_det_exact _ _ _ _ hn2]
    exact F32_div_exact _ _ hv
  unfold Binary32.BarycentricCoordinates BarycentricCoordinates
  simp only []
  rw [hbx, hby]
  have hden_eq : dot (t1 - t0) (t1 - t0) * dot (t2 - t0) (t2 - t0)
      - dot (t1 - t0) (t2 - t0) * dot (t1 - t0) (t2 - t0) = baryDenom t0 t1 t2 := rfl
  rw [hden_eq]
  have hz1' : F32.sub (FloatVal.finite 1)
      (FloatVal.div (dot (t2 - t0) (t2 - t0) * dot (p - t0) (t1 - t0)
          - dot (t1 - t0) (t2 - t0) * dot (p - t0) (t2 - t0)) (baryDenom t0 t1 t2))
      = FloatVal.sub (FloatVal.finite 1)
      (FloatVal.div (dot (t2 - t0) (t2 - t0) * dot (p - t0) (t1 - t0)
          - dot (t1 - t0) (t2 - t0) * dot (p - t0) (t2 - t0)) (baryDenom t0 t1 t2)) := by
    apply F32_sub_eq
    intro a b ha hb
    injection ha with ha
    rw [← ha, FloatVal.div_eq_finite hb]
    exact hz1
  rw [hz1']
  have hz2' : F32.sub (FloatVal.sub (FloatVal.finite 1)
      (FloatVal.div (dot (t2 - t0) (t2 - t0) * dot (p - t0) (t1 - t0)
          - dot (t1 - t0) (t2 - t0) * dot (p - t0) (t2 - t0)) (baryDenom t0 t1 t2)))
      (FloatVal.div (dot (t1 - t0) (t1 - t0) * dot (p - t0) (t2 - t0)
          - dot (t1 - t0) (t2 - t0) * dot (p - t0) (t1 - t0)) (baryDenom t0 t1 t2))
      = FloatVal.sub (FloatVal.sub (FloatVal.finite 1)
      (FloatVal.div (dot (t2 - t0) (t2 - t0) * dot (p - t0) (t1 - t0)
          - dot (t1 - t0) (t2 - t0) * dot (p - t0) (t2 - t0)) (baryDenom t0 t1 t2)))
      (FloatVal.div (dot (t1 - t0) (t1 - t0) * dot (p - t0) (t2 - t0)
          - dot (t1 - t0) (t2 - t0) * dot (p - t0) (t1 - t0)) (baryDenom t0 t1 t2)) := by
    apply F32_sub_eq
    intro a b ha hb
    have hb' := FloatVal.div_eq_finite hb
    by_cases hzero : baryDenom t0 t1 t2 = 0
    · rw [hzero] at ha
      exfalso
      unfold FloatVal.div at ha
      rw [if_pos rfl] at ha
      split_ifs at ha <;> simp [FloatVal.sub, FloatVal.add, FloatVal.neg] at ha
    · rw [FloatVal.div_of_ne _ hzero] at ha
      have : FloatVal.sub (FloatVal.finite 1) (FloatVal.finite
          ((dot (t2 - t0) (t2 - t0) * dot (p - t0) (t1 - t0)
          - dot (t1 - t0) (t2 - t0) * dot (p - t0) (t2 - t0)) / baryDenom t0 t1 t2))
          = FloatVal.finite (1 - baryU t0 t1 t2 p) := by
        simp only [FloatVal.sub, FloatVal.neg, FloatVal.add, sub_eq_add_neg, baryU]
      rw [this] at ha
      injection ha with ha
      rw [← ha, hb']
      exact hz2
  rw [hz2']

/-- When nothing is rounded, the binary32 `InsideTriangle` answers as the
exact one does. -/
theorem b32_InsideTriangle_exact (t0 t1 t2 p : vec2) (h : ExactBary t0 t1 t2 p) :
    Binary32.InsideTriangle (Binary32.ofExact t0) (Binary32.ofExact t1) (Binary32.ofExact t2)
      (Binary32.ofExact p) = InsideTriangle t0 t1 t2 p := by
  have hb := b32_bary_exact t0 t1 t2 p h
  obtain ⟨_, _, _, _, _, _, _, hu, hv, huv, _, _⟩ := h
  unfold Binary32.InsideTriangle InsideTriangle
  simp only []
  rw [hb, F32_ge_zero_eq, F32_ge_zero_eq, F32_lt_one_eq]
  congr 2
  apply F32_add_eq
  intro a b ha hb2
  have ha' : a = baryU t0 t1 t2 p := by
    unfold BarycentricCoordinates at ha
    exact FloatVal.div_eq_finite ha
  have hb' : b = baryV t0 t1 t2 p := by
    unfold BarycentricCoordinates at hb2
    exact FloatVal.div_eq_finite hb2
  rw [ha', hb']
  exact huv

theorem b32_sign_finite (x : ℚ) : Binary32.sign (FloatVal.finite x) = FloatVal.finite (sign x) := by
  unfold Binary32.sign sign
  by_cases h : x < 0
  · simp [F32.lt, h]
  · simp [F32.lt, h]

/-- When nothing is rounded, the binary32 `SameSide` answers as the exact one
does. -/
theorem b32_SameSide_exact (l0 l1 p0 p1 : vec2) (h : ExactSide l0 l1 p0 p1) :
    Binary32.SameSide (Binary32.ofExact l0) (Binary32.ofExact l1) (Binary32.ofExact p0)
      (Binary32.ofExact p1) = SameSide l0 l1 p0 p1 := by
  obtain ⟨hs1, hs2, hs3, hd1, hd2⟩ := h
  unfold Binary32.SameSide SameSide
  simp only []
  rw [b32_sub_exact _ _ hs1, b32_sub_exact _ _ hs2, b32_sub_exact _ _ hs3]
  have e1 : F32.sub (F32.mul (Binary32.ofExact (l1 - l0)).x (Binary32.ofExact (p0 - l0)).y)
      (F32.mul (Binary32.ofExact (l1 - l0)).y (Binary32.ofExact (p0 - l0)).x)
      = FloatVal.finite ((l1 - l0).x * (p0 - l0).y - (l1 - l0).y * (p0 - l0).x) :=
    F32_det_exact _ _ _ _ hd1
  have e2 : F32.sub (F32.mul (Binary32.ofExact (l1 - l0)).x (Binary32.ofExact (p1 - l0)).y)
      (F32.mul (Binary32.ofExact (l1 - l0)).y (Binary32.ofExact (p1 - l0)).x)
      = FloatVal.finite ((l1 - l0).x * (p1 - l0).y - (l1 - l0).y * (p1 - l0).x) :=
    F32_det_exact _ _ _ _ hd2
  rw [e1, e2, b32_sign_finite, b32_sign_finite]
  by_cases hq : sign ((l1 - l0).x * (p0 - l0).y - (l1 - l0).y * (p0 - l0).x)
      = sign ((l1 - l0).x * (p1 - l0).y - (l1 - l0).y * (p1 - l0).x)
  · simp [hq]
  · simp [hq]

/-- When nothing is rounded, the binary32 `InsideQuad` answers as the exact
one does. -/
theorem b32_InsideQuad_exact (q0 q1 q2 q3 p : vec2) (h : ExactQuad q0 q1 q2 q3 p) :
    Binary32.InsideQuad (Binary32.ofExact q0) (Binary32.ofExact q1) (Binary32.ofExact q2)
      (Binary32.ofExact q3) (Binary32.ofExact p) = InsideQuad q0 q1 q2 q3 p := by
  obtain ⟨hs, h1, h2⟩ := h
  unfold Binary32.InsideQuad InsideQuad
  rw [b32_SameSide_exact _ _ _ _ hs, b32_InsideTriangle_exact _ _ _ _ h1,
    b32_InsideTriangle_exact _ _ _ _ h2]

/-! ## C6: barycentric coordinates -/

theorem F32_div_zero_not_inside (a b : FloatVal) :
    (F32.ge (F32.div a (FloatVal.finite 0)) (FloatVal.finite 0) &&
      F32.ge (F32.div b (FloatVal.finite 0)) (FloatVal.finite 0) &&
      F32.lt (F32.add (F32.div a (FloatVal.finite 0)) (F32.div b (FloatVal.finite 0)))
        (FloatVal.finite 1)) = false := by
  have hcases : ∀ x : FloatVal, F32.div x (FloatVal.finite 0) = FloatVal.posInf ∨
      F32.div x (FloatVal.finite 0) = FloatVal.negInf ∨ F32.div x (FloatVal.finite 0) = FloatVal.nan := by
    intro x
    cases x with
    | finite q =>
      simp only [F32.div, if_true]
      split_ifs
      · left; rfl
      · right; left; rfl
      · right; right; rfl
    | posInf => left; rfl
    | negInf => right; left; rfl
    | nan => right; right; rfl
  rcases hcases a with ha | ha | ha <;> rcases hcases b with hb | hb | hb <;> rw [ha, hb] <;> rfl

theorem F32_div_zero_not_finite (a : FloatVal) (u : ℚ) :
    F32.div a (FloatVal.finite 0) ≠ FloatVal.finite u := by
  cases a with
  | finite q =>
    simp only [F32.div, if_true]
    split_ifs <;> exact fun hh => FloatVal.noConfusion hh
  | posInf => exact fun hh => FloatVal.noConfusion hh
  | negInf => exact fun hh => FloatVal.noConfusion hh
  | nan => exact fun hh => FloatVal.noConfusion hh

theorem b32_InsideTriangle_of_denom_zero (t0 t1 t2 p : Binary32.vec2)
    (h : Binary32.denom t0 t1 t2 = FloatVal.finite 0) :
    Binary32.InsideTriangle t0 t1 t2 p = false := by
  unfold Binary32.InsideTriangle Binary32.BarycentricCoordinates
  simp only []
  rw [h]
  exact F32_div_zero_not_inside _ _

theorem b32_GetTile_of_quads_miss (c : CCollision) (quads : List CQuad) (x y : ℤ)
    (hq : c.m_pPhysicalQuads = some quads)
    (h : ∀ q ∈ quads, Binary32.quadContains q x y = false) :
    Binary32.GetTile c x y true = Binary32.GetTile c x y false := by
  have hfold : ∀ (l : List CQuad) (I : ℤ), (∀ q ∈ l, Binary32.quadContains q x y = false) →
      l.foldl (fun Index q => if Binary32.quadContains q x y then Int.lor Index q.m_ColorEnvOffset
        else Index) I = I := by
    intro l
    induction l with
    | nil => intro I _; rfl
    | cons q qs ih =>
      intro I hl
      rw [List.foldl_cons, hl q (List.mem_cons_self _ _)]
      exact ih I fun q' hq' => hl q' (List.mem_cons_of_mem _ hq')
  unfold Binary32.GetTile
  rw [hq]
  exact hfold quads _ h

/-- Counterexample to C22: the corners (0,0), (1000,1011), (3000,3033),
(4000,4044) lie on one line, so both triangles have zero area and an exact
denominator of 0; in binary32 the denominator of the first is computed as
-4194304, `InsideTriangle` and `InsideQuad` classify the point (5,5) as
inside, and `GetTile` takes the flag 2 of `collinearQuad 2` at the pixel
(5,5). -/
theorem InsideQuad_accepts_in_collinear_quad :
    cross ⟨0, 0⟩ ⟨1000, 1011⟩ ⟨3000, 3033⟩ = 0 ∧
    cross ⟨1000, 1011⟩ ⟨3000, 3033⟩ ⟨4000, 4044⟩ = 0 ∧
    baryDenom ⟨0, 0⟩ ⟨1000, 1011⟩ ⟨3000, 3033⟩ = 0 ∧
    baryDenom ⟨1000, 1011⟩ ⟨3000, 3033⟩ ⟨4000, 4044⟩ = 0 ∧
    Binary32.denom ⟨FloatVal.finite 0, FloatVal.finite 0⟩
      ⟨FloatVal.finite 1000, FloatVal.finite 1011⟩ ⟨FloatVal.finite 3000, FloatVal.finite 3033⟩
      = FloatVal.finite (-4194304) ∧
    Binary32.InsideTriangle ⟨FloatVal.finite 0, FloatVal.finite 0⟩
      ⟨FloatVal.finite 1000, FloatVal.finite 1011⟩ ⟨FloatVal.finite 3000, FloatVal.finite 3033⟩
      ⟨FloatVal.finite 5, FloatVal.finite 5⟩ = true ∧
    Binary32.InsideQuad ⟨FloatVal.finite 0, FloatVal.finite 0⟩
      ⟨FloatVal.finite 1000, FloatVal.finite 1011⟩ ⟨FloatVal.finite 3000, FloatVal.finite 3033⟩
      ⟨FloatVal.finite 4000, FloatVal.finite 4044⟩ ⟨FloatVal.finite 5, FloatVal.finite 5⟩ = true ∧
    Binary32.quadPoint (collinearQuad 2).m_aPoints1 = ⟨FloatVal.finite 1000, FloatVal.finite 1011⟩ ∧
    Binary32.GetTile collinearQuadMap 5 5 false = 0 ∧
    Binary32.GetTile collinearQuadMap 5 5 true = 2 := by
  decide!

/-- C22, amended.  Degenerate geometry in binary32.  When the computed
denominator `d00 * d11 - d01 * d01` is 0, the two divisions yield no finite
value and `InsideTriangle` returns false for every point; `InsideQuad` returns
false when both its triangles have a computed denominator of 0; a map whose
physical quads all do gets no flag from them at any point; and a triangle of
zero area has a computed denominator of 0 when no intermediate result up to
the denominator is rounded (`ExactDenom`). -/
theorem InsideTriangle_degenerate :
    (∀ t0 t1 t2 p : Binary32.vec2, Binary32.denom t0 t1 t2 = FloatVal.finite 0 →
      (∀ u : ℚ, (Binary32.BarycentricCoordinates t0 t1 t2 p).x ≠ FloatVal.finite u) ∧
      (∀ v : ℚ, (Binary32.BarycentricCoordinates t0 t1 t2 p).y ≠ FloatVal.finite v) ∧
      Binary32.InsideTriangle t0 t1 t2 p = false) ∧
    (∀ q0 q1 q2 q3 p : Binary32.vec2, Binary32.denom q0 q1 q2 = FloatVal.finite 0 →
      Binary32.denom q1 q2 q3 = FloatVal.finite 0 → Binary32.InsideQuad q0 q1 q2 q3 p = false) ∧
    (∀ (c : CCollision) (quads : List CQuad) (x y : ℤ), c.m_pPhysicalQuads = some quads →
      (∀ q ∈ quads, Binary32.Degenerate q) →
      Binary32.GetTile c x y true = Binary32.GetTile c x y false) ∧
    (∀ t0 t1 t2 : vec2, ExactDenom t0 t1 t2 → cross t0 t1 t2 = 0 →
      Binary32.denom (Binary32.ofExact t0) (Binary32.ofExact t1) (Binary32.ofExact t2)
        = FloatVal.finite 0) := by
  have hquad : ∀ q0 q1 q2 q3 p : Binary32.vec2, Binary32.denom q0 q1 q2 = FloatVal.finite 0 →
      Binary32.denom q1 q2 q3 = FloatVal.finite 0 → Binary32.InsideQuad q0 q1 q2 q3 p = false := by
    intro q0 q1 q2 q3 p h1 h2
    unfold Binary32.InsideQuad
    rw [b32_InsideTriangle_of_denom_zero q0 q1 q2 p h1,
      b32_InsideTriangle_of_denom_zero q1 q2 q3 p h2]
    split_ifs <;> rfl
  refine ⟨?_, hquad, ?_, ?_⟩
  · intro t0 t1 t2 p h
    refine ⟨?_, ?_, b32_InsideTriangle_of_denom_zero t0 t1 t2 p h⟩
    · intro u
      unfold Binary32.BarycentricCoordinates
      simp only []
      rw [h]
      exact F32_div_zero_not_finite _ u
    · intro v
      unfold Binary32.BarycentricCoordinates
      simp only []
      rw [h]
      exact F32_div_zero_not_finite _ v
  · intro c quads x y hq hdeg
    apply b32_GetTile_of_quads_miss c quads x y hq
    intro q hqm
    obtain ⟨h1, h2⟩ := hdeg q hqm
    exact hquad _ _ _ _ _ h1 h2
  · intro t0 t1 t2 hex hcross
    rw [b32_denom_exact t0 t1 t2 hex]
    unfold baryDenom
    rw [bary_denom_eq, hcross, mul_zero]

/-- Witness of C22: the collinear triangle (0,0), (10,0), (20,0) and the quad
of `lineQuadMap`. -/
theorem InsideTriangle_degenerate_witness :
    Binary32.denom ⟨FloatVal.finite 0, FloatVal.finite 0⟩ ⟨FloatVal.finite 10, FloatVal.finite 0⟩
      ⟨FloatVal.finite 20, FloatVal.finite 0⟩ = FloatVal.finite 0 ∧
    Binary32.BarycentricCoordinates ⟨FloatVal.finite 0, FloatVal.finite 0⟩
      ⟨FloatVal.finite 10, FloatVal.finite 0⟩ ⟨FloatVal.finite 20, FloatVal.finite 0⟩
      ⟨FloatVal.finite 5, FloatVal.finite 0⟩ = ⟨FloatVal.nan, FloatVal.nan, FloatVal.nan⟩ ∧
    Binary32.InsideTriangle ⟨FloatVal.finite 0, FloatVal.finite 0⟩
      ⟨FloatVal.finite 10, FloatVal.finite 0⟩ ⟨FloatVal.finite 20, FloatVal.finite 0⟩
      ⟨FloatVal.finite 5, FloatVal.finite 0⟩ = false ∧
    Binary32.Degenerate (lineQuad 2) ∧
    Binary32.GetTile lineQuadMap 5 0 true = Binary32.GetTile lineQuadMap 5 0 false :=
  ⟨by decide!, by decide!,
   (InsideTriangle_degenerate.1 ⟨FloatVal.finite 0, FloatVal.finite 0⟩
      ⟨FloatVal.finite 10, FloatVal.finite 0⟩ ⟨FloatVal.finite 20, FloatVal.finite 0⟩
      ⟨FloatVal.finite 5, FloatVal.finite 0⟩ (by decide!)).2.2,
   ⟨by decide!, by decide!⟩,
   InsideTriangle_degenerate.2.2.1 lineQuadMap [lineQuad 2] 5 0 rfl
     (by
       intro q hq
       rw [List.mem_singleton] at hq
       subst hq
       exact ⟨by decide!, by decide!⟩)⟩

end Teeworlds
